import Mathlib

/-!
# Cinder `Camera.cpp`: view and projection matrices

A shallow embedding of `src/cinder/Camera.cpp` (classes `Camera`, `CameraPersp`,
`CameraOrtho`, `CameraStereo`).  `float` arithmetic is read over a linearly ordered
field `K` (the rationals make every definition executable).  The `const` member
functions that write the `mutable` cache members are state transformers.
Division is the field's, which is total; where a statement turns on a division by
zero, the method also has a `Checked` version that returns `none` when it divides by
zero (the code then produces infinities or NaN) and the field value otherwise.

Matrices: the code indexes `m[c][r]` (glm, column-major: first index the column,
second the row).  Here a 4x4 matrix is `Matrix (Fin 4) (Fin 4) K` indexed `M r c`,
so the code's `m[c][r]` is `M r c`, and glm's `m * v` is `Matrix.mulVec M v`.
-/

namespace cinder

/-! ## Vectors, quaternions, matrices -/

/-- Two-component vector `Vec2f`. -/
structure Vec2 (K : Type) where
  x : K
  y : K
deriving DecidableEq, Repr

/-- Three-component vector `Vec3f`. -/
structure Vec3 (K : Type) where
  x : K
  y : K
  z : K
deriving DecidableEq, Repr

/-- Quaternion `Quatf` (glm layout: scalar part `w`, vector part `x y z`). -/
structure Quat (K : Type) where
  w : K
  x : K
  y : K
  z : K
deriving DecidableEq, Repr

/-- A 4x4 matrix, indexed row first: the code's `m[c][r]` is `M r c`. -/
abbrev Mat4 (K : Type) := Matrix (Fin 4) (Fin 4) K

/-- A 3x3 matrix, indexed row first. -/
abbrev Mat3 (K : Type) := Matrix (Fin 3) (Fin 3) K

namespace Vec3

variable {K : Type} [LinearOrderedField K]

/-- Component-wise sum, `a + b`. -/
def add (a b : Vec3 K) : Vec3 K := ⟨a.x + b.x, a.y + b.y, a.z + b.z⟩

/-- Component-wise difference, `a - b`. -/
def sub (a b : Vec3 K) : Vec3 K := ⟨a.x - b.x, a.y - b.y, a.z - b.z⟩

/-- Unary minus, `-a`. -/
def neg (a : Vec3 K) : Vec3 K := ⟨-a.x, -a.y, -a.z⟩

/-- Scaling by a scalar, `a * s` (also written `s * a` in the code). -/
def smul (s : K) (a : Vec3 K) : Vec3 K := ⟨a.x * s, a.y * s, a.z * s⟩

/-- Dot product, `a.dot( b )`. -/
def dot (a b : Vec3 K) : K := a.x * b.x + a.y * b.y + a.z * b.z

/-- Cross product, `glm::cross( a, b )`. -/
def cross (a b : Vec3 K) : Vec3 K :=
  ⟨a.y * b.z - b.y * a.z, a.z * b.x - b.z * a.x, a.x * b.y - b.x * a.y⟩

/-- Euclidean length `a.length()`, with the square root supplied by the caller. -/
def length (sqrt : K → K) (a : Vec3 K) : K := sqrt (a.x * a.x + a.y * a.y + a.z * a.z)

/-- The method `a.normalized()`: multiply every component by `1 / length`. -/
def normalized (sqrt : K → K) (a : Vec3 K) : Vec3 K :=
  let invS := 1 / length sqrt a
  ⟨a.x * invS, a.y * invS, a.z * invS⟩

/-- Distance `a.distance( b )`, the length of the difference. -/
def distance (sqrt : K → K) (a b : Vec3 K) : K := length sqrt (sub a b)

/-- The homogeneous point `vec4( v, 1 )`. -/
def toVec4 (a : Vec3 K) : Fin 4 → K := ![a.x, a.y, a.z, 1]

end Vec3

namespace Quat

variable {K : Type} [LinearOrderedField K]

/-- The call `glm::rotate( q, v )`, that is glm's `q * v`:
`v + 2 * (w * (u x v) + u x (u x v))` with `u` the vector part of `q`. -/
def rotate (q : Quat K) (v : Vec3 K) : Vec3 K :=
  let u : Vec3 K := ⟨q.x, q.y, q.z⟩
  let uv := Vec3.cross u v
  let uuv := Vec3.cross u uv
  Vec3.add v (Vec3.smul 2 (Vec3.add (Vec3.smul q.w uv) uuv))

/-- The call `glm::normalize( q )`: divide by the length; a quaternion of length
`<= 0` becomes the identity quaternion. -/
def normalize (sqrt : K → K) (q : Quat K) : Quat K :=
  let len := sqrt (q.w * q.w + q.x * q.x + q.y * q.y + q.z * q.z)
  if len ≤ 0 then ⟨1, 0, 0, 0⟩
  else
    let oneOverLen := 1 / len
    ⟨q.w * oneOverLen, q.x * oneOverLen, q.y * oneOverLen, q.z * oneOverLen⟩

end Quat

/-- The code's assignment `m[c][r] = v` (column index first). -/
def Mat4.set {K : Type} (m : Mat4 K) (c r : Fin 4) (v : K) : Mat4 K :=
  fun i j => if i = r ∧ j = c then v else m i j

/-- The call `glm::inverse` on a 3x3 matrix: cofactors over the determinant. -/
def inverse3 {K : Type} [LinearOrderedField K] (m : Mat3 K) : Mat3 K :=
  let det := m 0 0 * (m 1 1 * m 2 2 - m 1 2 * m 2 1)
           - m 0 1 * (m 1 0 * m 2 2 - m 1 2 * m 2 0)
           + m 0 2 * (m 1 0 * m 2 1 - m 1 1 * m 2 0)
  let o := 1 / det
  !![(m 1 1 * m 2 2 - m 1 2 * m 2 1) * o, -(m 0 1 * m 2 2 - m 0 2 * m 2 1) * o,
       (m 0 1 * m 1 2 - m 0 2 * m 1 1) * o;
     -(m 1 0 * m 2 2 - m 1 2 * m 2 0) * o, (m 0 0 * m 2 2 - m 0 2 * m 2 0) * o,
       -(m 0 0 * m 1 2 - m 0 2 * m 1 0) * o;
     (m 1 0 * m 2 1 - m 1 1 * m 2 0) * o, -(m 0 0 * m 2 1 - m 0 1 * m 2 0) * o,
       (m 0 0 * m 1 1 - m 0 1 * m 1 0) * o]

/-- The call `glm::affineInverse( m )`: invert the upper-left 3x3 block `A`, put
`-A⁻¹ t` in the translation column and `(0,0,0,1)` in the bottom row. -/
def affineInverse {K : Type} [LinearOrderedField K] (m : Mat4 K) : Mat4 K :=
  let a : Mat3 K := !![m 0 0, m 0 1, m 0 2; m 1 0, m 1 1, m 1 2; m 2 0, m 2 1, m 2 2]
  let inv := inverse3 a
  !![inv 0 0, inv 0 1, inv 0 2, -(inv 0 0 * m 0 3 + inv 0 1 * m 1 3 + inv 0 2 * m 2 3);
     inv 1 0, inv 1 1, inv 1 2, -(inv 1 0 * m 0 3 + inv 1 1 * m 1 3 + inv 1 2 * m 2 3);
     inv 2 0, inv 2 1, inv 2 2, -(inv 2 0 * m 0 3 + inv 2 1 * m 1 3 + inv 2 2 * m 2 3);
     0, 0, 0, 1]

/-- Modelled from the spec: the linear-interpolation helper `ci::lerp` of
`cinder/CinderMath.h` (not under `src/`), `a + (b - a) * factor`. -/
def lerp {K : Type} [LinearOrderedField K] (a b factor : K) : K := a + (b - a) * factor

/-- The general case of `glm::rotation( orig, dest )`, for unit vectors that are
neither equal nor opposite (Stan Melax's formula in glm): the quaternion
`(s / 2, (orig x dest) / s)` with `s = sqrt( 2 * (1 + orig . dest) )`. -/
def rotationGeneral {K : Type} [LinearOrderedField K] (sqrt : K → K) (orig dest : Vec3 K) :
    Quat K :=
  let cosTheta := Vec3.dot orig dest
  let rotationAxis := Vec3.cross orig dest
  let s := sqrt ((1 + cosTheta) * 2)
  let invs := 1 / s
  ⟨s * (1 / 2), rotationAxis.x * invs, rotationAxis.y * invs, rotationAxis.z * invs⟩

/-! The library primitives without a closed form over a field are parameters of the
functions that call them, under the names the code uses: `sqrt` (behind
`Vec3f::length` and `glm::normalize`), `tan` and `pi` (`math<float>::tan`, `M_PI`),
`rotation` (`glm::rotation( orig, dest )`), `alignZAxisWithTarget` (helper of
`cinder/Matrix.h`), `toQuat` (`glm::toQuat`), `inverse` (the general 4x4
`glm::inverse`). -/

/-! ## `Camera` -/

/-- Data members of the base class `Camera`, as `Camera.cpp` uses them. -/
structure Camera (K : Type) where
  mEyePoint : Vec3 K
  mViewDirection : Vec3 K
  mOrientation : Quat K
  mCenterOfInterest : K
  mWorldUp : Vec3 K
  mFov : K
  mAspectRatio : K
  mNearClip : K
  mFarClip : K
  mU : Vec3 K
  mV : Vec3 K
  mW : Vec3 K
  mProjectionMatrix : Mat4 K
  mInverseProjectionMatrix : Mat4 K
  mProjectionCached : Bool
  mViewMatrix : Mat4 K
  mModelViewCached : Bool
  mInverseModelViewMatrix : Mat4 K
  mInverseModelViewCached : Bool
  mFrustumLeft : K
  mFrustumRight : K
  mFrustumTop : K
  mFrustumBottom : K

namespace Camera

variable {K : Type} [LinearOrderedField K]

/-- The mutator `Camera::setEyePoint`. -/
def setEyePoint (c : Camera K) (aEyePoint : Vec3 K) : Camera K :=
  { c with mEyePoint := aEyePoint, mModelViewCached := false }

/-- The mutator `Camera::setViewDirection`. -/
def setViewDirection (sqrt : K → K) (rotation : Vec3 K → Vec3 K → Quat K) (c : Camera K)
    (aViewDirection : Vec3 K) : Camera K :=
  let vd := Vec3.normalized sqrt aViewDirection
  { c with
    mViewDirection := vd
    mOrientation := rotation vd ⟨0, 0, -1⟩
    mModelViewCached := false }

/-- The mutator `Camera::setOrientation`. -/
def setOrientation (sqrt : K → K) (c : Camera K) (aOrientation : Quat K) : Camera K :=
  let q := Quat.normalize sqrt aOrientation
  { c with
    mOrientation := q
    mViewDirection := Quat.rotate q ⟨0, 0, -1⟩
    mModelViewCached := false }

/-- The mutator `Camera::setWorldUp`. -/
def setWorldUp (sqrt : K → K) (alignZAxisWithTarget : Vec3 K → Vec3 K → Mat3 K)
    (toQuat : Mat3 K → Quat K) (c : Camera K) (aWorldUp : Vec3 K) : Camera K :=
  let up := Vec3.normalized sqrt aWorldUp
  { c with
    mWorldUp := up
    mOrientation := toQuat (alignZAxisWithTarget (Vec3.neg c.mViewDirection) up)
    mModelViewCached := false }

/-- The mutator `Camera::lookAt( target )`. -/
def lookAt (sqrt : K → K) (alignZAxisWithTarget : Vec3 K → Vec3 K → Mat3 K)
    (toQuat : Mat3 K → Quat K) (c : Camera K) (target : Vec3 K) : Camera K :=
  let vd := Vec3.normalized sqrt (Vec3.sub target c.mEyePoint)
  { c with
    mViewDirection := vd
    mOrientation := toQuat (alignZAxisWithTarget (Vec3.neg vd) c.mWorldUp)
    mModelViewCached := false }

/-- The mutator `Camera::lookAt( eyePoint, target )`. -/
def lookAt2 (sqrt : K → K) (alignZAxisWithTarget : Vec3 K → Vec3 K → Mat3 K)
    (toQuat : Mat3 K → Quat K) (c : Camera K) (aEyePoint target : Vec3 K) : Camera K :=
  let vd := Vec3.normalized sqrt (Vec3.sub target aEyePoint)
  { c with
    mEyePoint := aEyePoint
    mViewDirection := vd
    mOrientation := toQuat (alignZAxisWithTarget (Vec3.neg vd) c.mWorldUp)
    mModelViewCached := false }

/-- The mutator `Camera::lookAt( eyePoint, target, worldUp )`. -/
def lookAt3 (sqrt : K → K) (alignZAxisWithTarget : Vec3 K → Vec3 K → Mat3 K)
    (toQuat : Mat3 K → Quat K) (c : Camera K) (aEyePoint target aWorldUp : Vec3 K) : Camera K :=
  let up := Vec3.normalized sqrt aWorldUp
  let vd := Vec3.normalized sqrt (Vec3.sub target aEyePoint)
  { c with
    mEyePoint := aEyePoint
    mWorldUp := up
    mViewDirection := vd
    mOrientation := toQuat (alignZAxisWithTarget (Vec3.neg vd) up)
    mModelViewCached := false }

/-- The method `Camera::calcViewMatrix`: derive `mU mV mW`, fill the view matrix,
set the view flag and clear the inverse-view flag. -/
def calcViewMatrix (sqrt : K → K) (c : Camera K) : Camera K :=
  let w := Vec3.neg (Vec3.normalized sqrt c.mViewDirection)
  let u := Quat.rotate c.mOrientation ⟨1, 0, 0⟩
  let v := Quat.rotate c.mOrientation ⟨0, 1, 0⟩
  let d : Vec3 K := ⟨-Vec3.dot c.mEyePoint u, -Vec3.dot c.mEyePoint v, -Vec3.dot c.mEyePoint w⟩
  { c with
    mW := w
    mU := u
    mV := v
    mViewMatrix := !![u.x, u.y, u.z, d.x;
                      v.x, v.y, v.z, d.y;
                      w.x, w.y, w.z, d.z;
                      0, 0, 0, 1]
    mModelViewCached := true
    mInverseModelViewCached := false }

/-- The method `Camera::calcInverseView`. -/
def calcInverseView (sqrt : K → K) (inverse : Mat4 K → Mat4 K) (c : Camera K) : Camera K :=
  let c1 := if !c.mModelViewCached then calcViewMatrix sqrt c else c
  { c1 with
    mInverseModelViewMatrix := inverse c1.mViewMatrix
    mInverseModelViewCached := true }

end Camera

/-! ## `CameraPersp` -/

/-- The class `CameraPersp`: a `Camera` with a lens shift. -/
structure CameraPersp (K : Type) extends Camera K where
  mLensShift : Vec2 K

namespace CameraPersp

variable {K : Type} [LinearOrderedField K]

/-- The mutator `CameraPersp::setPerspective`. -/
def setPerspective (c : CameraPersp K) (verticalFovDegrees aspectRatio nearPlane farPlane : K) :
    CameraPersp K :=
  { c with
    mFov := verticalFovDegrees
    mAspectRatio := aspectRatio
    mNearClip := nearPlane
    mFarClip := farPlane
    mProjectionCached := false }

/-- The mutator `CameraPersp::setLensShift`. -/
def setLensShift (c : CameraPersp K) (horizontal vertical : K) : CameraPersp K :=
  { c with mLensShift := ⟨horizontal, vertical⟩, mProjectionCached := false }

/-- The method `CameraPersp::calcProjection`: frustum bounds from the lens
parameters, the lens shift, then the projection matrix and its closed-form inverse.
The constant `0.5f` is `1 / 2`. -/
def calcProjection (tan : K → K) (pi : K) (c : CameraPersp K) : CameraPersp K :=
  let top0 := c.mNearClip * tan (pi / 180 * c.mFov * (1 / 2))
  let bottom0 := -top0
  let right0 := top0 * c.mAspectRatio
  let left0 := -right0
  let t := if c.mLensShift.y ≠ 0 then lerp 0 (2 * top0) (1 / 2 + 1 / 2 * c.mLensShift.y) else top0
  let b := if c.mLensShift.y ≠ 0 then lerp (2 * bottom0) 0 (1 / 2 + 1 / 2 * c.mLensShift.y)
    else bottom0
  let r := if c.mLensShift.x ≠ 0 then lerp (2 * right0) 0 (1 / 2 - 1 / 2 * c.mLensShift.x)
    else right0
  let l := if c.mLensShift.x ≠ 0 then lerp 0 (2 * left0) (1 / 2 - 1 / 2 * c.mLensShift.x)
    else left0
  let n := c.mNearClip
  let f := c.mFarClip
  { c with
    mFrustumTop := t
    mFrustumBottom := b
    mFrustumRight := r
    mFrustumLeft := l
    mProjectionMatrix :=
      !![2 * n / (r - l), 0, (r + l) / (r - l), 0;
         0, 2 * n / (t - b), (t + b) / (t - b), 0;
         0, 0, -(f + n) / (f - n), -2 * f * n / (f - n);
         0, 0, -1, 0]
    mInverseProjectionMatrix :=
      !![(r - l) / (2 * n), 0, 0, (r + l) / (2 * n);
         0, (t - b) / (2 * n), 0, (t + b) / (2 * n);
         0, 0, 0, -1;
         0, 0, -(f - n) / (2 * f * n), (f + n) / (2 * f * n)]
    mProjectionCached := true }

end CameraPersp

/-! ## `CameraOrtho` -/

/-- The class `CameraOrtho`: a `Camera` whose frustum bounds are set directly. -/
structure CameraOrtho (K : Type) extends Camera K

namespace CameraOrtho

variable {K : Type} [LinearOrderedField K]

/-- The mutator `CameraOrtho::setOrtho`. -/
def setOrtho (c : CameraOrtho K) (left right bottom top nearPlane farPlane : K) : CameraOrtho K :=
  { c with
    mFrustumLeft := left
    mFrustumRight := right
    mFrustumTop := top
    mFrustumBottom := bottom
    mNearClip := nearPlane
    mFarClip := farPlane
    mProjectionCached := false }

/-- The method `CameraOrtho::calcProjection`: the orthographic projection matrix and
the matrix the code stores as its inverse.  The constant `0.5f` is `1 / 2`. -/
def calcProjection (c : CameraOrtho K) : CameraOrtho K :=
  let l := c.mFrustumLeft
  let r := c.mFrustumRight
  let t := c.mFrustumTop
  let b := c.mFrustumBottom
  let n := c.mNearClip
  let f := c.mFarClip
  { c with
    mProjectionMatrix :=
      !![2 / (r - l), 0, 0, -(r + l) / (r - l);
         0, 2 / (t - b), 0, -(t + b) / (t - b);
         0, 0, -2 / (f - n), -(f + n) / (f - n);
         0, 0, 0, 1]
    mInverseProjectionMatrix :=
      !![(r - l) * (1 / 2), 0, 0, (r + l) * (1 / 2);
         0, (t - b) * (1 / 2), 0, (t + b) * (1 / 2);
         0, 0, (f - n) * (1 / 2), (n + f) * (1 / 2);
         0, 0, 0, 1]
    mProjectionCached := true }

end CameraOrtho

/-! ## `CameraStereo` -/

/-- The class `CameraStereo`: a `CameraPersp` with per-eye state and matrices. -/
structure CameraStereo (K : Type) extends CameraPersp K where
  mIsStereo : Bool
  mIsLeft : Bool
  mEyeSeparation : K
  mConvergence : K
  mProjectionMatrixLeft : Mat4 K
  mInverseProjectionMatrixLeft : Mat4 K
  mProjectionMatrixRight : Mat4 K
  mInverseProjectionMatrixRight : Mat4 K
  mViewMatrixLeft : Mat4 K
  mInverseModelViewMatrixLeft : Mat4 K
  mViewMatrixRight : Mat4 K
  mInverseModelViewMatrixRight : Mat4 K

namespace CameraStereo

variable {K : Type} [LinearOrderedField K]

/-- A base-class (`Camera`) mutator called on a stereo camera. -/
def onCamera (f : Camera K → Camera K) (s : CameraStereo K) : CameraStereo K :=
  { s with toCameraPersp := { s.toCameraPersp with toCamera := f s.toCamera } }

/-- The method `CameraStereo::getEyePointShifted`. -/
def getEyePointShifted (s : CameraStereo K) : Vec3 K :=
  if !s.mIsStereo then s.mEyePoint
  else if s.mIsLeft then
    Vec3.sub s.mEyePoint
      (Vec3.smul (1 / 2 * s.mEyeSeparation) (Quat.rotate s.mOrientation ⟨1, 0, 0⟩))
  else
    Vec3.add s.mEyePoint
      (Vec3.smul (1 / 2 * s.mEyeSeparation) (Quat.rotate s.mOrientation ⟨1, 0, 0⟩))

/-- The method `CameraStereo::calcViewMatrix`: the mono view matrix, then the two
per-eye copies with the translation column recomputed from the shifted eye. -/
def calcViewMatrix (sqrt : K → K) (s : CameraStereo K) : CameraStereo K :=
  let c := Camera.calcViewMatrix sqrt s.toCamera
  let side := Vec3.smul (1 / 2 * s.mEyeSeparation) (Quat.rotate c.mOrientation ⟨1, 0, 0⟩)
  let eyeL := Vec3.sub c.mEyePoint side
  let dL : Vec3 K := ⟨-Vec3.dot eyeL c.mU, -Vec3.dot eyeL c.mV, -Vec3.dot eyeL c.mW⟩
  let eyeR := Vec3.add c.mEyePoint side
  let dR : Vec3 K := ⟨-Vec3.dot eyeR c.mU, -Vec3.dot eyeR c.mV, -Vec3.dot eyeR c.mW⟩
  { s with
    toCameraPersp :=
      { s.toCameraPersp with
        toCamera := { c with mModelViewCached := true, mInverseModelViewCached := false } }
    mViewMatrixLeft := ((c.mViewMatrix.set 3 0 dL.x).set 3 1 dL.y).set 3 2 dL.z
    mViewMatrixRight := ((c.mViewMatrix.set 3 0 dR.x).set 3 1 dR.y).set 3 2 dR.z }

/-- The method `CameraStereo::calcInverseView`. -/
def calcInverseView (sqrt : K → K) (s : CameraStereo K) : CameraStereo K :=
  let s1 := if !s.mModelViewCached then calcViewMatrix sqrt s else s
  let inv := affineInverse s1.mViewMatrix
  let invLeft := affineInverse s1.mViewMatrixLeft
  let invRight := affineInverse s1.mViewMatrixRight
  { s1 with
    toCameraPersp :=
      { s1.toCameraPersp with
        toCamera :=
          { s1.toCamera with
            mInverseModelViewMatrix := inv
            mInverseModelViewCached := true } }
    mInverseModelViewMatrixLeft := invLeft
    mInverseModelViewMatrixRight := invRight }

/-- The method `CameraStereo::calcProjection`: the mono matrices, copied to both
eyes, then the four per-eye element assignments exactly as the code makes them. -/
def calcProjection (tan : K → K) (pi : K) (s : CameraStereo K) : CameraStereo K :=
  let p := CameraPersp.calcProjection tan pi s.toCameraPersp
  let r := p.mFrustumRight
  let l := p.mFrustumLeft
  let shift := s.mEyeSeparation * (p.mNearClip / s.mConvergence)
  { s with
    toCameraPersp := { p with mProjectionCached := true }
    mProjectionMatrixLeft := p.mProjectionMatrix
    mInverseProjectionMatrixLeft :=
      ((p.mInverseProjectionMatrix).set 2 0 ((r + l + shift) / (r - l))).set 3 0
        ((r + l + shift) / (2 * p.mNearClip))
    mProjectionMatrixRight :=
      ((p.mProjectionMatrix).set 2 0 ((r + l - shift) / (r - l))).set 3 0
        ((r + l - shift) / (2 * p.mNearClip))
    mInverseProjectionMatrixRight := p.mInverseProjectionMatrix }

/-- The accessor `CameraStereo::getProjectionMatrix`: the returned matrix and the
camera with its caches updated. -/
def getProjectionMatrix (tan : K → K) (pi : K) (s : CameraStereo K) : Mat4 K × CameraStereo K :=
  let s1 := if !s.mProjectionCached then calcProjection tan pi s else s
  if !s1.mIsStereo then (s1.mProjectionMatrix, s1)
  else if s1.mIsLeft then (s1.mProjectionMatrixLeft, s1)
  else (s1.mProjectionMatrixRight, s1)

/-- The accessor `CameraStereo::getViewMatrix`. -/
def getViewMatrix (sqrt : K → K) (s : CameraStereo K) : Mat4 K × CameraStereo K :=
  let s1 := if !s.mModelViewCached then calcViewMatrix sqrt s else s
  if !s1.mIsStereo then (s1.mViewMatrix, s1)
  else if s1.mIsLeft then (s1.mViewMatrixLeft, s1)
  else (s1.mViewMatrixRight, s1)

/-- The accessor `CameraStereo::getInverseViewMatrix`. -/
def getInverseViewMatrix (sqrt : K → K) (s : CameraStereo K) : Mat4 K × CameraStereo K :=
  let s1 := if !s.mInverseModelViewCached then calcInverseView sqrt s else s
  if !s1.mIsStereo then (s1.mInverseModelViewMatrix, s1)
  else if s1.mIsLeft then (s1.mInverseModelViewMatrixLeft, s1)
  else (s1.mInverseModelViewMatrixRight, s1)

end CameraStereo

/-- The last step of `Camera::worldToNdc`: the clip-space vector `proj * eye`
divided through by its `w`. -/
def projectToNdc {K : Type} [LinearOrderedField K] (proj : Mat4 K) (eye : Fin 4 → K) : Vec3 K :=
  let unproj := Matrix.mulVec proj eye
  ⟨unproj 0 / unproj 3, unproj 1 / unproj 3, unproj 2 / unproj 3⟩

/-! ## Queries of the base class -/

/-- The bounding sphere `Sphere`: centre and radius. -/
structure Sphere (K : Type) where
  mCenter : Vec3 K
  mRadius : K

/-- The ray `Ray`: origin and direction. -/
structure Ray (K : Type) where
  mOrigin : Vec3 K
  mDirection : Vec3 K

/-- The four corner points that `getNearClipCoordinates` and `getFarClipCoordinates`
write through their output pointers. -/
structure ClipCoordinates (K : Type) where
  topLeft : Vec3 K
  topRight : Vec3 K
  bottomLeft : Vec3 K
  bottomRight : Vec3 K

/-- Distance of two `Vec2f`, `a.distance( b )`. -/
def Vec2.distance {K : Type} [LinearOrderedField K] (sqrt : K → K) (a b : Vec2 K) : K :=
  sqrt ((a.x - b.x) * (a.x - b.x) + (a.y - b.y) * (a.y - b.y))

namespace Camera

variable {K : Type} [LinearOrderedField K]

/-- Modelled from the spec: the accessor `Camera::getViewMatrix` of `cinder/Camera.h`
(not under `src/`): recompute on a cache miss, return the cached matrix; the
overrides in `CameraStereo` show the same pattern. -/
def getViewMatrix (sqrt : K → K) (c : Camera K) : Mat4 K × Camera K :=
  let c1 := if !c.mModelViewCached then calcViewMatrix sqrt c else c
  (c1.mViewMatrix, c1)

/-- Modelled from the spec: the accessor `Camera::getProjectionMatrix` of
`cinder/Camera.h` (not under `src/`): recompute on a cache miss, return the cached
matrix.  The virtual `calcProjection` of the object is the parameter. -/
def getProjectionMatrix (calcProjection : Camera K → Camera K) (c : Camera K) :
    Mat4 K × Camera K :=
  let c1 := if !c.mProjectionCached then calcProjection c else c
  (c1.mProjectionMatrix, c1)

/-- Modelled from the spec: the accessor `Camera::getInverseViewMatrix` of
`cinder/Camera.h` (not under `src/`): recompute on a cache miss, return the cached
matrix. -/
def getInverseViewMatrix (sqrt : K → K) (inverse : Mat4 K → Mat4 K) (c : Camera K) :
    Mat4 K × Camera K :=
  let c1 := if !c.mInverseModelViewCached then calcInverseView sqrt inverse c else c
  (c1.mInverseModelViewMatrix, c1)

/-- Modelled from the spec: the getter `Camera::getCenterOfInterest` of
`cinder/Camera.h` (not under `src/`). -/
def getCenterOfInterest (c : Camera K) : K := c.mCenterOfInterest

/-- Modelled from the spec: the setter `Camera::setCenterOfInterest` of
`cinder/Camera.h` (not under `src/`). -/
def setCenterOfInterest (c : Camera K) (aCenterOfInterest : K) : Camera K :=
  { c with mCenterOfInterest := aCenterOfInterest }

/-- The method `Camera::calcMatrices`, with the virtual `calcProjection` of the
object as a parameter (the view matrix is the base class's). -/
def calcMatrices (sqrt : K → K) (calcProjection : Camera K → Camera K) (c : Camera K) :
    Camera K :=
  let c1 := if !c.mModelViewCached then calcViewMatrix sqrt c else c
  if !c1.mProjectionCached then calcProjection c1 else c1

/-- The method `Camera::getNearClipCoordinates`. -/
def getNearClipCoordinates (sqrt : K → K) (calcProjection : Camera K → Camera K)
    (c : Camera K) : ClipCoordinates K × Camera K :=
  let c1 := calcMatrices sqrt calcProjection c
  let viewDirection := Vec3.normalized sqrt c1.mViewDirection
  let front := Vec3.add c1.mEyePoint (Vec3.smul c1.mNearClip viewDirection)
  ({ topLeft := Vec3.add (Vec3.add front (Vec3.smul c1.mFrustumTop c1.mV))
        (Vec3.smul c1.mFrustumLeft c1.mU)
     topRight := Vec3.add (Vec3.add front (Vec3.smul c1.mFrustumTop c1.mV))
        (Vec3.smul c1.mFrustumRight c1.mU)
     bottomLeft := Vec3.add (Vec3.add front (Vec3.smul c1.mFrustumBottom c1.mV))
        (Vec3.smul c1.mFrustumLeft c1.mU)
     bottomRight := Vec3.add (Vec3.add front (Vec3.smul c1.mFrustumBottom c1.mV))
        (Vec3.smul c1.mFrustumRight c1.mU) }, c1)

/-- The method `Camera::getFarClipCoordinates`. -/
def getFarClipCoordinates (sqrt : K → K) (calcProjection : Camera K → Camera K)
    (c : Camera K) : ClipCoordinates K × Camera K :=
  let c1 := calcMatrices sqrt calcProjection c
  let viewDirection := Vec3.normalized sqrt c1.mViewDirection
  let ratio := c1.mFarClip / c1.mNearClip
  let front := Vec3.add c1.mEyePoint (Vec3.smul c1.mFarClip viewDirection)
  ({ topLeft := Vec3.add (Vec3.add front (Vec3.smul (ratio * c1.mFrustumTop) c1.mV))
        (Vec3.smul (ratio * c1.mFrustumLeft) c1.mU)
     topRight := Vec3.add (Vec3.add front (Vec3.smul (ratio * c1.mFrustumTop) c1.mV))
        (Vec3.smul (ratio * c1.mFrustumRight) c1.mU)
     bottomLeft := Vec3.add (Vec3.add front (Vec3.smul (ratio * c1.mFrustumBottom) c1.mV))
        (Vec3.smul (ratio * c1.mFrustumLeft) c1.mU)
     bottomRight := Vec3.add (Vec3.add front (Vec3.smul (ratio * c1.mFrustumBottom) c1.mV))
        (Vec3.smul (ratio * c1.mFrustumRight) c1.mU) }, c1)

/-- The method `Camera::generateRay`. -/
def generateRay (sqrt : K → K) (calcProjection : Camera K → Camera K) (c : Camera K)
    (uPos vPos imagePlaneApectRatio : K) : Ray K × Camera K :=
  let c1 := calcMatrices sqrt calcProjection c
  let s := (uPos - 1 / 2) * imagePlaneApectRatio
  let t := vPos - 1 / 2
  let viewDistance := imagePlaneApectRatio / |c1.mFrustumRight - c1.mFrustumLeft| * c1.mNearClip
  (⟨c1.mEyePoint,
    Vec3.normalized sqrt
      (Vec3.sub (Vec3.add (Vec3.smul s c1.mU) (Vec3.smul t c1.mV))
        (Vec3.smul viewDistance c1.mW))⟩, c1)

/-- The method `Camera::worldToScreen`: the view transform keeps `x y z` only, then
the projection, the divide by `w` and the pixel mapping with `y` flipped. -/
def worldToScreen (sqrt : K → K) (calcProjection : Camera K → Camera K) (c : Camera K)
    (worldCoord : Vec3 K) (screenWidth screenHeight : K) : Vec2 K × Camera K :=
  let rv := getViewMatrix sqrt c
  let e := Matrix.mulVec rv.1 worldCoord.toVec4
  let eyeCoord : Vec3 K := ⟨e 0, e 1, e 2⟩
  let rp := getProjectionMatrix calcProjection rv.2
  let ndc := Matrix.mulVec rp.1 eyeCoord.toVec4
  let x := ndc 0 / ndc 3
  let y := ndc 1 / ndc 3
  (⟨(x + 1) / 2 * screenWidth, (1 - (y + 1) / 2) * screenHeight⟩, rp.2)

/-- The method `Camera::worldToEyeDepth`: the code's `m[0][2]`, `m[1][2]`, `m[2][2]`,
`m[3][2]` are row 2 of the view matrix. -/
def worldToEyeDepth (sqrt : K → K) (c : Camera K) (worldCoord : Vec3 K) : K × Camera K :=
  let rv := getViewMatrix sqrt c
  let m := rv.1
  (m 2 0 * worldCoord.x + m 2 1 * worldCoord.y + m 2 2 * worldCoord.z + m 2 3, rv.2)

/-- The method `Camera::worldToNdc`. -/
def worldToNdc (sqrt : K → K) (calcProjection : Camera K → Camera K) (c : Camera K)
    (worldCoord : Vec3 K) : Vec3 K × Camera K :=
  let rv := getViewMatrix sqrt c
  let eye := Matrix.mulVec rv.1 worldCoord.toVec4
  let rp := getProjectionMatrix calcProjection rv.2
  (projectToNdc rp.1 eye, rp.2)

/-- The method `Camera::getScreenRadius`; `getOrthogonal` is `Vec3f::getOrthogonal`. -/
def getScreenRadius (sqrt : K → K) (getOrthogonal : Vec3 K → Vec3 K)
    (calcProjection : Camera K → Camera K) (c : Camera K) (sphere : Sphere K)
    (screenWidth screenHeight : K) : K × Camera K :=
  let r1 := worldToScreen sqrt calcProjection c sphere.mCenter screenWidth screenHeight
  let orthog := Vec3.normalized sqrt (getOrthogonal r1.2.mViewDirection)
  let r2 := worldToScreen sqrt calcProjection r1.2
    (Vec3.add sphere.mCenter (Vec3.smul sphere.mRadius orthog)) screenWidth screenHeight
  (Vec2.distance sqrt r2.1 r1.1, r2.2)

/-- The cached view data are current: when the view flag is set, `mU`, `mV`, `mW`
and the view matrix are what `calcViewMatrix` computes from the pose.  Every pose
mutator clears the flag and `calcViewMatrix` sets it with fresh values. -/
def ViewCurrent (sqrt : K → K) (c : Camera K) : Prop :=
  c.mModelViewCached = true →
    c.mU = (calcViewMatrix sqrt c).mU ∧ c.mV = (calcViewMatrix sqrt c).mV ∧
      c.mW = (calcViewMatrix sqrt c).mW ∧ c.mViewMatrix = (calcViewMatrix sqrt c).mViewMatrix

end Camera

/-! ## Queries of `CameraPersp` and `CameraStereo` -/

namespace CameraPersp

variable {K : Type} [LinearOrderedField K]

/-- A base-class (`Camera`) member function called on a perspective camera. -/
def onCamera (f : Camera K → Camera K) (c : CameraPersp K) : CameraPersp K :=
  { c with toCamera := f c.toCamera }

/-- The virtual call `calcProjection()` that a base-class method makes on a
`CameraPersp` object whose lens shift is `lensShift`. -/
def calcProjectionOf (tan : K → K) (pi : K) (lensShift : Vec2 K) (c : Camera K) : Camera K :=
  (calcProjection tan pi { toCamera := c, mLensShift := lensShift }).toCamera

/-- The method `Camera::worldToNdc` on a perspective camera. -/
def worldToNdc (sqrt tan : K → K) (pi : K) (c : CameraPersp K) (worldCoord : Vec3 K) :
    Vec3 K × CameraPersp K :=
  let r := Camera.worldToNdc sqrt (calcProjectionOf tan pi c.mLensShift) c.toCamera worldCoord
  (r.1, { c with toCamera := r.2 })

/-- The method `Camera::worldToScreen` on a perspective camera. -/
def worldToScreen (sqrt tan : K → K) (pi : K) (c : CameraPersp K) (worldCoord : Vec3 K)
    (screenWidth screenHeight : K) : Vec2 K × CameraPersp K :=
  let r := Camera.worldToScreen sqrt (calcProjectionOf tan pi c.mLensShift) c.toCamera worldCoord
    screenWidth screenHeight
  (r.1, { c with toCamera := r.2 })

/-- The method `Camera::getScreenRadius` on a perspective camera. -/
def getScreenRadius (sqrt : K → K) (getOrthogonal : Vec3 K → Vec3 K) (tan : K → K) (pi : K)
    (c : CameraPersp K) (sphere : Sphere K) (screenWidth screenHeight : K) :
    K × CameraPersp K :=
  let r := Camera.getScreenRadius sqrt getOrthogonal (calcProjectionOf tan pi c.mLensShift)
    c.toCamera sphere screenWidth screenHeight
  (r.1, { c with toCamera := r.2 })

/-- The cached projection matrix is current: when the projection flag is set, it is
what `calcProjection` computes from the lens parameters. -/
def ProjectionCurrent (tan : K → K) (pi : K) (c : CameraPersp K) : Prop :=
  c.mProjectionCached = true → c.mProjectionMatrix = (calcProjection tan pi c).mProjectionMatrix

/-- The local variables of `CameraPersp::getFrameSphere` that its loop updates. -/
structure FrameSphereState (K : Type) where
  result : CameraPersp K
  minDistance : K
  maxDistance : K
  curDistance : K

/-- The state of `CameraPersp::getFrameSphere` on entry to its loop: the copy of the
camera moved to `centerOfInterest` from the sphere centre, the bounds `0.01f` and
`100000.0f`, and the current distance `centerOfInterest`. -/
def frameSphereInit (c : CameraPersp K) (worldSpaceSphere : Sphere K) : FrameSphereState K :=
  { result := onCamera (fun r => Camera.setEyePoint r
      (Vec3.sub worldSpaceSphere.mCenter
        (Vec3.smul (Camera.getCenterOfInterest c.toCamera) r.mViewDirection))) c
    minDistance := 1 / 100
    maxDistance := 100000
    curDistance := Camera.getCenterOfInterest c.toCamera }

/-- One pass through the loop body of `CameraPersp::getFrameSphere`. -/
def frameSphereBody (sqrt : K → K) (getOrthogonal : Vec3 K → Vec3 K) (tan : K → K) (pi : K)
    (worldSpaceSphere : Sphere K) (st : FrameSphereState K) : FrameSphereState K :=
  let r := getScreenRadius sqrt getOrthogonal tan pi st.result worldSpaceSphere 2 2
  let curRadius := r.1
  let minDistance := if curRadius < 1 then st.minDistance else st.curDistance
  let maxDistance := if curRadius < 1 then st.curDistance else st.maxDistance
  let curDistance :=
    if curRadius < 1 then (st.curDistance + st.minDistance) * (1 / 2)
    else (st.curDistance + st.maxDistance) * (1 / 2)
  { result := onCamera (fun c => Camera.setEyePoint c
      (Vec3.sub worldSpaceSphere.mCenter (Vec3.smul curDistance c.mViewDirection))) r.2
    minDistance := minDistance
    maxDistance := maxDistance
    curDistance := curDistance }

/-- The loop `for( int i = 0; i < maxIterations; ++i )` of `getFrameSphere`, entered
with counter `i`: the counter and the state when it exits. -/
def frameSphereLoop (body : FrameSphereState K → FrameSphereState K) (maxIterations : Int)
    (i : Int) (st : FrameSphereState K) : Int × FrameSphereState K :=
  if i < maxIterations then frameSphereLoop body maxIterations (i + 1) (body st) else (i, st)
termination_by (maxIterations - i).toNat
decreasing_by omega

/-- The method `CameraPersp::getFrameSphere`. -/
def getFrameSphere (sqrt : K → K) (getOrthogonal : Vec3 K → Vec3 K) (tan : K → K) (pi : K)
    (c : CameraPersp K) (worldSpaceSphere : Sphere K) (maxIterations : Int) : CameraPersp K :=
  let st := (frameSphereLoop (frameSphereBody sqrt getOrthogonal tan pi worldSpaceSphere)
    maxIterations 0 (frameSphereInit c worldSpaceSphere)).2
  onCamera (fun r => Camera.setCenterOfInterest r
    (Vec3.distance sqrt r.mEyePoint worldSpaceSphere.mCenter)) st.result

end CameraPersp

namespace CameraStereo

variable {K : Type} [LinearOrderedField K]

/-- The method `Camera::calcMatrices` on a stereo camera: the virtual calls go to
`CameraStereo::calcViewMatrix` and `CameraStereo::calcProjection`. -/
def calcMatrices (sqrt tan : K → K) (pi : K) (s : CameraStereo K) : CameraStereo K :=
  let s1 := if !s.mModelViewCached then calcViewMatrix sqrt s else s
  if !s1.mProjectionCached then calcProjection tan pi s1 else s1

/-- The per-eye frustum shift of `CameraStereo::getNearClipCoordinates` and
`getFarClipCoordinates`: `0.5f * mEyeSeparation * (mNearClip / mConvergence)` times
`1`, `-1` or `0` for the left eye, the right eye, or stereo disabled.  The quotient
is the field's, so this is the value the code computes only for `mConvergence ≠ 0`;
`clipShiftChecked` below is undefined at `mConvergence = 0`. -/
def clipShift (s : CameraStereo K) : K :=
  1 / 2 * s.mEyeSeparation * (s.mNearClip / s.mConvergence) *
    (if s.mIsStereo then (if s.mIsLeft then 1 else -1) else 0)

/-- The method `CameraStereo::getNearClipCoordinates`. -/
def getNearClipCoordinates (sqrt tan : K → K) (pi : K) (s : CameraStereo K) :
    ClipCoordinates K × CameraStereo K :=
  let s1 := calcMatrices sqrt tan pi s
  let viewDirection := Vec3.normalized sqrt s1.mViewDirection
  let eye := getEyePointShifted s1
  let left := s1.mFrustumLeft + clipShift s1
  let right := s1.mFrustumRight + clipShift s1
  let front := Vec3.add eye (Vec3.smul s1.mNearClip viewDirection)
  ({ topLeft := Vec3.add (Vec3.add front (Vec3.smul s1.mFrustumTop s1.mV)) (Vec3.smul left s1.mU)
     topRight := Vec3.add (Vec3.add front (Vec3.smul s1.mFrustumTop s1.mV))
        (Vec3.smul right s1.mU)
     bottomLeft := Vec3.add (Vec3.add front (Vec3.smul s1.mFrustumBottom s1.mV))
        (Vec3.smul left s1.mU)
     bottomRight := Vec3.add (Vec3.add front (Vec3.smul s1.mFrustumBottom s1.mV))
        (Vec3.smul right s1.mU) }, s1)

/-- The method `CameraStereo::getFarClipCoordinates`. -/
def getFarClipCoordinates (sqrt tan : K → K) (pi : K) (s : CameraStereo K) :
    ClipCoordinates K × CameraStereo K :=
  let s1 := calcMatrices sqrt tan pi s
  let viewDirection := Vec3.normalized sqrt s1.mViewDirection
  let ratio := s1.mFarClip / s1.mNearClip
  let eye := getEyePointShifted s1
  let left := s1.mFrustumLeft + clipShift s1
  let right := s1.mFrustumRight + clipShift s1
  let front := Vec3.add eye (Vec3.smul s1.mFarClip viewDirection)
  ({ topLeft := Vec3.add (Vec3.add front (Vec3.smul (ratio * s1.mFrustumTop) s1.mV))
        (Vec3.smul (ratio * left) s1.mU)
     topRight := Vec3.add (Vec3.add front (Vec3.smul (ratio * s1.mFrustumTop) s1.mV))
        (Vec3.smul (ratio * right) s1.mU)
     bottomLeft := Vec3.add (Vec3.add front (Vec3.smul (ratio * s1.mFrustumBottom) s1.mV))
        (Vec3.smul (ratio * left) s1.mU)
     bottomRight := Vec3.add (Vec3.add front (Vec3.smul (ratio * s1.mFrustumBottom) s1.mV))
        (Vec3.smul (ratio * right) s1.mU) }, s1)

/-- The cached view matrices of a stereo camera are current: when the view flag is
set, the mono, left and right view matrices are what `CameraStereo::calcViewMatrix`
computes from the pose and the eye separation. -/
def ViewCurrent (sqrt : K → K) (s : CameraStereo K) : Prop :=
  s.mModelViewCached = true →
    s.mViewMatrix = (calcViewMatrix sqrt s).mViewMatrix ∧
      s.mViewMatrixLeft = (calcViewMatrix sqrt s).mViewMatrixLeft ∧
      s.mViewMatrixRight = (calcViewMatrix sqrt s).mViewMatrixRight

end CameraStereo

/-- The determinant of a 3x3 matrix, as `glm::inverse` computes it. -/
def det3 {K : Type} [LinearOrderedField K] (m : Mat3 K) : K :=
  m 0 0 * (m 1 1 * m 2 2 - m 1 2 * m 2 1) - m 0 1 * (m 1 0 * m 2 2 - m 1 2 * m 2 0) +
    m 0 2 * (m 1 0 * m 2 1 - m 1 1 * m 2 0)

/-- The upper-left 3x3 block `mat3( m )` of a 4x4 matrix. -/
def upperLeft3 {K : Type} (m : Mat4 K) : Mat3 K :=
  !![m 0 0, m 0 1, m 0 2; m 1 0, m 1 1, m 1 2; m 2 0, m 2 1, m 2 2]

/-- The virtual `calcProjection` of a camera class leaves the pose and the cached
basis alone, as `CameraPersp::calcProjection` and `CameraOrtho::calcProjection` do:
they write only the frustum bounds, the projection matrices and the projection flag. -/
def Camera.KeepsPose {K : Type} (calcProjection : Camera K → Camera K) : Prop :=
  ∀ c : Camera K, (calcProjection c).mEyePoint = c.mEyePoint ∧
    (calcProjection c).mViewDirection = c.mViewDirection ∧
    (calcProjection c).mU = c.mU ∧ (calcProjection c).mV = c.mV ∧
    (calcProjection c).mW = c.mW

/-- The general 4x4 `glm::inverse` as glm computes it, the matrix of cofactors
transposed (the adjugate) times one over the determinant. -/
def inverseCofactor {K : Type} [LinearOrderedField K] (m : Mat4 K) : Mat4 K :=
  (1 / m.det) • m.adjugate

/-- The computation of `CameraPersp::calcProjection` with its two `!= 0.0f` guards
removed, so that both pairs of frustum bounds are always re-interpolated; it is the
comparison partner for the statement that the guards do not change the result. -/
def CameraPersp.calcProjectionUnguarded {K : Type} [LinearOrderedField K] (tan : K → K)
    (pi : K) (c : CameraPersp K) : CameraPersp K :=
  let top0 := c.mNearClip * tan (pi / 180 * c.mFov * (1 / 2))
  let bottom0 := -top0
  let right0 := top0 * c.mAspectRatio
  let left0 := -right0
  let t := lerp 0 (2 * top0) (1 / 2 + 1 / 2 * c.mLensShift.y)
  let b := lerp (2 * bottom0) 0 (1 / 2 + 1 / 2 * c.mLensShift.y)
  let r := lerp (2 * right0) 0 (1 / 2 - 1 / 2 * c.mLensShift.x)
  let l := lerp 0 (2 * left0) (1 / 2 - 1 / 2 * c.mLensShift.x)
  let n := c.mNearClip
  let f := c.mFarClip
  { c with
    mFrustumTop := t
    mFrustumBottom := b
    mFrustumRight := r
    mFrustumLeft := l
    mProjectionMatrix :=
      !![2 * n / (r - l), 0, (r + l) / (r - l), 0;
         0, 2 * n / (t - b), (t + b) / (t - b), 0;
         0, 0, -(f + n) / (f - n), -2 * f * n / (f - n);
         0, 0, -1, 0]
    mInverseProjectionMatrix :=
      !![(r - l) / (2 * n), 0, 0, (r + l) / (2 * n);
         0, (t - b) / (2 * n), 0, (t + b) / (2 * n);
         0, 0, 0, -1;
         0, 0, -(f - n) / (2 * f * n), (f + n) / (2 * f * n)]
    mProjectionCached := true }

/-! ## Division by zero made explicit

The methods below divide by a member the caller controls.  Each `Checked` version
returns `none` when one of the divisions of the method is by zero, and otherwise the
value of the definition above, where the same divisions are the field's. -/

/-- The per-eye frustum shift `0.5f * mEyeSeparation * (mNearClip / mConvergence)`
times `1`, `-1` or `0`, undefined when `mConvergence = 0`: the code then multiplies an
infinity or a NaN by the eye factor, and with stereo disabled that factor is `0.0f`,
so the product is NaN. -/
def CameraStereo.clipShiftChecked {K : Type} [LinearOrderedField K] (s : CameraStereo K) :
    Option K :=
  if s.mConvergence = 0 then none
  else some (1 / 2 * s.mEyeSeparation * (s.mNearClip / s.mConvergence) *
    (if s.mIsStereo then (if s.mIsLeft then 1 else -1) else 0))

/-- The corners `Camera::getNearClipCoordinates` writes, undefined when
`viewDirection.normalize()` divides by a zero length. -/
def Camera.getNearClipCoordinatesChecked {K : Type} [LinearOrderedField K] (sqrt : K → K)
    (calcProjection : Camera K → Camera K) (c : Camera K) : Option (ClipCoordinates K) :=
  let c1 := Camera.calcMatrices sqrt calcProjection c
  if Vec3.length sqrt c1.mViewDirection = 0 then none
  else some (Camera.getNearClipCoordinates sqrt calcProjection c).1

/-- The corners `Camera::getFarClipCoordinates` writes, undefined when
`viewDirection.normalize()` divides by a zero length or `mFarClip / mNearClip` divides
by zero. -/
def Camera.getFarClipCoordinatesChecked {K : Type} [LinearOrderedField K] (sqrt : K → K)
    (calcProjection : Camera K → Camera K) (c : Camera K) : Option (ClipCoordinates K) :=
  let c1 := Camera.calcMatrices sqrt calcProjection c
  if Vec3.length sqrt c1.mViewDirection = 0 ∨ c1.mNearClip = 0 then none
  else some (Camera.getFarClipCoordinates sqrt calcProjection c).1

/-- The corners `CameraStereo::getNearClipCoordinates` writes, undefined when
`viewDirection.normalize()` divides by a zero length or the per-eye shift is undefined
(`mNearClip / mConvergence` with `mConvergence = 0`). -/
def CameraStereo.getNearClipCoordinatesChecked {K : Type} [LinearOrderedField K]
    (sqrt tan : K → K) (pi : K) (s : CameraStereo K) : Option (ClipCoordinates K) :=
  let s1 := CameraStereo.calcMatrices sqrt tan pi s
  if Vec3.length sqrt s1.mViewDirection = 0 ∨ CameraStereo.clipShiftChecked s1 = none then none
  else some (CameraStereo.getNearClipCoordinates sqrt tan pi s).1

/-- The corners `CameraStereo::getFarClipCoordinates` writes, undefined when
`viewDirection.normalize()` divides by a zero length, `mFarClip / mNearClip` divides by
zero, or the per-eye shift is undefined (`mNearClip / mConvergence` with
`mConvergence = 0`). -/
def CameraStereo.getFarClipCoordinatesChecked {K : Type} [LinearOrderedField K]
    (sqrt tan : K → K) (pi : K) (s : CameraStereo K) : Option (ClipCoordinates K) :=
  let s1 := CameraStereo.calcMatrices sqrt tan pi s
  if Vec3.length sqrt s1.mViewDirection = 0 ∨ s1.mNearClip = 0 ∨
      CameraStereo.clipShiftChecked s1 = none then none
  else some (CameraStereo.getFarClipCoordinates sqrt tan pi s).1

/-- The general 4x4 `glm::inverse`, undefined when the determinant it divides by is
zero. -/
def inverseChecked {K : Type} [LinearOrderedField K] (m : Mat4 K) : Option (Mat4 K) :=
  if m.det = 0 then none else some (inverseCofactor m)

/-- The call `glm::affineInverse( m )`, undefined when the determinant of the
upper-left 3x3 block, which it divides by, is zero. -/
def affineInverseChecked {K : Type} [LinearOrderedField K] (m : Mat4 K) : Option (Mat4 K) :=
  if det3 (upperLeft3 m) = 0 then none else some (affineInverse m)

/-- Modelled from the spec: the matrix that `Camera::getInverseViewMatrix` of
`cinder/Camera.h` (not under `src/`) returns, with the `glm::inverse` of
`Camera::calcInverseView` as `inverseChecked`: the cached matrix when the inverse-view
flag is set, otherwise the inverse of the view matrix (recomputed first on a cache
miss), undefined when that matrix has determinant zero. -/
def Camera.getInverseViewMatrixChecked {K : Type} [LinearOrderedField K] (sqrt : K → K)
    (c : Camera K) : Option (Mat4 K) :=
  if !c.mInverseModelViewCached then
    inverseChecked (if !c.mModelViewCached then Camera.calcViewMatrix sqrt c else c).mViewMatrix
  else some c.mInverseModelViewMatrix

/-- The matrix that `CameraStereo::getInverseViewMatrix` returns, with the
`glm::affineInverse` calls of `CameraStereo::calcInverseView` as
`affineInverseChecked`: the cached mono, left or right matrix when the inverse-view
flag is set, otherwise the affine inverse of the mono, left or right view matrix
(recomputed first on a cache miss). -/
def CameraStereo.getInverseViewMatrixChecked {K : Type} [LinearOrderedField K]
    (sqrt : K → K) (s : CameraStereo K) : Option (Mat4 K) :=
  if !s.mInverseModelViewCached then
    let s1 := if !s.mModelViewCached then CameraStereo.calcViewMatrix sqrt s else s
    if !s1.mIsStereo then affineInverseChecked s1.mViewMatrix
    else if s1.mIsLeft then affineInverseChecked s1.mViewMatrixLeft
    else affineInverseChecked s1.mViewMatrixRight
  else if !s.mIsStereo then some s.mInverseModelViewMatrix
  else if s.mIsLeft then some s.mInverseModelViewMatrixLeft
  else some s.mInverseModelViewMatrixRight

/-! ## Example cameras over the rationals -/

/-- The value of `(float)M_PI`, which is a rational number. -/
def piQ : ℚ := 13176795 / 4194304

/-- A tangent table with the one entry the example cameras use: a vertical field of
view of 90 degrees has half-angle `pi / 4`, whose tangent is 1. -/
def tanQ (x : ℚ) : ℚ := if x = piQ / 180 * 90 * (1 / 2) then 1 else 0

/-- A camera at the origin looking down `-z` with the identity orientation, a
90 degree field of view, aspect ratio 1, near plane 1 and far plane 3; nothing
is cached yet. -/
def cameraQ : Camera ℚ where
  mEyePoint := ⟨0, 0, 0⟩
  mViewDirection := ⟨0, 0, -1⟩
  mOrientation := ⟨1, 0, 0, 0⟩
  mCenterOfInterest := 1
  mWorldUp := ⟨0, 1, 0⟩
  mFov := 90
  mAspectRatio := 1
  mNearClip := 1
  mFarClip := 3
  mU := ⟨1, 0, 0⟩
  mV := ⟨0, 1, 0⟩
  mW := ⟨0, 0, 1⟩
  mProjectionMatrix := 1
  mInverseProjectionMatrix := 1
  mProjectionCached := false
  mViewMatrix := 1
  mModelViewCached := false
  mInverseModelViewMatrix := 1
  mInverseModelViewCached := false
  mFrustumLeft := -1
  mFrustumRight := 1
  mFrustumTop := 1
  mFrustumBottom := -1

/-- The example camera as a perspective camera without lens shift. -/
def perspQ : CameraPersp ℚ := { cameraQ with mLensShift := ⟨0, 0⟩ }

/-- The perspective example camera after `setLensShift( 1/2, 1/4 )`. -/
def perspShiftedQ : CameraPersp ℚ := CameraPersp.setLensShift perspQ (1 / 2) (1 / 4)

/-- The example camera as an orthographic camera. -/
def orthoQ : CameraOrtho ℚ := { toCamera := cameraQ }

/-- The orthographic example camera after `setOrtho( -1, 1, -1, 1, 1, 3 )`. -/
def orthoUnitQ : CameraOrtho ℚ := CameraOrtho.setOrtho orthoQ (-1) 1 (-1) 1 1 3

/-- The orthographic example camera after `setOrtho( -2, 4, -1, 3, 1, 5 )`. -/
def orthoBoxQ : CameraOrtho ℚ := CameraOrtho.setOrtho orthoQ (-2) 4 (-1) 3 1 5

/-- The example camera as a stereo camera: stereo enabled, left eye active, eye
separation 1, convergence distance 1. -/
def stereoQ : CameraStereo ℚ :=
  { perspQ with
    mIsStereo := true
    mIsLeft := true
    mEyeSeparation := 1
    mConvergence := 1
    mProjectionMatrixLeft := 1
    mInverseProjectionMatrixLeft := 1
    mProjectionMatrixRight := 1
    mInverseProjectionMatrixRight := 1
    mViewMatrixLeft := 1
    mInverseModelViewMatrixLeft := 1
    mViewMatrixRight := 1
    mInverseModelViewMatrixRight := 1 }

/-- The stereo example camera after a first `getInverseViewMatrix()` call. -/
def stereoQ1 : CameraStereo ℚ := (CameraStereo.getInverseViewMatrix Rat.sqrt stereoQ).2

/-- The camera `stereoQ1` after `setEyePoint( (5,0,0) )`. -/
def stereoQ2 : CameraStereo ℚ :=
  CameraStereo.onCamera (fun c => Camera.setEyePoint c ⟨5, 0, 0⟩) stereoQ1

/-- The example camera after `setViewDirection( (48/25, 0, -14/25) )`, a vector of
length 2, with `Rat.sqrt` (exact on squares) as the square root. -/
def cameraQ1 : Camera ℚ :=
  Camera.setViewDirection Rat.sqrt (rotationGeneral Rat.sqrt) cameraQ ⟨48 / 25, 0, -(14 / 25)⟩

/-- An orthogonal-vector helper for the examples, the cross product with the `y`
axis, `(-z, 0, x)`. -/
def getOrthogonalQ (v : Vec3 ℚ) : Vec3 ℚ := ⟨-v.z, 0, v.x⟩

/-- The unit sphere centred at `(0,0,-5)`. -/
def sphereQ : Sphere ℚ := ⟨⟨0, 0, -5⟩, 1⟩

/-- The example camera moved to the eye point `(0,0,10)`: it looks at the origin
along `(0,0,-1)`. -/
def cameraQ10 : Camera ℚ := Camera.setEyePoint cameraQ ⟨0, 0, 10⟩

/-- The perspective example camera with horizontal lens shift `1/2`. -/
def perspShiftXQ : CameraPersp ℚ := CameraPersp.setLensShift perspQ (1 / 2) 0

/-- The stereo example camera with stereo disabled. -/
def stereoOffQ : CameraStereo ℚ := { stereoQ with mIsStereo := false }

/-- The stereo example camera with stereo disabled and convergence distance `0`. -/
def stereoOffZeroQ : CameraStereo ℚ := { stereoOffQ with mConvergence := 0 }

/-- The camera `cameraQ10` after `calcViewMatrix`: its view data are cached. -/
def cameraQ10v : Camera ℚ := Camera.calcViewMatrix Rat.sqrt cameraQ10

/-! ## Theorems -/

section Algebra

variable {K : Type} [LinearOrderedField K]

/-- The perspective matrix times the closed-form inverse, on explicit entries. -/
lemma persp_mul_inv (l r b t n f : K) (hn : n ≠ 0) (hf : f ≠ 0) (hfn : f - n ≠ 0)
    (hrl : r - l ≠ 0) (htb : t - b ≠ 0) :
    (!![2 * n / (r - l), 0, (r + l) / (r - l), 0;
        0, 2 * n / (t - b), (t + b) / (t - b), 0;
        0, 0, -(f + n) / (f - n), -2 * f * n / (f - n);
        0, 0, -1, 0] : Mat4 K) *
      !![(r - l) / (2 * n), 0, 0, (r + l) / (2 * n);
         0, (t - b) / (2 * n), 0, (t + b) / (2 * n);
         0, 0, 0, -1;
         0, 0, -(f - n) / (2 * f * n), (f + n) / (2 * f * n)] = 1 := by
  ext i j
  fin_cases i <;> fin_cases j <;>
    simp [Matrix.mul_apply, Fin.sum_univ_four, Matrix.one_apply, Matrix.vecHead, Matrix.vecTail] <;>
    field_simp <;> ring

/-- The closed-form inverse times the perspective matrix, on explicit entries. -/
lemma persp_inv_mul (l r b t n f : K) (hn : n ≠ 0) (hf : f ≠ 0) (hfn : f - n ≠ 0)
    (hrl : r - l ≠ 0) (htb : t - b ≠ 0) :
    (!![(r - l) / (2 * n), 0, 0, (r + l) / (2 * n);
        0, (t - b) / (2 * n), 0, (t + b) / (2 * n);
        0, 0, 0, -1;
        0, 0, -(f - n) / (2 * f * n), (f + n) / (2 * f * n)] : Mat4 K) *
      !![2 * n / (r - l), 0, (r + l) / (r - l), 0;
         0, 2 * n / (t - b), (t + b) / (t - b), 0;
         0, 0, -(f + n) / (f - n), -2 * f * n / (f - n);
         0, 0, -1, 0] = 1 := by
  ext i j
  fin_cases i <;> fin_cases j <;>
    simp [Matrix.mul_apply, Fin.sum_univ_four, Matrix.one_apply, Matrix.vecHead, Matrix.vecTail] <;>
    field_simp <;> ring

end Algebra

section Projection

variable {K : Type} [LinearOrderedField K]

/-- C1: after `CameraPersp::calcProjection`, when the resulting near and far clip are
non-zero and distinct and the resulting frustum bounds are non-degenerate (whatever
the lens shift), the cached projection matrix times the cached inverse projection
matrix is the identity, and so is the product in the other order. -/
theorem CameraPersp.calcProjection_mul_inverse (tan : K → K) (pi : K) (c : CameraPersp K)
    (hn : (CameraPersp.calcProjection tan pi c).mNearClip ≠ 0)
    (hf : (CameraPersp.calcProjection tan pi c).mFarClip ≠ 0)
    (hfn : (CameraPersp.calcProjection tan pi c).mFarClip ≠
      (CameraPersp.calcProjection tan pi c).mNearClip)
    (hrl : (CameraPersp.calcProjection tan pi c).mFrustumRight ≠
      (CameraPersp.calcProjection tan pi c).mFrustumLeft)
    (htb : (CameraPersp.calcProjection tan pi c).mFrustumTop ≠
      (CameraPersp.calcProjection tan pi c).mFrustumBottom) :
    (CameraPersp.calcProjection tan pi c).mProjectionMatrix *
        (CameraPersp.calcProjection tan pi c).mInverseProjectionMatrix = 1 ∧
      (CameraPersp.calcProjection tan pi c).mInverseProjectionMatrix *
        (CameraPersp.calcProjection tan pi c).mProjectionMatrix = 1 :=
  ⟨persp_mul_inv _ _ _ _ _ _ hn hf (sub_ne_zero.mpr hfn) (sub_ne_zero.mpr hrl)
      (sub_ne_zero.mpr htb),
    persp_inv_mul _ _ _ _ _ _ hn hf (sub_ne_zero.mpr hfn) (sub_ne_zero.mpr hrl)
      (sub_ne_zero.mpr htb)⟩

/-- C1 witness: the example camera with lens shift `(1/2, 1/4)`. -/
theorem CameraPersp.calcProjection_mul_inverse_witness :
    (CameraPersp.calcProjection tanQ piQ perspShiftedQ).mProjectionMatrix *
        (CameraPersp.calcProjection tanQ piQ perspShiftedQ).mInverseProjectionMatrix = 1 ∧
      (CameraPersp.calcProjection tanQ piQ perspShiftedQ).mInverseProjectionMatrix *
        (CameraPersp.calcProjection tanQ piQ perspShiftedQ).mProjectionMatrix = 1 :=
  CameraPersp.calcProjection_mul_inverse tanQ piQ perspShiftedQ
    (by norm_num [CameraPersp.calcProjection, perspShiftedQ, CameraPersp.setLensShift, perspQ,
      cameraQ])
    (by norm_num [CameraPersp.calcProjection, perspShiftedQ, CameraPersp.setLensShift, perspQ,
      cameraQ])
    (by norm_num [CameraPersp.calcProjection, perspShiftedQ, CameraPersp.setLensShift, perspQ,
      cameraQ])
    (by norm_num [CameraPersp.calcProjection, perspShiftedQ, CameraPersp.setLensShift, perspQ,
      cameraQ, lerp, tanQ, piQ])
    (by norm_num [CameraPersp.calcProjection, perspShiftedQ, CameraPersp.setLensShift, perspQ,
      cameraQ, lerp, tanQ, piQ])

/-- For every orthographic camera with `farClip ≠ nearClip`, entry (2,2) of the
product of the projection matrix and the stored inverse is `-1`. -/
lemma CameraOrtho.calcProjection_product_entry (c : CameraOrtho K)
    (hfn : c.mFarClip ≠ c.mNearClip) :
    ((CameraOrtho.calcProjection c).mProjectionMatrix *
      (CameraOrtho.calcProjection c).mInverseProjectionMatrix) 2 2 = -1 := by
  have h : c.mFarClip - c.mNearClip ≠ 0 := sub_ne_zero.mpr hfn
  simp [CameraOrtho.calcProjection, Matrix.mul_apply, Fin.sum_univ_four]
  field_simp
  ring

/-- C2 (evaluation at `setOrtho(-1, 1, -1, 1, 1, 3)`): the cached projection matrix
times the cached inverse projection matrix has entry (2,2) equal to `-1`, so the
product is not the identity. -/
theorem CameraOrtho.ortho_projection_mul_inverse_ne_one :
    ((CameraOrtho.calcProjection orthoUnitQ).mProjectionMatrix *
      (CameraOrtho.calcProjection orthoUnitQ).mInverseProjectionMatrix) 2 2 = -1 ∧
    (CameraOrtho.calcProjection orthoUnitQ).mProjectionMatrix *
      (CameraOrtho.calcProjection orthoUnitQ).mInverseProjectionMatrix ≠ 1 := by
  have h := CameraOrtho.calcProjection_product_entry orthoUnitQ
    (by norm_num [orthoUnitQ, CameraOrtho.setOrtho])
  refine ⟨h, fun h1 => ?_⟩
  rw [h1] at h
  norm_num [Matrix.one_apply] at h

/-- C5: for every orthographic camera with `frustumRight ≠ frustumLeft`,
`frustumTop ≠ frustumBottom` and `farClip ≠ nearClip` (bounds as stored by `setOrtho`),
after `CameraOrtho::calcProjection` the projection matrix gives clip `w = 1` for every
eye-space point and maps the box corner `(left, bottom, -near)` to `(-1,-1,-1)` and
the corner `(right, top, -far)` to `(1,1,1)`. -/
theorem CameraOrtho.calcProjection_box_to_cube (c : CameraOrtho K)
    (hrl : c.mFrustumRight ≠ c.mFrustumLeft) (htb : c.mFrustumTop ≠ c.mFrustumBottom)
    (hfn : c.mFarClip ≠ c.mNearClip) :
    (∀ x y z : K,
      Matrix.mulVec (CameraOrtho.calcProjection c).mProjectionMatrix ![x, y, z, 1] 3 = 1) ∧
    Matrix.mulVec (CameraOrtho.calcProjection c).mProjectionMatrix
        ![c.mFrustumLeft, c.mFrustumBottom, -c.mNearClip, 1] = ![-1, -1, -1, 1] ∧
    Matrix.mulVec (CameraOrtho.calcProjection c).mProjectionMatrix
        ![c.mFrustumRight, c.mFrustumTop, -c.mFarClip, 1] = ![1, 1, 1, 1] := by
  have hfn' := sub_ne_zero.mpr hfn
  have hrl' := sub_ne_zero.mpr hrl
  have htb' := sub_ne_zero.mpr htb
  refine ⟨fun x y z => ?_, ?_, ?_⟩
  · simp [CameraOrtho.calcProjection, Matrix.mulVec, Matrix.dotProduct, Fin.sum_univ_four,
      Matrix.vecHead, Matrix.vecTail]
  · funext i
    fin_cases i <;>
      simp [CameraOrtho.calcProjection, Matrix.mulVec, Matrix.dotProduct, Fin.sum_univ_four,
        Matrix.vecHead, Matrix.vecTail] <;> field_simp <;> ring
  · funext i
    fin_cases i <;>
      simp [CameraOrtho.calcProjection, Matrix.mulVec, Matrix.dotProduct, Fin.sum_univ_four,
        Matrix.vecHead, Matrix.vecTail] <;> field_simp <;> ring

/-- C5 witness: the camera after `setOrtho( -2, 4, -1, 3, 1, 5 )`, the box
`[-2,4] x [-1,3] x [1,5]`. -/
theorem CameraOrtho.calcProjection_box_to_cube_witness :
    (∀ x y z : ℚ,
      Matrix.mulVec (CameraOrtho.calcProjection orthoBoxQ).mProjectionMatrix ![x, y, z, 1] 3 =
        1) ∧
    Matrix.mulVec (CameraOrtho.calcProjection orthoBoxQ).mProjectionMatrix
        ![-2, -1, -1, 1] = ![-1, -1, -1, 1] ∧
    Matrix.mulVec (CameraOrtho.calcProjection orthoBoxQ).mProjectionMatrix
        ![4, 3, -5, 1] = ![1, 1, 1, 1] :=
  CameraOrtho.calcProjection_box_to_cube orthoBoxQ
    (by norm_num [orthoBoxQ, CameraOrtho.setOrtho])
    (by norm_num [orthoBoxQ, CameraOrtho.setOrtho])
    (by norm_num [orthoBoxQ, CameraOrtho.setOrtho])

/-- The perspective matrix applied to an eye-space point, on explicit entries. -/
lemma persp_mulVec (l r b t n f x y z : K) :
    Matrix.mulVec (!![2 * n / (r - l), 0, (r + l) / (r - l), 0;
        0, 2 * n / (t - b), (t + b) / (t - b), 0;
        0, 0, -(f + n) / (f - n), -2 * f * n / (f - n);
        0, 0, -1, 0] : Mat4 K) ![x, y, z, 1] =
      ![2 * n / (r - l) * x + (r + l) / (r - l) * z, 2 * n / (t - b) * y + (t + b) / (t - b) * z,
        -(f + n) / (f - n) * z + -2 * f * n / (f - n), -z] := by
  funext i
  fin_cases i <;>
    simp [Matrix.mulVec, Matrix.dotProduct, Fin.sum_univ_four, Matrix.vecHead, Matrix.vecTail]

/-- C4: after `CameraPersp::calcProjection` with non-zero distinct near and far clip
and non-degenerate frustum bounds, the clip-space `w` of `projectionMatrix * (x,y,z,1)`
is `-z`; every point with `z = -nearClip` has `z/w = -1` and every point with
`z = -farClip` has `z/w = 1`; the near-plane corners `(left, bottom, -near)` and
`(right, top, -near)` map to NDC `(-1,-1,-1)` and `(1,1,-1)`. -/
theorem CameraPersp.calcProjection_clip_convention (tan : K → K) (pi : K) (c : CameraPersp K)
    (hn : (CameraPersp.calcProjection tan pi c).mNearClip ≠ 0)
    (hf : (CameraPersp.calcProjection tan pi c).mFarClip ≠ 0)
    (hfn : (CameraPersp.calcProjection tan pi c).mFarClip ≠
      (CameraPersp.calcProjection tan pi c).mNearClip)
    (hrl : (CameraPersp.calcProjection tan pi c).mFrustumRight ≠
      (CameraPersp.calcProjection tan pi c).mFrustumLeft)
    (htb : (CameraPersp.calcProjection tan pi c).mFrustumTop ≠
      (CameraPersp.calcProjection tan pi c).mFrustumBottom) :
    (∀ x y z : K,
      Matrix.mulVec (CameraPersp.calcProjection tan pi c).mProjectionMatrix ![x, y, z, 1] 3 =
        -z) ∧
    (∀ x y : K,
      (projectToNdc (CameraPersp.calcProjection tan pi c).mProjectionMatrix
        ![x, y, -(CameraPersp.calcProjection tan pi c).mNearClip, 1]).z = -1) ∧
    (∀ x y : K,
      (projectToNdc (CameraPersp.calcProjection tan pi c).mProjectionMatrix
        ![x, y, -(CameraPersp.calcProjection tan pi c).mFarClip, 1]).z = 1) ∧
    projectToNdc (CameraPersp.calcProjection tan pi c).mProjectionMatrix
      ![(CameraPersp.calcProjection tan pi c).mFrustumLeft,
        (CameraPersp.calcProjection tan pi c).mFrustumBottom,
        -(CameraPersp.calcProjection tan pi c).mNearClip, 1] = ⟨-1, -1, -1⟩ ∧
    projectToNdc (CameraPersp.calcProjection tan pi c).mProjectionMatrix
      ![(CameraPersp.calcProjection tan pi c).mFrustumRight,
        (CameraPersp.calcProjection tan pi c).mFrustumTop,
        -(CameraPersp.calcProjection tan pi c).mNearClip, 1] = ⟨1, 1, -1⟩ := by
  have key : ∀ x y z : K,
      Matrix.mulVec (CameraPersp.calcProjection tan pi c).mProjectionMatrix ![x, y, z, 1] =
        ![2 * (CameraPersp.calcProjection tan pi c).mNearClip /
              ((CameraPersp.calcProjection tan pi c).mFrustumRight -
                (CameraPersp.calcProjection tan pi c).mFrustumLeft) * x +
            ((CameraPersp.calcProjection tan pi c).mFrustumRight +
                (CameraPersp.calcProjection tan pi c).mFrustumLeft) /
              ((CameraPersp.calcProjection tan pi c).mFrustumRight -
                (CameraPersp.calcProjection tan pi c).mFrustumLeft) * z,
          2 * (CameraPersp.calcProjection tan pi c).mNearClip /
              ((CameraPersp.calcProjection tan pi c).mFrustumTop -
                (CameraPersp.calcProjection tan pi c).mFrustumBottom) * y +
            ((CameraPersp.calcProjection tan pi c).mFrustumTop +
                (CameraPersp.calcProjection tan pi c).mFrustumBottom) /
              ((CameraPersp.calcProjection tan pi c).mFrustumTop -
                (CameraPersp.calcProjection tan pi c).mFrustumBottom) * z,
          -((CameraPersp.calcProjection tan pi c).mFarClip +
                (CameraPersp.calcProjection tan pi c).mNearClip) /
              ((CameraPersp.calcProjection tan pi c).mFarClip -
                (CameraPersp.calcProjection tan pi c).mNearClip) * z +
            -2 * (CameraPersp.calcProjection tan pi c).mFarClip *
                (CameraPersp.calcProjection tan pi c).mNearClip /
              ((CameraPersp.calcProjection tan pi c).mFarClip -
                (CameraPersp.calcProjection tan pi c).mNearClip), -z] :=
    fun x y z => persp_mulVec _ _ _ _ _ _ x y z
  have hfn' := sub_ne_zero.mpr hfn
  have hrl' := sub_ne_zero.mpr hrl
  have htb' := sub_ne_zero.mpr htb
  simp only [projectToNdc, key]
  generalize (CameraPersp.calcProjection tan pi c).mNearClip = n at *
  generalize (CameraPersp.calcProjection tan pi c).mFarClip = f at *
  generalize (CameraPersp.calcProjection tan pi c).mFrustumRight = r at *
  generalize (CameraPersp.calcProjection tan pi c).mFrustumLeft = l at *
  generalize (CameraPersp.calcProjection tan pi c).mFrustumTop = t at *
  generalize (CameraPersp.calcProjection tan pi c).mFrustumBottom = b at *
  refine ⟨fun x y z => by simp, fun x y => ?_, fun x y => ?_, ?_, ?_⟩
  · simp
    field_simp
    ring
  · simp
    field_simp
    ring
  · simp
    refine ⟨?_, ?_, ?_⟩ <;> field_simp <;> ring
  · simp
    refine ⟨?_, ?_, ?_⟩ <;> field_simp <;> ring

/-- C4 witness: the example camera with lens shift `(1/2, 1/4)`. -/
theorem CameraPersp.calcProjection_clip_convention_witness :
    (∀ x y z : ℚ,
      Matrix.mulVec (CameraPersp.calcProjection tanQ piQ perspShiftedQ).mProjectionMatrix
        ![x, y, z, 1] 3 = -z) ∧
    (∀ x y : ℚ,
      (projectToNdc (CameraPersp.calcProjection tanQ piQ perspShiftedQ).mProjectionMatrix
        ![x, y, -(CameraPersp.calcProjection tanQ piQ perspShiftedQ).mNearClip, 1]).z = -1) ∧
    (∀ x y : ℚ,
      (projectToNdc (CameraPersp.calcProjection tanQ piQ perspShiftedQ).mProjectionMatrix
        ![x, y, -(CameraPersp.calcProjection tanQ piQ perspShiftedQ).mFarClip, 1]).z = 1) ∧
    projectToNdc (CameraPersp.calcProjection tanQ piQ perspShiftedQ).mProjectionMatrix
      ![(CameraPersp.calcProjection tanQ piQ perspShiftedQ).mFrustumLeft,
        (CameraPersp.calcProjection tanQ piQ perspShiftedQ).mFrustumBottom,
        -(CameraPersp.calcProjection tanQ piQ perspShiftedQ).mNearClip, 1] = ⟨-1, -1, -1⟩ ∧
    projectToNdc (CameraPersp.calcProjection tanQ piQ perspShiftedQ).mProjectionMatrix
      ![(CameraPersp.calcProjection tanQ piQ perspShiftedQ).mFrustumRight,
        (CameraPersp.calcProjection tanQ piQ perspShiftedQ).mFrustumTop,
        -(CameraPersp.calcProjection tanQ piQ perspShiftedQ).mNearClip, 1] = ⟨1, 1, -1⟩ :=
  CameraPersp.calcProjection_clip_convention tanQ piQ perspShiftedQ
    (by norm_num [CameraPersp.calcProjection, perspShiftedQ, CameraPersp.setLensShift, perspQ,
      cameraQ])
    (by norm_num [CameraPersp.calcProjection, perspShiftedQ, CameraPersp.setLensShift, perspQ,
      cameraQ])
    (by norm_num [CameraPersp.calcProjection, perspShiftedQ, CameraPersp.setLensShift, perspQ,
      cameraQ])
    (by norm_num [CameraPersp.calcProjection, perspShiftedQ, CameraPersp.setLensShift, perspQ,
      cameraQ, lerp, tanQ, piQ])
    (by norm_num [CameraPersp.calcProjection, perspShiftedQ, CameraPersp.setLensShift, perspQ,
      cameraQ, lerp, tanQ, piQ])

end Projection

section Stereo

variable {K : Type} [LinearOrderedField K]

/-- For every stereo camera, `CameraStereo::calcProjection` leaves the left-eye
projection matrix equal to the mono projection matrix: neither of the two
left-eye assignments writes to it. -/
lemma CameraStereo.calcProjection_left_eq_mono (tan : K → K) (pi : K) (s : CameraStereo K) :
    (CameraStereo.calcProjection tan pi s).mProjectionMatrixLeft =
      (CameraStereo.calcProjection tan pi s).mProjectionMatrix := rfl

/-- For every stereo camera, `CameraStereo::calcProjection` leaves the right-eye
inverse projection matrix equal to the mono inverse projection matrix. -/
lemma CameraStereo.calcProjection_inverse_right_eq_mono (tan : K → K) (pi : K)
    (s : CameraStereo K) :
    (CameraStereo.calcProjection tan pi s).mInverseProjectionMatrixRight =
      (CameraStereo.calcProjection tan pi s).mInverseProjectionMatrix := rfl

/-- C6 (evaluation at the stereo example camera: 90 degree field of view, aspect 1,
near 1, far 3, no lens shift, eye separation 1, convergence 1): the mono and the
left-eye projection matrices both have horizontal shift term (row 0, column 2) equal
to `0`, the right-eye matrix has `-1/2`; the left term is not the negative of the
right term. -/
theorem CameraStereo.calcProjection_shift_not_symmetric :
    (CameraStereo.calcProjection tanQ piQ stereoQ).mProjectionMatrix 0 2 = 0 ∧
    (CameraStereo.calcProjection tanQ piQ stereoQ).mProjectionMatrixLeft 0 2 -
      (CameraStereo.calcProjection tanQ piQ stereoQ).mProjectionMatrix 0 2 = 0 ∧
    (CameraStereo.calcProjection tanQ piQ stereoQ).mProjectionMatrixRight 0 2 -
      (CameraStereo.calcProjection tanQ piQ stereoQ).mProjectionMatrix 0 2 = -(1 / 2) ∧
    (CameraStereo.calcProjection tanQ piQ stereoQ).mProjectionMatrixLeft 0 2 ≠
      -(CameraStereo.calcProjection tanQ piQ stereoQ).mProjectionMatrixRight 0 2 := by
  norm_num [CameraStereo.calcProjection, CameraPersp.calcProjection, stereoQ, perspQ, cameraQ,
    Mat4.set, tanQ, piQ]

/-- C7 (evaluation at the stereo example camera): entry (0,2) of the left-eye
projection matrix times the left-eye inverse is `1/2`, and of the right-eye product
`1/6`; neither product is the identity. -/
theorem CameraStereo.stereo_projection_mul_inverse_ne_one :
    ((CameraStereo.calcProjection tanQ piQ stereoQ).mProjectionMatrixLeft *
      (CameraStereo.calcProjection tanQ piQ stereoQ).mInverseProjectionMatrixLeft) 0 2 = 1 / 2 ∧
    ((CameraStereo.calcProjection tanQ piQ stereoQ).mProjectionMatrixRight *
      (CameraStereo.calcProjection tanQ piQ stereoQ).mInverseProjectionMatrixRight) 0 2 = 1 / 6 ∧
    (CameraStereo.calcProjection tanQ piQ stereoQ).mProjectionMatrixLeft *
      (CameraStereo.calcProjection tanQ piQ stereoQ).mInverseProjectionMatrixLeft ≠ 1 ∧
    (CameraStereo.calcProjection tanQ piQ stereoQ).mProjectionMatrixRight *
      (CameraStereo.calcProjection tanQ piQ stereoQ).mInverseProjectionMatrixRight ≠ 1 := by
  have hL : ((CameraStereo.calcProjection tanQ piQ stereoQ).mProjectionMatrixLeft *
      (CameraStereo.calcProjection tanQ piQ stereoQ).mInverseProjectionMatrixLeft) 0 2 =
        1 / 2 := by
    norm_num [CameraStereo.calcProjection, CameraPersp.calcProjection, stereoQ, perspQ, cameraQ,
      Mat4.set, tanQ, piQ, Matrix.mul_apply, Fin.sum_univ_four]
  have hR : ((CameraStereo.calcProjection tanQ piQ stereoQ).mProjectionMatrixRight *
      (CameraStereo.calcProjection tanQ piQ stereoQ).mInverseProjectionMatrixRight) 0 2 =
        1 / 6 := by
    norm_num [CameraStereo.calcProjection, CameraPersp.calcProjection, stereoQ, perspQ, cameraQ,
      Mat4.set, tanQ, piQ, Matrix.mul_apply, Fin.sum_univ_four]
  refine ⟨hL, hR, fun h => ?_, fun h => ?_⟩
  · rw [h, Matrix.one_apply_ne (by decide)] at hL
    norm_num at hL
  · rw [h, Matrix.one_apply_ne (by decide)] at hR
    norm_num at hR

/-- When the inverse-view flag is set, `getInverseViewMatrix()` after a base-class
mutator that leaves that flag and the cached inverse alone returns the matrix it
returned before the call: the accessor tests only the inverse-view flag. -/
lemma CameraStereo.getInverseViewMatrix_onCamera_stale (sqrt : K → K) (f : Camera K → Camera K)
    (s : CameraStereo K) (hf : (f s.toCamera).mInverseModelViewCached = true)
    (hm : (f s.toCamera).mInverseModelViewMatrix = s.mInverseModelViewMatrix)
    (h : s.mInverseModelViewCached = true) :
    (CameraStereo.getInverseViewMatrix sqrt (CameraStereo.onCamera f s)).1 =
      (CameraStereo.getInverseViewMatrix sqrt s).1 := by
  simp [CameraStereo.getInverseViewMatrix, CameraStereo.onCamera, h, hf]
  split_ifs <;> first | rfl | exact hm

/-- Each of the pose mutators `setEyePoint`, `setViewDirection`, `setOrientation`,
`setWorldUp`, `lookAt` clears only the view flag, so with the inverse-view flag set
`getInverseViewMatrix()` returns after the call what it returned before it,
whatever the argument. -/
lemma CameraStereo.getInverseViewMatrix_pose_mutator_stale (sqrt : K → K)
    (rotation : Vec3 K → Vec3 K → Quat K) (alignZAxisWithTarget : Vec3 K → Vec3 K → Mat3 K)
    (toQuat : Mat3 K → Quat K) (s : CameraStereo K) (p v up target : Vec3 K) (q : Quat K)
    (h : s.mInverseModelViewCached = true) :
    (CameraStereo.getInverseViewMatrix sqrt
        (CameraStereo.onCamera (fun c => Camera.setEyePoint c p) s)).1 =
      (CameraStereo.getInverseViewMatrix sqrt s).1 ∧
    (CameraStereo.getInverseViewMatrix sqrt
        (CameraStereo.onCamera (fun c => Camera.setViewDirection sqrt rotation c v) s)).1 =
      (CameraStereo.getInverseViewMatrix sqrt s).1 ∧
    (CameraStereo.getInverseViewMatrix sqrt
        (CameraStereo.onCamera (fun c => Camera.setOrientation sqrt c q) s)).1 =
      (CameraStereo.getInverseViewMatrix sqrt s).1 ∧
    (CameraStereo.getInverseViewMatrix sqrt
        (CameraStereo.onCamera
          (fun c => Camera.setWorldUp sqrt alignZAxisWithTarget toQuat c up) s)).1 =
      (CameraStereo.getInverseViewMatrix sqrt s).1 ∧
    (CameraStereo.getInverseViewMatrix sqrt
        (CameraStereo.onCamera
          (fun c => Camera.lookAt sqrt alignZAxisWithTarget toQuat c target) s)).1 =
      (CameraStereo.getInverseViewMatrix sqrt s).1 :=
  ⟨CameraStereo.getInverseViewMatrix_onCamera_stale sqrt _ s h rfl h,
    CameraStereo.getInverseViewMatrix_onCamera_stale sqrt _ s h rfl h,
    CameraStereo.getInverseViewMatrix_onCamera_stale sqrt _ s h rfl h,
    CameraStereo.getInverseViewMatrix_onCamera_stale sqrt _ s h rfl h,
    CameraStereo.getInverseViewMatrix_onCamera_stale sqrt _ s h rfl h⟩

/-- C8 (evaluation at the stereo example camera after a first
`getInverseViewMatrix()`, then `setEyePoint( (5,0,0) )`): the inverse view matrix
returned after the mutator is the one returned before it, and the view matrix of the
new pose times that matrix has entry (0,3) equal to `-5`, so it is not the identity. -/
theorem CameraStereo.getInverseViewMatrix_stale :
    (CameraStereo.getInverseViewMatrix Rat.sqrt stereoQ2).1 =
      (CameraStereo.getInverseViewMatrix Rat.sqrt stereoQ1).1 ∧
    ((CameraStereo.getViewMatrix Rat.sqrt
        (CameraStereo.getInverseViewMatrix Rat.sqrt stereoQ2).2).1 *
      (CameraStereo.getInverseViewMatrix Rat.sqrt stereoQ2).1) 0 3 = -5 ∧
    (CameraStereo.getViewMatrix Rat.sqrt
        (CameraStereo.getInverseViewMatrix Rat.sqrt stereoQ2).2).1 *
      (CameraStereo.getInverseViewMatrix Rat.sqrt stereoQ2).1 ≠ 1 := by
  have h3 : ((CameraStereo.getViewMatrix Rat.sqrt
        (CameraStereo.getInverseViewMatrix Rat.sqrt stereoQ2).2).1 *
      (CameraStereo.getInverseViewMatrix Rat.sqrt stereoQ2).1) 0 3 = -5 := by
    simp [Matrix.mul_apply, Fin.sum_univ_four, CameraStereo.getViewMatrix,
      CameraStereo.getInverseViewMatrix, CameraStereo.calcInverseView,
      CameraStereo.calcViewMatrix, Camera.calcViewMatrix, stereoQ2, stereoQ1,
      CameraStereo.onCamera, Camera.setEyePoint, stereoQ, perspQ, cameraQ, affineInverse,
      inverse3, Mat4.set, Vec3.normalized, Vec3.length, Vec3.dot, Vec3.neg, Vec3.sub, Vec3.add,
      Vec3.smul, Vec3.cross, Quat.rotate]
    norm_num
  refine ⟨CameraStereo.getInverseViewMatrix_onCamera_stale Rat.sqrt _ stereoQ1 rfl rfl rfl,
    h3, fun h => ?_⟩
  rw [h, Matrix.one_apply_ne (by decide)] at h3
  norm_num at h3

end Stereo

section View

variable {K : Type} [LinearOrderedField K]

/-- C3: after `Camera::calcViewMatrix`, `mU` and `mV` are the orientation applied to
`(1,0,0)` and `(0,1,0)` and `mW = -normalize(viewDirection)`; for every world point
`p` the view matrix applied to `(p,1)` is `(U.(p-eye), V.(p-eye), W.(p-eye), 1)`; the
rotation rows are `U, V, W`, the translation column is `(-eye.U, -eye.V, -eye.W)`, the
bottom row is `(0,0,0,1)`; the eye point maps to the origin; the view flag is set and
the inverse-view flag cleared. -/
theorem Camera.calcViewMatrix_form (sqrt : K → K) (c : Camera K) :
    (Camera.calcViewMatrix sqrt c).mU = Quat.rotate c.mOrientation ⟨1, 0, 0⟩ ∧
    (Camera.calcViewMatrix sqrt c).mV = Quat.rotate c.mOrientation ⟨0, 1, 0⟩ ∧
    (Camera.calcViewMatrix sqrt c).mW = Vec3.neg (Vec3.normalized sqrt c.mViewDirection) ∧
    (∀ p : Vec3 K, Matrix.mulVec (Camera.calcViewMatrix sqrt c).mViewMatrix p.toVec4 =
      ![Vec3.dot (Camera.calcViewMatrix sqrt c).mU (Vec3.sub p c.mEyePoint),
        Vec3.dot (Camera.calcViewMatrix sqrt c).mV (Vec3.sub p c.mEyePoint),
        Vec3.dot (Camera.calcViewMatrix sqrt c).mW (Vec3.sub p c.mEyePoint), 1]) ∧
    (Camera.calcViewMatrix sqrt c).mViewMatrix =
      !![(Camera.calcViewMatrix sqrt c).mU.x, (Camera.calcViewMatrix sqrt c).mU.y,
          (Camera.calcViewMatrix sqrt c).mU.z,
          -Vec3.dot c.mEyePoint (Camera.calcViewMatrix sqrt c).mU;
         (Camera.calcViewMatrix sqrt c).mV.x, (Camera.calcViewMatrix sqrt c).mV.y,
          (Camera.calcViewMatrix sqrt c).mV.z,
          -Vec3.dot c.mEyePoint (Camera.calcViewMatrix sqrt c).mV;
         (Camera.calcViewMatrix sqrt c).mW.x, (Camera.calcViewMatrix sqrt c).mW.y,
          (Camera.calcViewMatrix sqrt c).mW.z,
          -Vec3.dot c.mEyePoint (Camera.calcViewMatrix sqrt c).mW;
         0, 0, 0, 1] ∧
    Matrix.mulVec (Camera.calcViewMatrix sqrt c).mViewMatrix c.mEyePoint.toVec4 = ![0, 0, 0, 1] ∧
    (Camera.calcViewMatrix sqrt c).mModelViewCached = true ∧
    (Camera.calcViewMatrix sqrt c).mInverseModelViewCached = false := by
  refine ⟨rfl, rfl, rfl, ?_, rfl, ?_, rfl, rfl⟩
  · intro p
    funext i
    fin_cases i <;>
      simp [Camera.calcViewMatrix, Matrix.mulVec, Matrix.dotProduct, Fin.sum_univ_four,
        Vec3.toVec4, Vec3.dot, Vec3.sub, Matrix.vecHead, Matrix.vecTail] <;> ring
  · funext i
    fin_cases i <;>
      simp [Camera.calcViewMatrix, Matrix.mulVec, Matrix.dotProduct, Fin.sum_univ_four,
        Vec3.toVec4, Vec3.dot, Matrix.vecHead, Matrix.vecTail] <;> ring

/-- A vector normalised with a square root that is exact at its squared length,
that length being non-zero, has unit length. -/
lemma Vec3.normalized_dot_self (sqrt : K → K) (v : Vec3 K)
    (hs : sqrt (Vec3.dot v v) * sqrt (Vec3.dot v v) = Vec3.dot v v) (hv : Vec3.dot v v ≠ 0) :
    Vec3.dot (Vec3.normalized sqrt v) (Vec3.normalized sqrt v) = 1 := by
  simp only [Vec3.dot] at hs hv
  simp only [Vec3.normalized, Vec3.length, Vec3.dot]
  generalize sqrt (v.x * v.x + v.y * v.y + v.z * v.z) = s at hs
  have hs0 : s ≠ 0 := by
    intro h
    rw [h] at hs
    apply hv
    linarith
  field_simp
  linear_combination -hs

/-- The general case of `glm::rotation` has the standard meaning: for unit vectors
`a`, `b` that are not opposite, with the square root exact at `2 * (1 + a . b)`, the
quaternion `rotationGeneral sqrt a b` rotates `a` onto `b`. -/
lemma rotationGeneral_rotate (sqrt : K → K) (a b : Vec3 K) (ha : Vec3.dot a a = 1)
    (hb : Vec3.dot b b = 1) (hne : 1 + Vec3.dot a b ≠ 0)
    (hs : sqrt ((1 + Vec3.dot a b) * 2) * sqrt ((1 + Vec3.dot a b) * 2) =
      (1 + Vec3.dot a b) * 2) :
    Quat.rotate (rotationGeneral sqrt a b) a = b := by
  obtain ⟨ax, ay, az⟩ := a
  obtain ⟨bx, byy, bz⟩ := b
  simp only [Vec3.dot] at ha hb hne hs
  simp only [Quat.rotate, rotationGeneral, Vec3.dot, Vec3.cross, Vec3.add, Vec3.smul]
  generalize sqrt ((1 + (ax * bx + ay * byy + az * bz)) * 2) = s at hs
  have hs0 : s ≠ 0 := by
    intro h
    rw [h] at hs
    apply hne
    linarith
  congr 1
  · field_simp
    linear_combination (2 * ax * (1 - (ax * bx + ay * byy + az * bz))) * hs +
      (2 * (s * s * bx - 2 * ax)) * ha + (-4 * ax * (ax * ax + ay * ay + az * az)) * hb
  · field_simp
    linear_combination (2 * ay * (1 - (ax * bx + ay * byy + az * bz))) * hs +
      (2 * (s * s * byy - 2 * ay)) * ha + (-4 * ay * (ax * ax + ay * ay + az * az)) * hb
  · field_simp
    linear_combination (2 * az * (1 - (ax * bx + ay * byy + az * bz))) * hs +
      (2 * (s * s * bz - 2 * az)) * ha + (-4 * az * (ax * ax + ay * ay + az * az)) * hb

/-- For every `glm::rotation` with its standard meaning (it rotates a unit vector `a`
onto a unit vector `b`) and every `v` normalised exactly, the orientation stored by
`setViewDirection( v )` rotates the stored view direction onto the forward axis
`(0,0,-1)`. -/
lemma Camera.setViewDirection_rotate_viewDirection (sqrt : K → K)
    (rotation : Vec3 K → Vec3 K → Quat K) (c : Camera K) (v : Vec3 K)
    (hrot : ∀ a b : Vec3 K, Vec3.dot a a = 1 → Vec3.dot b b = 1 →
      Quat.rotate (rotation a b) a = b)
    (hs : sqrt (Vec3.dot v v) * sqrt (Vec3.dot v v) = Vec3.dot v v) (hv : Vec3.dot v v ≠ 0) :
    Quat.rotate (Camera.setViewDirection sqrt rotation c v).mOrientation
      (Camera.setViewDirection sqrt rotation c v).mViewDirection = ⟨0, 0, -1⟩ :=
  hrot _ _ (Vec3.normalized_dot_self sqrt v hs hv) (by simp [Vec3.dot])

/-- The view direction stored by the example call `setViewDirection( (48/25, 0, -14/25) )`. -/
lemma cameraQ1_mViewDirection : cameraQ1.mViewDirection = ⟨24 / 25, 0, -(7 / 25)⟩ := by
  simp only [cameraQ1, Camera.setViewDirection, Vec3.normalized, Vec3.length]
  norm_num

/-- The rational square root of `64/25`. -/
lemma ratSqrt_64_25 : Rat.sqrt (64 / 25) = 8 / 5 := by
  rw [show (64 / 25 : ℚ) = 8 / 5 * (8 / 5) by norm_num, Rat.sqrt_eq, abs_of_pos (by norm_num)]

/-- The orientation stored by the example call `setViewDirection( (48/25, 0, -14/25) )`. -/
lemma cameraQ1_mOrientation : cameraQ1.mOrientation = ⟨4 / 5, 0, 3 / 5, 0⟩ := by
  have hq0 : cameraQ1.mOrientation =
      rotationGeneral Rat.sqrt cameraQ1.mViewDirection ⟨0, 0, -1⟩ := rfl
  rw [hq0, cameraQ1_mViewDirection]
  simp only [rotationGeneral, Vec3.dot, Vec3.cross]
  norm_num [ratSqrt_64_25]

/-- C9 (evaluation at `setViewDirection( (48/25, 0, -14/25) )`): the stored view
direction is `normalize(v) = (24/25, 0, -7/25)`, the stored orientation is
`(4/5; 0, 3/5, 0)`, and rotating the forward axis `(0,0,-1)` by it gives
`(-24/25, 0, -7/25)`, not `normalize(v)`; it is the view direction that the stored
orientation rotates onto `(0,0,-1)`. -/
theorem Camera.setViewDirection_orientation_reversed :
    cameraQ1.mViewDirection = Vec3.normalized Rat.sqrt ⟨48 / 25, 0, -(14 / 25)⟩ ∧
    cameraQ1.mViewDirection = ⟨24 / 25, 0, -(7 / 25)⟩ ∧
    cameraQ1.mOrientation = ⟨4 / 5, 0, 3 / 5, 0⟩ ∧
    Quat.rotate cameraQ1.mOrientation ⟨0, 0, -1⟩ = ⟨-(24 / 25), 0, -(7 / 25)⟩ ∧
    Quat.rotate cameraQ1.mOrientation ⟨0, 0, -1⟩ ≠ cameraQ1.mViewDirection ∧
    Quat.rotate cameraQ1.mOrientation cameraQ1.mViewDirection = ⟨0, 0, -1⟩ := by
  refine ⟨rfl, cameraQ1_mViewDirection, cameraQ1_mOrientation, ?_, ?_, ?_⟩
  · rw [cameraQ1_mOrientation]
    simp only [Quat.rotate, Vec3.cross, Vec3.add, Vec3.smul]
    norm_num
  · rw [cameraQ1_mOrientation, cameraQ1_mViewDirection]
    simp only [Quat.rotate, Vec3.cross, Vec3.add, Vec3.smul]
    norm_num
  · rw [cameraQ1_mOrientation, cameraQ1_mViewDirection]
    simp only [Quat.rotate, Vec3.cross, Vec3.add, Vec3.smul]
    norm_num

/-- C10 (evaluation after `setViewDirection( (48/25, 0, -14/25) )`): the basis
`calcViewMatrix` derives is `U = (7/25, 0, -24/25)`, `V = (0,1,0)`,
`W = (-24/25, 0, 7/25)`; `U . W = -336/625` is not zero and `U x V` is not `W`. -/
theorem Camera.calcViewMatrix_basis_not_orthonormal :
    (Camera.calcViewMatrix Rat.sqrt cameraQ1).mU = ⟨7 / 25, 0, -(24 / 25)⟩ ∧
    (Camera.calcViewMatrix Rat.sqrt cameraQ1).mV = ⟨0, 1, 0⟩ ∧
    (Camera.calcViewMatrix Rat.sqrt cameraQ1).mW = ⟨-(24 / 25), 0, 7 / 25⟩ ∧
    Vec3.dot (Camera.calcViewMatrix Rat.sqrt cameraQ1).mU
      (Camera.calcViewMatrix Rat.sqrt cameraQ1).mW = -(336 / 625) ∧
    Vec3.cross (Camera.calcViewMatrix Rat.sqrt cameraQ1).mU
      (Camera.calcViewMatrix Rat.sqrt cameraQ1).mV ≠
      (Camera.calcViewMatrix Rat.sqrt cameraQ1).mW := by
  have hU : (Camera.calcViewMatrix Rat.sqrt cameraQ1).mU = ⟨7 / 25, 0, -(24 / 25)⟩ := by
    have h0 : (Camera.calcViewMatrix Rat.sqrt cameraQ1).mU =
        Quat.rotate cameraQ1.mOrientation ⟨1, 0, 0⟩ := rfl
    rw [h0, cameraQ1_mOrientation]
    simp only [Quat.rotate, Vec3.cross, Vec3.add, Vec3.smul]
    norm_num
  have hV : (Camera.calcViewMatrix Rat.sqrt cameraQ1).mV = ⟨0, 1, 0⟩ := by
    have h0 : (Camera.calcViewMatrix Rat.sqrt cameraQ1).mV =
        Quat.rotate cameraQ1.mOrientation ⟨0, 1, 0⟩ := rfl
    rw [h0, cameraQ1_mOrientation]
    simp only [Quat.rotate, Vec3.cross, Vec3.add, Vec3.smul]
    norm_num
  have hW : (Camera.calcViewMatrix Rat.sqrt cameraQ1).mW = ⟨-(24 / 25), 0, 7 / 25⟩ := by
    have h0 : (Camera.calcViewMatrix Rat.sqrt cameraQ1).mW =
        Vec3.neg (Vec3.normalized Rat.sqrt cameraQ1.mViewDirection) := rfl
    rw [h0, cameraQ1_mViewDirection]
    simp only [Vec3.normalized, Vec3.length, Vec3.neg]
    norm_num
  refine ⟨hU, hV, hW, ?_, ?_⟩
  · rw [hU, hW]
    simp only [Vec3.dot]
    norm_num
  · rw [hU, hV, hW]
    simp only [Vec3.cross]
    norm_num

end View

section LensShift

variable {K : Type} [LinearOrderedField K]

/-- The right frustum bound that `CameraPersp::calcProjection` stores when the
horizontal lens shift is non-zero: the unshifted bound times `1 + shift`. -/
lemma CameraPersp.calcProjection_mFrustumRight (tan : K → K) (pi : K) (c : CameraPersp K)
    (hsx : c.mLensShift.x ≠ 0) :
    (CameraPersp.calcProjection tan pi c).mFrustumRight =
      c.mNearClip * tan (pi / 180 * c.mFov * (1 / 2)) * c.mAspectRatio * (1 + c.mLensShift.x) := by
  simp only [CameraPersp.calcProjection, lerp, if_pos hsx]
  ring

/-- C11 (counterexample): the example camera (near 1, field of view 90 degrees, aspect
1) with horizontal lens shift `1/2` meets the claim's conditions, its unshifted right
bound is `1` and `calcProjection` stores `frustumRight = 3/2`, which is not closer to
zero than `1`. -/
theorem CameraPersp.lensShift_right_not_toward_zero :
    (0 < perspShiftXQ.mNearClip ∧ 0 < perspShiftXQ.mFov ∧ perspShiftXQ.mFov < 180 ∧
      0 < perspShiftXQ.mAspectRatio ∧ 0 < perspShiftXQ.mLensShift.x ∧
      perspShiftXQ.mLensShift.x ≤ 1) ∧
    perspShiftXQ.mNearClip * tanQ (piQ / 180 * perspShiftXQ.mFov * (1 / 2)) *
      perspShiftXQ.mAspectRatio = 1 ∧
    (CameraPersp.calcProjection tanQ piQ perspShiftXQ).mFrustumRight = 3 / 2 ∧
    ¬ (|(CameraPersp.calcProjection tanQ piQ perspShiftXQ).mFrustumRight| <
      |perspShiftXQ.mNearClip * tanQ (piQ / 180 * perspShiftXQ.mFov * (1 / 2)) *
        perspShiftXQ.mAspectRatio|) := by
  have h1 : perspShiftXQ.mNearClip * tanQ (piQ / 180 * perspShiftXQ.mFov * (1 / 2)) *
      perspShiftXQ.mAspectRatio = 1 := by
    norm_num [perspShiftXQ, CameraPersp.setLensShift, perspQ, cameraQ, tanQ, piQ]
  have h2 : (CameraPersp.calcProjection tanQ piQ perspShiftXQ).mFrustumRight = 3 / 2 := by
    norm_num [CameraPersp.calcProjection, lerp, perspShiftXQ, CameraPersp.setLensShift, perspQ,
      cameraQ, tanQ, piQ]
  refine ⟨?_, h1, h2, ?_⟩
  · norm_num [perspShiftXQ, CameraPersp.setLensShift, perspQ, cameraQ]
  · rw [h1, h2]
    norm_num [abs_of_pos]

/-- C11 (amended): for every perspective camera with `nearClip > 0`, a positive
tangent of the half field of view (as for `0 < fov < 180` degrees), `aspectRatio > 0`
and horizontal lens shift `0 < sx ≤ 1`, after `CameraPersp::calcProjection`
`frustumRight` is the unshifted value `nearClip * tan(fov/2) * aspectRatio` times
`1 + sx`, which is farther from zero than the unshifted value. -/
theorem CameraPersp.calcProjection_lensShift_right (tan : K → K) (pi : K) (c : CameraPersp K)
    (hn : 0 < c.mNearClip) (htan : 0 < tan (pi / 180 * c.mFov * (1 / 2)))
    (ha : 0 < c.mAspectRatio) (hsx : 0 < c.mLensShift.x) (_hsx1 : c.mLensShift.x ≤ 1) :
    (CameraPersp.calcProjection tan pi c).mFrustumRight =
      c.mNearClip * tan (pi / 180 * c.mFov * (1 / 2)) * c.mAspectRatio * (1 + c.mLensShift.x) ∧
    |c.mNearClip * tan (pi / 180 * c.mFov * (1 / 2)) * c.mAspectRatio| <
      |(CameraPersp.calcProjection tan pi c).mFrustumRight| := by
  have hR : 0 < c.mNearClip * tan (pi / 180 * c.mFov * (1 / 2)) * c.mAspectRatio :=
    mul_pos (mul_pos hn htan) ha
  have hE := CameraPersp.calcProjection_mFrustumRight tan pi c (ne_of_gt hsx)
  refine ⟨hE, ?_⟩
  rw [hE, abs_of_pos hR, abs_of_pos (mul_pos hR (by linarith))]
  nlinarith

/-- C11 (amended) witness: the example camera with horizontal lens shift `1/2`. -/
theorem CameraPersp.calcProjection_lensShift_right_witness :
    (CameraPersp.calcProjection tanQ piQ perspShiftXQ).mFrustumRight =
      perspShiftXQ.mNearClip * tanQ (piQ / 180 * perspShiftXQ.mFov * (1 / 2)) *
        perspShiftXQ.mAspectRatio * (1 + perspShiftXQ.mLensShift.x) ∧
    |perspShiftXQ.mNearClip * tanQ (piQ / 180 * perspShiftXQ.mFov * (1 / 2)) *
        perspShiftXQ.mAspectRatio| <
      |(CameraPersp.calcProjection tanQ piQ perspShiftXQ).mFrustumRight| :=
  CameraPersp.calcProjection_lensShift_right tanQ piQ perspShiftXQ
    (by norm_num [perspShiftXQ, CameraPersp.setLensShift, perspQ, cameraQ])
    (by norm_num [perspShiftXQ, CameraPersp.setLensShift, perspQ, cameraQ, tanQ, piQ])
    (by norm_num [perspShiftXQ, CameraPersp.setLensShift, perspQ, cameraQ])
    (by norm_num [perspShiftXQ, CameraPersp.setLensShift])
    (by norm_num [perspShiftXQ, CameraPersp.setLensShift])

end LensShift

section FrameSphereLoop

variable {K : Type}

/-- The loop of `getFrameSphere` entered with a counter that has reached
`maxIterations` exits at once. -/
lemma CameraPersp.frameSphereLoop_of_le
    (body : CameraPersp.FrameSphereState K → CameraPersp.FrameSphereState K)
    (maxIterations i : Int) (st : CameraPersp.FrameSphereState K) (h : maxIterations ≤ i) :
    CameraPersp.frameSphereLoop body maxIterations i st = (i, st) := by
  rw [CameraPersp.frameSphereLoop, if_neg (not_lt.mpr h)]

/-- The loop of `getFrameSphere` entered with a counter below `maxIterations` runs
the body once and continues with the counter incremented. -/
lemma CameraPersp.frameSphereLoop_of_lt
    (body : CameraPersp.FrameSphereState K → CameraPersp.FrameSphereState K)
    (maxIterations i : Int) (st : CameraPersp.FrameSphereState K) (h : i < maxIterations) :
    CameraPersp.frameSphereLoop body maxIterations i st =
      CameraPersp.frameSphereLoop body maxIterations (i + 1) (body st) := by
  rw [CameraPersp.frameSphereLoop, if_pos h]

/-- The loop of `getFrameSphere` entered with counter `i ≤ maxIterations` exits with
the counter equal to `maxIterations`, having run the body `maxIterations - i` times. -/
lemma CameraPersp.frameSphereLoop_eq_iterate
    (body : CameraPersp.FrameSphereState K → CameraPersp.FrameSphereState K)
    (maxIterations : Int) (n : Nat) :
    ∀ (i : Int) (st : CameraPersp.FrameSphereState K), maxIterations - i = n →
      CameraPersp.frameSphereLoop body maxIterations i st = (maxIterations, body^[n] st) := by
  induction n with
  | zero =>
    intro i st h
    have hi : i = maxIterations := by omega
    subst hi
    rw [CameraPersp.frameSphereLoop_of_le body i i st le_rfl]
    rfl
  | succ n ih =>
    intro i st h
    rw [CameraPersp.frameSphereLoop_of_lt body maxIterations i st (by omega),
      ih (i + 1) (body st) (by push_cast at h; omega), Function.iterate_succ_apply]

end FrameSphereLoop

section FrameSphere

variable {K : Type} [LinearOrderedField K]

/-- C12 (counterexample): for the example camera (eye `(0,0,0)`, view direction
`(0,0,-1)`, centre of interest 1), the unit sphere at `(0,0,-5)` and
`maxIterations = 0`, `getFrameSphere` returns a camera whose eye point is `(0,0,-4)`,
not the eye point `(0,0,0)` of the camera. -/
theorem CameraPersp.getFrameSphere_zero_moves_eye :
    perspQ.mEyePoint = ⟨0, 0, 0⟩ ∧
    (CameraPersp.getFrameSphere Rat.sqrt getOrthogonalQ tanQ piQ perspQ sphereQ 0).mEyePoint =
      ⟨0, 0, -4⟩ ∧
    (CameraPersp.getFrameSphere Rat.sqrt getOrthogonalQ tanQ piQ perspQ sphereQ 0).mEyePoint ≠
      perspQ.mEyePoint := by
  have h : (CameraPersp.getFrameSphere Rat.sqrt getOrthogonalQ tanQ piQ perspQ sphereQ
      0).mEyePoint = ⟨0, 0, -4⟩ := by
    simp only [CameraPersp.getFrameSphere, CameraPersp.frameSphereLoop_of_le _ 0 0 _ le_rfl]
    norm_num [CameraPersp.frameSphereInit, CameraPersp.onCamera, Camera.setCenterOfInterest,
      Camera.setEyePoint, Camera.getCenterOfInterest, perspQ, cameraQ, sphereQ, Vec3.sub,
      Vec3.smul]
  refine ⟨rfl, h, ?_⟩
  rw [h]
  simp [perspQ, cameraQ]

/-- C12 (amended): for every perspective camera `c`, every sphere and every
`maxIterations ≤ 0`, `getFrameSphere` returns `c` with three members changed: the eye
point is the sphere centre minus `centerOfInterest` times the view direction, the
view flag is cleared, and `centerOfInterest` is the distance from that eye point to
the sphere centre. -/
theorem CameraPersp.getFrameSphere_no_iterations (sqrt : K → K)
    (getOrthogonal : Vec3 K → Vec3 K) (tan : K → K) (pi : K) (c : CameraPersp K)
    (worldSpaceSphere : Sphere K) (maxIterations : Int) (h : maxIterations ≤ 0) :
    CameraPersp.getFrameSphere sqrt getOrthogonal tan pi c worldSpaceSphere maxIterations =
      { c with
        mEyePoint :=
          Vec3.sub worldSpaceSphere.mCenter (Vec3.smul c.mCenterOfInterest c.mViewDirection)
        mModelViewCached := false
        mCenterOfInterest :=
          Vec3.distance sqrt
            (Vec3.sub worldSpaceSphere.mCenter (Vec3.smul c.mCenterOfInterest c.mViewDirection))
            worldSpaceSphere.mCenter } := by
  simp only [CameraPersp.getFrameSphere, CameraPersp.frameSphereLoop_of_le _ _ 0 _ h]
  rfl

/-- C12 (amended) witness: the example camera, the unit sphere at `(0,0,-5)` and
`maxIterations = 0`. -/
theorem CameraPersp.getFrameSphere_no_iterations_witness :
    CameraPersp.getFrameSphere Rat.sqrt getOrthogonalQ tanQ piQ perspQ sphereQ 0 =
      { perspQ with
        mEyePoint := Vec3.sub sphereQ.mCenter (Vec3.smul perspQ.mCenterOfInterest
          perspQ.mViewDirection)
        mModelViewCached := false
        mCenterOfInterest :=
          Vec3.distance Rat.sqrt
            (Vec3.sub sphereQ.mCenter (Vec3.smul perspQ.mCenterOfInterest perspQ.mViewDirection))
            sphereQ.mCenter } :=
  CameraPersp.getFrameSphere_no_iterations Rat.sqrt getOrthogonalQ tanQ piQ perspQ sphereQ 0
    le_rfl

end FrameSphere

section Queries

variable {K : Type} [LinearOrderedField K]

/-- The view matrix of `calcViewMatrix` applied to a homogeneous point. -/
lemma Camera.calcViewMatrix_mulVec (sqrt : K → K) (c : Camera K) (p : Vec3 K) :
    Matrix.mulVec (Camera.calcViewMatrix sqrt c).mViewMatrix p.toVec4 =
      ![Vec3.dot (Quat.rotate c.mOrientation ⟨1, 0, 0⟩) (Vec3.sub p c.mEyePoint),
        Vec3.dot (Quat.rotate c.mOrientation ⟨0, 1, 0⟩) (Vec3.sub p c.mEyePoint),
        Vec3.dot (Vec3.neg (Vec3.normalized sqrt c.mViewDirection)) (Vec3.sub p c.mEyePoint),
        1] := by
  funext i
  fin_cases i <;>
    simp [Camera.calcViewMatrix, Matrix.mulVec, Matrix.dotProduct, Fin.sum_univ_four,
      Vec3.toVec4, Vec3.dot, Vec3.sub, Matrix.vecHead, Matrix.vecTail] <;> ring

/-- A camera whose view flag is clear has current view data. -/
lemma Camera.viewCurrent_of_not_cached (sqrt : K → K) (c : Camera K)
    (h : c.mModelViewCached = false) : Camera.ViewCurrent sqrt c := by
  intro h1
  rw [h] at h1
  exact absurd h1 (by decide)

/-- After `calcViewMatrix` the view data are current. -/
lemma Camera.viewCurrent_calcViewMatrix (sqrt : K → K) (c : Camera K) :
    Camera.ViewCurrent sqrt (Camera.calcViewMatrix sqrt c) :=
  fun _ => ⟨rfl, rfl, rfl, rfl⟩

/-- With current view data, `getViewMatrix()` returns the matrix that `calcViewMatrix`
computes from the pose. -/
lemma Camera.getViewMatrix_of_current (sqrt : K → K) (c : Camera K)
    (h : Camera.ViewCurrent sqrt c) :
    (Camera.getViewMatrix sqrt c).1 = (Camera.calcViewMatrix sqrt c).mViewMatrix := by
  unfold Camera.getViewMatrix
  cases hc : c.mModelViewCached
  · simp
  · simp [(h hc).2.2.2]

/-- The lens members of the camera that `getViewMatrix()` leaves behind are those of
the camera it was called on. -/
lemma Camera.getViewMatrix_snd_lens (sqrt : K → K) (c : Camera K) :
    (Camera.getViewMatrix sqrt c).2.mProjectionCached = c.mProjectionCached ∧
    (Camera.getViewMatrix sqrt c).2.mProjectionMatrix = c.mProjectionMatrix ∧
    (Camera.getViewMatrix sqrt c).2.mNearClip = c.mNearClip ∧
    (Camera.getViewMatrix sqrt c).2.mFarClip = c.mFarClip ∧
    (Camera.getViewMatrix sqrt c).2.mFov = c.mFov ∧
    (Camera.getViewMatrix sqrt c).2.mAspectRatio = c.mAspectRatio := by
  unfold Camera.getViewMatrix
  cases hc : c.mModelViewCached <;> simp [Camera.calcViewMatrix]

/-- With a current projection cache, the `getProjectionMatrix()` call that follows
`getViewMatrix()` on a perspective camera returns the matrix that
`CameraPersp::calcProjection` computes from the lens parameters. -/
lemma CameraPersp.getProjectionMatrix_of_current (sqrt tan : K → K) (pi : K)
    (c : CameraPersp K) (h : CameraPersp.ProjectionCurrent tan pi c) :
    (Camera.getProjectionMatrix (CameraPersp.calcProjectionOf tan pi c.mLensShift)
      (Camera.getViewMatrix sqrt c.toCamera).2).1 =
      (CameraPersp.calcProjection tan pi c).mProjectionMatrix := by
  obtain ⟨h1, h2, h3, h4, h5, h6⟩ := Camera.getViewMatrix_snd_lens sqrt c.toCamera
  unfold Camera.getProjectionMatrix
  cases hc : c.mProjectionCached
  · rw [h1, hc]
    simp only [Bool.not_false, if_true]
    simp only [CameraPersp.calcProjectionOf, CameraPersp.calcProjection, h3, h4, h5, h6]
  · rw [h1, hc]
    simp only [Bool.not_true, Bool.false_eq_true, if_false]
    rw [h2]
    exact h hc

/-- C14: for every camera whose cached view matrix is the one `calcViewMatrix`
produces, every world point whose clip-space `w` is non-zero and every screen size,
`worldToScreen` is the pixel mapping of `worldToNdc`:
`((n.x + 1)/2 * screenWidth, (1 - (n.y + 1)/2) * screenHeight)`. -/
theorem Camera.worldToScreen_eq_worldToNdc (sqrt : K → K)
    (calcProjection : Camera K → Camera K) (c : Camera K) (p : Vec3 K)
    (screenWidth screenHeight : K) (hview : Camera.ViewCurrent sqrt c)
    (_hw : Matrix.mulVec
      (Camera.getProjectionMatrix calcProjection (Camera.getViewMatrix sqrt c).2).1
      (Matrix.mulVec (Camera.getViewMatrix sqrt c).1 p.toVec4) 3 ≠ 0) :
    (Camera.worldToScreen sqrt calcProjection c p screenWidth screenHeight).1 =
      ⟨((Camera.worldToNdc sqrt calcProjection c p).1.x + 1) / 2 * screenWidth,
        (1 - ((Camera.worldToNdc sqrt calcProjection c p).1.y + 1) / 2) * screenHeight⟩ := by
  have he : (⟨Matrix.mulVec (Camera.getViewMatrix sqrt c).1 p.toVec4 0,
      Matrix.mulVec (Camera.getViewMatrix sqrt c).1 p.toVec4 1,
      Matrix.mulVec (Camera.getViewMatrix sqrt c).1 p.toVec4 2⟩ : Vec3 K).toVec4 =
      Matrix.mulVec (Camera.getViewMatrix sqrt c).1 p.toVec4 := by
    rw [Camera.getViewMatrix_of_current sqrt c hview, Camera.calcViewMatrix_mulVec]
    funext i
    fin_cases i <;> simp [Vec3.toVec4]
  simp only [Camera.worldToScreen, Camera.worldToNdc, projectToNdc, he]

/-- C15: for every camera and world point, `worldToEyeDepth` is the `z` component of
`getViewMatrix() * (p, 1)`; when the cached view matrix is the one `calcViewMatrix`
produces, it is `W . (p - eyePoint)` with `W = -normalize(viewDirection)`. -/
theorem Camera.worldToEyeDepth_eq (sqrt : K → K) (c : Camera K) (p : Vec3 K) :
    (Camera.worldToEyeDepth sqrt c p).1 =
      Matrix.mulVec (Camera.getViewMatrix sqrt c).1 p.toVec4 2 ∧
    (Camera.ViewCurrent sqrt c →
      (Camera.worldToEyeDepth sqrt c p).1 =
        Vec3.dot (Vec3.neg (Vec3.normalized sqrt c.mViewDirection)) (Vec3.sub p c.mEyePoint)) := by
  have h1 : (Camera.worldToEyeDepth sqrt c p).1 =
      Matrix.mulVec (Camera.getViewMatrix sqrt c).1 p.toVec4 2 := by
    simp [Camera.worldToEyeDepth, Matrix.mulVec, Matrix.dotProduct, Fin.sum_univ_four,
      Vec3.toVec4, Matrix.vecHead, Matrix.vecTail]
  refine ⟨h1, fun hview => ?_⟩
  rw [h1, Camera.getViewMatrix_of_current sqrt c hview, Camera.calcViewMatrix_mulVec]
  rfl
end Queries

section LookAt

variable {K : Type} [LinearOrderedField K]

/-- Without lens shift the frustum that `CameraPersp::calcProjection` stores is
symmetric: `top = near * tan(fov/2)`, `right = top * aspect`, and the opposite bounds
are their negatives. -/
lemma CameraPersp.calcProjection_frustum_no_shift (tan : K → K) (pi : K) (c : CameraPersp K)
    (hshift : c.mLensShift = ⟨0, 0⟩) :
    (CameraPersp.calcProjection tan pi c).mFrustumTop =
      c.mNearClip * tan (pi / 180 * c.mFov * (1 / 2)) ∧
    (CameraPersp.calcProjection tan pi c).mFrustumBottom =
      -(c.mNearClip * tan (pi / 180 * c.mFov * (1 / 2))) ∧
    (CameraPersp.calcProjection tan pi c).mFrustumRight =
      c.mNearClip * tan (pi / 180 * c.mFov * (1 / 2)) * c.mAspectRatio ∧
    (CameraPersp.calcProjection tan pi c).mFrustumLeft =
      -(c.mNearClip * tan (pi / 180 * c.mFov * (1 / 2)) * c.mAspectRatio) := by
  simp [CameraPersp.calcProjection, hshift]

/-- C13: for every perspective camera with zero lens shift, `0 < nearClip < farClip`,
`aspectRatio > 0`, a positive tangent of the half field of view (as for
`0 < fov < 180` degrees), a non-zero view direction to which `U` and `V` are
orthogonal, and current caches, every point `p = eyePoint + t * viewDirection` with
`t > 0` has `worldToNdc(p)` with `x = 0` and `y = 0` and
`worldToScreen(p, w, h) = (w/2, h/2)`; the frustum is non-degenerate and the
clip-space `w` of `p` is positive, so the divisions are by non-zero numbers. -/
theorem CameraPersp.worldToNdc_on_view_axis (sqrt tan : K → K) (pi : K) (c : CameraPersp K)
    (t screenWidth screenHeight : K)
    (hshift : c.mLensShift = ⟨0, 0⟩) (hn : 0 < c.mNearClip) (hnf : c.mNearClip < c.mFarClip)
    (ha : 0 < c.mAspectRatio) (htan : 0 < tan (pi / 180 * c.mFov * (1 / 2)))
    (hU : Vec3.dot (Quat.rotate c.mOrientation ⟨1, 0, 0⟩) c.mViewDirection = 0)
    (hV : Vec3.dot (Quat.rotate c.mOrientation ⟨0, 1, 0⟩) c.mViewDirection = 0)
    (hvd : 0 < Vec3.dot c.mViewDirection c.mViewDirection)
    (hs : 0 < Vec3.length sqrt c.mViewDirection)
    (hview : Camera.ViewCurrent sqrt c.toCamera)
    (hproj : CameraPersp.ProjectionCurrent tan pi c) (ht : 0 < t) :
    (CameraPersp.worldToNdc sqrt tan pi c
      (Vec3.add c.mEyePoint (Vec3.smul t c.mViewDirection))).1.x = 0 ∧
    (CameraPersp.worldToNdc sqrt tan pi c
      (Vec3.add c.mEyePoint (Vec3.smul t c.mViewDirection))).1.y = 0 ∧
    (CameraPersp.worldToScreen sqrt tan pi c
      (Vec3.add c.mEyePoint (Vec3.smul t c.mViewDirection)) screenWidth screenHeight).1 =
      ⟨screenWidth / 2, screenHeight / 2⟩ ∧
    0 < Matrix.mulVec
      (Camera.getProjectionMatrix (CameraPersp.calcProjectionOf tan pi c.mLensShift)
        (Camera.getViewMatrix sqrt c.toCamera).2).1
      (Matrix.mulVec (Camera.getViewMatrix sqrt c.toCamera).1
        (Vec3.add c.mEyePoint (Vec3.smul t c.mViewDirection)).toVec4) 3 ∧
    (CameraPersp.calcProjection tan pi c).mFrustumRight ≠
      (CameraPersp.calcProjection tan pi c).mFrustumLeft ∧
    (CameraPersp.calcProjection tan pi c).mFrustumTop ≠
      (CameraPersp.calcProjection tan pi c).mFrustumBottom ∧
    (CameraPersp.calcProjection tan pi c).mFarClip ≠
      (CameraPersp.calcProjection tan pi c).mNearClip := by
  obtain ⟨hT, hB, hR, hL⟩ := CameraPersp.calcProjection_frustum_no_shift tan pi c hshift
  have hTpos : 0 < c.mNearClip * tan (pi / 180 * c.mFov * (1 / 2)) := mul_pos hn htan
  have hRpos : 0 < c.mNearClip * tan (pi / 180 * c.mFov * (1 / 2)) * c.mAspectRatio :=
    mul_pos hTpos ha
  -- the eye-space image of the point
  have hE : Matrix.mulVec (Camera.getViewMatrix sqrt c.toCamera).1
      (Vec3.add c.mEyePoint (Vec3.smul t c.mViewDirection)).toVec4 =
      ![0, 0, -(t * (Vec3.dot c.mViewDirection c.mViewDirection /
        Vec3.length sqrt c.mViewDirection)), 1] := by
    rw [Camera.getViewMatrix_of_current sqrt c.toCamera hview, Camera.calcViewMatrix_mulVec]
    simp only [Vec3.dot] at hU hV
    have h0 : Vec3.dot (Quat.rotate c.mOrientation ⟨1, 0, 0⟩)
        (Vec3.sub (Vec3.add c.mEyePoint (Vec3.smul t c.mViewDirection)) c.mEyePoint) = 0 := by
      simp only [Vec3.dot, Vec3.sub, Vec3.add, Vec3.smul]
      linear_combination t * hU
    have h1 : Vec3.dot (Quat.rotate c.mOrientation ⟨0, 1, 0⟩)
        (Vec3.sub (Vec3.add c.mEyePoint (Vec3.smul t c.mViewDirection)) c.mEyePoint) = 0 := by
      simp only [Vec3.dot, Vec3.sub, Vec3.add, Vec3.smul]
      linear_combination t * hV
    have h2 : Vec3.dot (Vec3.neg (Vec3.normalized sqrt c.mViewDirection))
        (Vec3.sub (Vec3.add c.mEyePoint (Vec3.smul t c.mViewDirection)) c.mEyePoint) =
        -(t * (Vec3.dot c.mViewDirection c.mViewDirection /
          Vec3.length sqrt c.mViewDirection)) := by
      simp only [Vec3.dot, Vec3.sub, Vec3.add, Vec3.smul, Vec3.neg, Vec3.normalized]
      field_simp
      ring
    rw [h0, h1, h2]
  -- the clip-space image
  have hP := CameraPersp.getProjectionMatrix_of_current sqrt tan pi c hproj
  have hC : Matrix.mulVec
      (Camera.getProjectionMatrix (CameraPersp.calcProjectionOf tan pi c.mLensShift)
        (Camera.getViewMatrix sqrt c.toCamera).2).1
      (Matrix.mulVec (Camera.getViewMatrix sqrt c.toCamera).1
        (Vec3.add c.mEyePoint (Vec3.smul t c.mViewDirection)).toVec4) =
      ![0, 0, Matrix.mulVec (CameraPersp.calcProjection tan pi c).mProjectionMatrix
          ![0, 0, -(t * (Vec3.dot c.mViewDirection c.mViewDirection /
            Vec3.length sqrt c.mViewDirection)), 1] 2,
        t * (Vec3.dot c.mViewDirection c.mViewDirection /
          Vec3.length sqrt c.mViewDirection)] := by
    rw [hE, hP]
    have hk := persp_mulVec (CameraPersp.calcProjection tan pi c).mFrustumLeft
      (CameraPersp.calcProjection tan pi c).mFrustumRight
      (CameraPersp.calcProjection tan pi c).mFrustumBottom
      (CameraPersp.calcProjection tan pi c).mFrustumTop
      (CameraPersp.calcProjection tan pi c).mNearClip
      (CameraPersp.calcProjection tan pi c).mFarClip 0 0
      (-(t * (Vec3.dot c.mViewDirection c.mViewDirection /
        Vec3.length sqrt c.mViewDirection)))
    have hk' : Matrix.mulVec (CameraPersp.calcProjection tan pi c).mProjectionMatrix
        ![0, 0, -(t * (Vec3.dot c.mViewDirection c.mViewDirection /
          Vec3.length sqrt c.mViewDirection)), 1] = _ := hk
    funext i
    fin_cases i
    · rw [hk']
      simp [hR, hL]
    · rw [hk']
      simp [hT, hB]
    · rfl
    · rw [hk']
      simp
  have hwpos : 0 < t * (Vec3.dot c.mViewDirection c.mViewDirection /
      Vec3.length sqrt c.mViewDirection) := mul_pos ht (div_pos hvd hs)
  refine ⟨?_, ?_, ?_, ?_, ?_, ?_, ?_⟩
  · simp only [CameraPersp.worldToNdc, Camera.worldToNdc, projectToNdc, hC]
    simp
  · simp only [CameraPersp.worldToNdc, Camera.worldToNdc, projectToNdc, hC]
    simp
  · have he : (⟨Matrix.mulVec (Camera.getViewMatrix sqrt c.toCamera).1
          (Vec3.add c.mEyePoint (Vec3.smul t c.mViewDirection)).toVec4 0,
        Matrix.mulVec (Camera.getViewMatrix sqrt c.toCamera).1
          (Vec3.add c.mEyePoint (Vec3.smul t c.mViewDirection)).toVec4 1,
        Matrix.mulVec (Camera.getViewMatrix sqrt c.toCamera).1
          (Vec3.add c.mEyePoint (Vec3.smul t c.mViewDirection)).toVec4 2⟩ : Vec3 K).toVec4 =
        Matrix.mulVec (Camera.getViewMatrix sqrt c.toCamera).1
          (Vec3.add c.mEyePoint (Vec3.smul t c.mViewDirection)).toVec4 := by
      rw [hE]
      funext i
      fin_cases i <;> simp [Vec3.toVec4]
    simp only [CameraPersp.worldToScreen, Camera.worldToScreen, he, hC]
    simp
    exact ⟨by ring, by ring⟩
  · rw [hC]
    simpa using hwpos
  · rw [hR, hL]
    intro h
    linarith
  · rw [hT, hB]
    intro h
    linarith
  · exact ne_of_gt hnf
end LookAt

section Frustum

variable {K : Type} [LinearOrderedField K]

/-- `CameraPersp::calcProjection`, called virtually, leaves the pose alone. -/
lemma CameraPersp.keepsPose_calcProjectionOf (tan : K → K) (pi : K) (lensShift : Vec2 K) :
    Camera.KeepsPose (CameraPersp.calcProjectionOf tan pi lensShift) :=
  fun _ => ⟨rfl, rfl, rfl, rfl, rfl⟩

/-- `CameraOrtho::calcProjection`, called virtually, leaves the pose alone. -/
lemma CameraOrtho.keepsPose_calcProjection :
    Camera.KeepsPose
      (fun c : Camera K => (CameraOrtho.calcProjection { toCamera := c }).toCamera) :=
  fun _ => ⟨rfl, rfl, rfl, rfl, rfl⟩

/-- What `calcMatrices` leaves of the pose and the basis when the virtual
`calcProjection` keeps the pose: eye point and view direction are unchanged, and with
current view data `mU`, `mV`, `mW` are the basis that `calcViewMatrix` derives. -/
lemma Camera.calcMatrices_pose (sqrt : K → K) (calcProjection : Camera K → Camera K)
    (c : Camera K) (hvirt : Camera.KeepsPose calcProjection) :
    (Camera.calcMatrices sqrt calcProjection c).mEyePoint = c.mEyePoint ∧
    (Camera.calcMatrices sqrt calcProjection c).mViewDirection = c.mViewDirection ∧
    (Camera.ViewCurrent sqrt c →
      (Camera.calcMatrices sqrt calcProjection c).mU = Quat.rotate c.mOrientation ⟨1, 0, 0⟩ ∧
      (Camera.calcMatrices sqrt calcProjection c).mV = Quat.rotate c.mOrientation ⟨0, 1, 0⟩ ∧
      (Camera.calcMatrices sqrt calcProjection c).mW =
        Vec3.neg (Vec3.normalized sqrt c.mViewDirection)) := by
  unfold Camera.calcMatrices
  cases hc : c.mModelViewCached
  · simp only [Bool.not_false, if_true]
    split_ifs
    · obtain ⟨h1, h2, h3, h4, h5⟩ := hvirt (Camera.calcViewMatrix sqrt c)
      exact ⟨h1, h2, fun _ => ⟨h3, h4, h5⟩⟩
    · exact ⟨rfl, rfl, fun _ => ⟨rfl, rfl, rfl⟩⟩
  · simp only [Bool.not_true, Bool.false_eq_true, if_false]
    split_ifs
    · obtain ⟨h1, h2, h3, h4, h5⟩ := hvirt c
      exact ⟨h1, h2, fun hv => ⟨h3.trans (hv hc).1, h4.trans (hv hc).2.1,
        h5.trans (hv hc).2.2.1⟩⟩
    · exact ⟨rfl, rfl, fun hv => ⟨(hv hc).1, (hv hc).2.1, (hv hc).2.2.1⟩⟩

/-- A far-plane corner is the similar-triangles image of the near-plane corner. -/
lemma similar_corner (eye vd v u : Vec3 K) (n f a b : K) (hn : n ≠ 0) :
    Vec3.add (Vec3.add (Vec3.add eye (Vec3.smul f vd)) (Vec3.smul (f / n * a) v))
        (Vec3.smul (f / n * b) u) =
      Vec3.add eye (Vec3.smul (f / n)
        (Vec3.sub (Vec3.add (Vec3.add (Vec3.add eye (Vec3.smul n vd)) (Vec3.smul a v))
          (Vec3.smul b u)) eye)) := by
  simp only [Vec3.add, Vec3.smul, Vec3.sub, Vec3.mk.injEq]
  refine ⟨?_, ?_, ?_⟩ <;> field_simp <;> ring

/-- What `CameraStereo::calcMatrices` leaves of the members that
`getEyePointShifted` reads. -/
lemma CameraStereo.calcMatrices_eye (sqrt tan : K → K) (pi : K) (s : CameraStereo K) :
    CameraStereo.getEyePointShifted (CameraStereo.calcMatrices sqrt tan pi s) =
      CameraStereo.getEyePointShifted s := by
  unfold CameraStereo.calcMatrices
  cases hc : s.mModelViewCached <;> cases hp : s.mProjectionCached <;>
    simp [CameraStereo.getEyePointShifted, CameraStereo.calcViewMatrix,
      CameraStereo.calcProjection, Camera.calcViewMatrix, CameraPersp.calcProjection, hc, hp]

/-- C16: for every camera whose near clip (after `calcMatrices`) is non-zero, each
corner returned by `getFarClipCoordinates` is
`eye + (farClip / nearClip) * (near corner - eye)` for the corresponding corner of
`getNearClipCoordinates`; `eye` is `eyePoint` for `Camera` (any class whose
`calcProjection` keeps the pose) and `getEyePointShifted()` for `CameraStereo`. -/
theorem Camera.getFarClipCoordinates_similar (sqrt tan : K → K) (pi : K)
    (calcProjection : Camera K → Camera K) (c : Camera K) (s : CameraStereo K)
    (hvirt : Camera.KeepsPose calcProjection)
    (hn : (Camera.calcMatrices sqrt calcProjection c).mNearClip ≠ 0)
    (hns : (CameraStereo.calcMatrices sqrt tan pi s).mNearClip ≠ 0) :
    ((Camera.getFarClipCoordinates sqrt calcProjection c).1.topLeft =
        Vec3.add c.mEyePoint
          (Vec3.smul ((Camera.calcMatrices sqrt calcProjection c).mFarClip /
              (Camera.calcMatrices sqrt calcProjection c).mNearClip)
            (Vec3.sub (Camera.getNearClipCoordinates sqrt calcProjection c).1.topLeft
              c.mEyePoint)) ∧
      (Camera.getFarClipCoordinates sqrt calcProjection c).1.topRight =
        Vec3.add c.mEyePoint
          (Vec3.smul ((Camera.calcMatrices sqrt calcProjection c).mFarClip /
              (Camera.calcMatrices sqrt calcProjection c).mNearClip)
            (Vec3.sub (Camera.getNearClipCoordinates sqrt calcProjection c).1.topRight
              c.mEyePoint)) ∧
      (Camera.getFarClipCoordinates sqrt calcProjection c).1.bottomLeft =
        Vec3.add c.mEyePoint
          (Vec3.smul ((Camera.calcMatrices sqrt calcProjection c).mFarClip /
              (Camera.calcMatrices sqrt calcProjection c).mNearClip)
            (Vec3.sub (Camera.getNearClipCoordinates sqrt calcProjection c).1.bottomLeft
              c.mEyePoint)) ∧
      (Camera.getFarClipCoordinates sqrt calcProjection c).1.bottomRight =
        Vec3.add c.mEyePoint
          (Vec3.smul ((Camera.calcMatrices sqrt calcProjection c).mFarClip /
              (Camera.calcMatrices sqrt calcProjection c).mNearClip)
            (Vec3.sub (Camera.getNearClipCoordinates sqrt calcProjection c).1.bottomRight
              c.mEyePoint))) ∧
    ((CameraStereo.getFarClipCoordinates sqrt tan pi s).1.topLeft =
        Vec3.add (CameraStereo.getEyePointShifted s)
          (Vec3.smul ((CameraStereo.calcMatrices sqrt tan pi s).mFarClip /
              (CameraStereo.calcMatrices sqrt tan pi s).mNearClip)
            (Vec3.sub (CameraStereo.getNearClipCoordinates sqrt tan pi s).1.topLeft
              (CameraStereo.getEyePointShifted s))) ∧
      (CameraStereo.getFarClipCoordinates sqrt tan pi s).1.topRight =
        Vec3.add (CameraStereo.getEyePointShifted s)
          (Vec3.smul ((CameraStereo.calcMatrices sqrt tan pi s).mFarClip /
              (CameraStereo.calcMatrices sqrt tan pi s).mNearClip)
            (Vec3.sub (CameraStereo.getNearClipCoordinates sqrt tan pi s).1.topRight
              (CameraStereo.getEyePointShifted s))) ∧
      (CameraStereo.getFarClipCoordinates sqrt tan pi s).1.bottomLeft =
        Vec3.add (CameraStereo.getEyePointShifted s)
          (Vec3.smul ((CameraStereo.calcMatrices sqrt tan pi s).mFarClip /
              (CameraStereo.calcMatrices sqrt tan pi s).mNearClip)
            (Vec3.sub (CameraStereo.getNearClipCoordinates sqrt tan pi s).1.bottomLeft
              (CameraStereo.getEyePointShifted s))) ∧
      (CameraStereo.getFarClipCoordinates sqrt tan pi s).1.bottomRight =
        Vec3.add (CameraStereo.getEyePointShifted s)
          (Vec3.smul ((CameraStereo.calcMatrices sqrt tan pi s).mFarClip /
              (CameraStereo.calcMatrices sqrt tan pi s).mNearClip)
            (Vec3.sub (CameraStereo.getNearClipCoordinates sqrt tan pi s).1.bottomRight
              (CameraStereo.getEyePointShifted s)))) := by
  have he := (Camera.calcMatrices_pose sqrt calcProjection c hvirt).1
  have hes := CameraStereo.calcMatrices_eye sqrt tan pi s
  refine ⟨?_, ?_⟩
  · simp only [Camera.getFarClipCoordinates, Camera.getNearClipCoordinates, ← he]
    exact ⟨similar_corner _ _ _ _ _ _ _ _ hn, similar_corner _ _ _ _ _ _ _ _ hn,
      similar_corner _ _ _ _ _ _ _ _ hn, similar_corner _ _ _ _ _ _ _ _ hn⟩
  · simp only [CameraStereo.getFarClipCoordinates, CameraStereo.getNearClipCoordinates, ← hes]
    exact ⟨similar_corner _ _ _ _ _ _ _ _ hns, similar_corner _ _ _ _ _ _ _ _ hns,
      similar_corner _ _ _ _ _ _ _ _ hns, similar_corner _ _ _ _ _ _ _ _ hns⟩

end Frustum

section Rays

variable {K : Type} [LinearOrderedField K]

/-- C17: for every camera with current view data whose `calcProjection` keeps the
pose, with `nearClip > 0` and `frustumRight ≠ frustumLeft` after `calcMatrices`, a unit
view direction and an exact square root, and for every `imagePlaneAspectRatio > 0`:
`generateRay(0.5, 0.5, aspect)` has origin `eyePoint` and direction `viewDirection`;
for all `u`, `v` the origin is `eyePoint` and the direction is
`normalize(U*s + V*t - W*viewDistance)` with `s = (u - 0.5) * aspect`, `t = v - 0.5`,
`viewDistance = aspect / |frustumRight - frustumLeft| * nearClip`, `U`, `V` the
orientation applied to `(1,0,0)`, `(0,1,0)` and `W = -normalize(viewDirection)`. -/
theorem Camera.generateRay_center (sqrt : K → K) (calcProjection : Camera K → Camera K)
    (c : Camera K) (imagePlaneApectRatio : K)
    (hvirt : Camera.KeepsPose calcProjection)
    (hsqrt : ∀ x : K, 0 ≤ x → sqrt (x * x) = x)
    (hview : Camera.ViewCurrent sqrt c)
    (hn : 0 < (Camera.calcMatrices sqrt calcProjection c).mNearClip)
    (hrl : (Camera.calcMatrices sqrt calcProjection c).mFrustumRight ≠
      (Camera.calcMatrices sqrt calcProjection c).mFrustumLeft)
    (hunit : Vec3.dot c.mViewDirection c.mViewDirection = 1)
    (ha : 0 < imagePlaneApectRatio) :
    (Camera.generateRay sqrt calcProjection c (1 / 2) (1 / 2) imagePlaneApectRatio).1.mOrigin =
      c.mEyePoint ∧
    (Camera.generateRay sqrt calcProjection c (1 / 2) (1 / 2) imagePlaneApectRatio).1.mDirection =
      c.mViewDirection ∧
    (∀ uPos vPos : K,
      (Camera.generateRay sqrt calcProjection c uPos vPos imagePlaneApectRatio).1.mOrigin =
        c.mEyePoint ∧
      (Camera.generateRay sqrt calcProjection c uPos vPos imagePlaneApectRatio).1.mDirection =
        Vec3.normalized sqrt
          (Vec3.sub
            (Vec3.add
              (Vec3.smul ((uPos - 1 / 2) * imagePlaneApectRatio)
                (Quat.rotate c.mOrientation ⟨1, 0, 0⟩))
              (Vec3.smul (vPos - 1 / 2) (Quat.rotate c.mOrientation ⟨0, 1, 0⟩)))
            (Vec3.smul
              (imagePlaneApectRatio /
                  |(Camera.calcMatrices sqrt calcProjection c).mFrustumRight -
                    (Camera.calcMatrices sqrt calcProjection c).mFrustumLeft| *
                (Camera.calcMatrices sqrt calcProjection c).mNearClip)
              (Vec3.neg (Vec3.normalized sqrt c.mViewDirection))))) := by
  obtain ⟨he, _, hb⟩ := Camera.calcMatrices_pose sqrt calcProjection c hvirt
  obtain ⟨hU, hV, hW⟩ := hb hview
  have hgen : ∀ uPos vPos : K,
      (Camera.generateRay sqrt calcProjection c uPos vPos imagePlaneApectRatio).1.mOrigin =
        c.mEyePoint ∧
      (Camera.generateRay sqrt calcProjection c uPos vPos imagePlaneApectRatio).1.mDirection =
        Vec3.normalized sqrt
          (Vec3.sub
            (Vec3.add
              (Vec3.smul ((uPos - 1 / 2) * imagePlaneApectRatio)
                (Quat.rotate c.mOrientation ⟨1, 0, 0⟩))
              (Vec3.smul (vPos - 1 / 2) (Quat.rotate c.mOrientation ⟨0, 1, 0⟩)))
            (Vec3.smul
              (imagePlaneApectRatio /
                  |(Camera.calcMatrices sqrt calcProjection c).mFrustumRight -
                    (Camera.calcMatrices sqrt calcProjection c).mFrustumLeft| *
                (Camera.calcMatrices sqrt calcProjection c).mNearClip)
              (Vec3.neg (Vec3.normalized sqrt c.mViewDirection)))) := by
    intro uPos vPos
    refine ⟨he, ?_⟩
    simp only [Camera.generateRay, hU, hV, hW]
  refine ⟨(hgen (1 / 2) (1 / 2)).1, ?_, hgen⟩
  rw [(hgen (1 / 2) (1 / 2)).2]
  have hd : 0 < imagePlaneApectRatio /
      |(Camera.calcMatrices sqrt calcProjection c).mFrustumRight -
        (Camera.calcMatrices sqrt calcProjection c).mFrustumLeft| *
      (Camera.calcMatrices sqrt calcProjection c).mNearClip :=
    mul_pos (div_pos ha (abs_pos.mpr (sub_ne_zero.mpr hrl))) hn
  generalize imagePlaneApectRatio /
      |(Camera.calcMatrices sqrt calcProjection c).mFrustumRight -
        (Camera.calcMatrices sqrt calcProjection c).mFrustumLeft| *
      (Camera.calcMatrices sqrt calcProjection c).mNearClip = d at hd
  revert hunit
  generalize c.mViewDirection = vd
  obtain ⟨x, y, z⟩ := vd
  intro hunit
  simp only [Vec3.dot] at hunit
  have h1 : sqrt (x * x + y * y + z * z) = 1 := by
    rw [hunit]
    simpa using hsqrt 1 zero_le_one
  have h2 : sqrt ((0 + 0 - -(x * (1 / 1)) * d) * (0 + 0 - -(x * (1 / 1)) * d) +
      (0 + 0 - -(y * (1 / 1)) * d) * (0 + 0 - -(y * (1 / 1)) * d) +
      (0 + 0 - -(z * (1 / 1)) * d) * (0 + 0 - -(z * (1 / 1)) * d)) = d := by
    have h3 : (0 + 0 - -(x * (1 / 1)) * d) * (0 + 0 - -(x * (1 / 1)) * d) +
        (0 + 0 - -(y * (1 / 1)) * d) * (0 + 0 - -(y * (1 / 1)) * d) +
        (0 + 0 - -(z * (1 / 1)) * d) * (0 + 0 - -(z * (1 / 1)) * d) = d * d := by
      linear_combination (d * d) * hunit
    rw [h3]
    exact hsqrt d (le_of_lt hd)
  simp only [Vec3.normalized, Vec3.length, Vec3.sub, Vec3.add, Vec3.smul, Vec3.neg, h1,
    sub_self, zero_mul, mul_zero, h2, Vec3.mk.injEq]
  have hd0 : d ≠ 0 := ne_of_gt hd
  refine ⟨?_, ?_, ?_⟩ <;> field_simp
end Rays

section StereoViews

variable {K : Type} [LinearOrderedField K]

/-- With current view matrices, `CameraStereo::getViewMatrix` returns the matrix
that `CameraStereo::calcViewMatrix` computes for the selected eye, and the mono
matrix it leaves cached is the one `Camera::calcViewMatrix` computes. -/
lemma CameraStereo.stereo_getViewMatrix_of_current (sqrt : K → K) (s : CameraStereo K)
    (h : CameraStereo.ViewCurrent sqrt s) :
    (CameraStereo.getViewMatrix sqrt s).1 =
      (if !s.mIsStereo then (CameraStereo.calcViewMatrix sqrt s).mViewMatrix
        else if s.mIsLeft then (CameraStereo.calcViewMatrix sqrt s).mViewMatrixLeft
        else (CameraStereo.calcViewMatrix sqrt s).mViewMatrixRight) ∧
    (CameraStereo.getViewMatrix sqrt s).2.mViewMatrix =
      (Camera.calcViewMatrix sqrt s.toCamera).mViewMatrix := by
  have e1 : (CameraStereo.calcViewMatrix sqrt s).mIsStereo = s.mIsStereo := rfl
  have e2 : (CameraStereo.calcViewMatrix sqrt s).mIsLeft = s.mIsLeft := rfl
  have e3 : (CameraStereo.calcViewMatrix sqrt s).mViewMatrix =
      (Camera.calcViewMatrix sqrt s.toCamera).mViewMatrix := rfl
  unfold CameraStereo.getViewMatrix
  cases hc : s.mModelViewCached
  · simp only [Bool.not_false, if_true, e1, e2]
    refine ⟨?_, ?_⟩
    · cases hs : s.mIsStereo <;> cases hl : s.mIsLeft <;> simp
    · cases hs : s.mIsStereo <;> cases hl : s.mIsLeft <;> simp [e3]
  · obtain ⟨h1, h2, h3⟩ := h hc
    simp only [Bool.not_true, Bool.false_eq_true, if_false]
    refine ⟨?_, ?_⟩
    · cases hs : s.mIsStereo <;> cases hl : s.mIsLeft <;> simp [h1, h2, h3]
    · cases hs : s.mIsStereo <;> cases hl : s.mIsLeft <;> simp [h1, e3]

/-- C18: for every stereo camera with stereo enabled and current view matrices, and
either active eye, the matrix `getViewMatrix()` returns agrees with the mono view
matrix in the first three columns (the rotation part and the bottom row) and in the
bottom-right entry; applied to `(getEyePointShifted(), 1)` it gives `(0,0,0,1)`;
`getEyePointShifted()` is `eyePoint` minus (left eye) or plus (right eye)
`eyeSeparation / 2` times the orientation applied to `(1,0,0)`. -/
theorem CameraStereo.getViewMatrix_rebased (sqrt : K → K) (s : CameraStereo K)
    (hst : s.mIsStereo = true) (hview : CameraStereo.ViewCurrent sqrt s) :
    (∀ i j : Fin 4, (j ≠ 3 ∨ i = 3) →
      (CameraStereo.getViewMatrix sqrt s).1 i j =
        (CameraStereo.getViewMatrix sqrt s).2.mViewMatrix i j) ∧
    (CameraStereo.getViewMatrix sqrt s).2.mViewMatrix =
      (Camera.calcViewMatrix sqrt s.toCamera).mViewMatrix ∧
    Matrix.mulVec (CameraStereo.getViewMatrix sqrt s).1
      (CameraStereo.getEyePointShifted s).toVec4 = ![0, 0, 0, 1] ∧
    (s.mIsLeft = true → CameraStereo.getEyePointShifted s =
      Vec3.sub s.mEyePoint
        (Vec3.smul (1 / 2 * s.mEyeSeparation) (Quat.rotate s.mOrientation ⟨1, 0, 0⟩))) ∧
    (s.mIsLeft = false → CameraStereo.getEyePointShifted s =
      Vec3.add s.mEyePoint
        (Vec3.smul (1 / 2 * s.mEyeSeparation) (Quat.rotate s.mOrientation ⟨1, 0, 0⟩))) := by
  obtain ⟨h1, h2⟩ := CameraStereo.stereo_getViewMatrix_of_current sqrt s hview
  rw [h1, h2]
  refine ⟨?_, rfl, ?_, ?_, ?_⟩
  · intro i j hij
    cases hl : s.mIsLeft <;>
      fin_cases i <;> fin_cases j <;>
      simp [hst, CameraStereo.calcViewMatrix, Mat4.set] at hij ⊢
  · cases hl : s.mIsLeft
    · funext i
      fin_cases i <;>
        simp [hst, hl, CameraStereo.calcViewMatrix, Camera.calcViewMatrix, Mat4.set,
          CameraStereo.getEyePointShifted, Matrix.mulVec, Matrix.dotProduct,
          Fin.sum_univ_four, Vec3.toVec4, Vec3.dot, Vec3.add, Vec3.smul,
          Matrix.vecHead, Matrix.vecTail] <;> ring
    · funext i
      fin_cases i <;>
        simp [hst, hl, CameraStereo.calcViewMatrix, Camera.calcViewMatrix, Mat4.set,
          CameraStereo.getEyePointShifted, Matrix.mulVec, Matrix.dotProduct,
          Fin.sum_univ_four, Vec3.toVec4, Vec3.dot, Vec3.sub, Vec3.smul,
          Matrix.vecHead, Matrix.vecTail] <;> ring
  · intro hl
    simp [CameraStereo.getEyePointShifted, hst, hl]
  · intro hl
    simp [CameraStereo.getEyePointShifted, hst, hl]

end StereoViews

section StereoDisabled

variable {K : Type} [LinearOrderedField K]

/-- The 3x3 `glm::inverse` gives a left inverse of a matrix with non-zero
determinant. -/
lemma inverse3_mul (a : Mat3 K) (hdet : det3 a ≠ 0) : inverse3 a * a = 1 := by
  unfold det3 at hdet
  ext i j
  fin_cases i <;> fin_cases j <;>
    simp [inverse3, Matrix.mul_apply, Fin.sum_univ_three, Matrix.one_apply, Matrix.vecHead,
      Matrix.vecTail] <;>
    field_simp <;> ring

/-- The call `glm::affineInverse` gives a left inverse of a matrix whose bottom row
is `(0,0,0,1)` and whose upper-left 3x3 block has a non-zero determinant. -/
lemma affineInverse_mul (m : Mat4 K) (h0 : m 3 0 = 0) (h1 : m 3 1 = 0) (h2 : m 3 2 = 0)
    (h3 : m 3 3 = 1) (hdet : det3 (upperLeft3 m) ≠ 0) : affineInverse m * m = 1 := by
  have key := inverse3_mul (upperLeft3 m) hdet
  have e : affineInverse m =
      !![inverse3 (upperLeft3 m) 0 0, inverse3 (upperLeft3 m) 0 1, inverse3 (upperLeft3 m) 0 2,
          -(inverse3 (upperLeft3 m) 0 0 * m 0 3 + inverse3 (upperLeft3 m) 0 1 * m 1 3 +
            inverse3 (upperLeft3 m) 0 2 * m 2 3);
         inverse3 (upperLeft3 m) 1 0, inverse3 (upperLeft3 m) 1 1, inverse3 (upperLeft3 m) 1 2,
          -(inverse3 (upperLeft3 m) 1 0 * m 0 3 + inverse3 (upperLeft3 m) 1 1 * m 1 3 +
            inverse3 (upperLeft3 m) 1 2 * m 2 3);
         inverse3 (upperLeft3 m) 2 0, inverse3 (upperLeft3 m) 2 1, inverse3 (upperLeft3 m) 2 2,
          -(inverse3 (upperLeft3 m) 2 0 * m 0 3 + inverse3 (upperLeft3 m) 2 1 * m 1 3 +
            inverse3 (upperLeft3 m) 2 2 * m 2 3);
         0, 0, 0, 1] := rfl
  rw [e]
  have k : ∀ i j : Fin 3, inverse3 (upperLeft3 m) i 0 * upperLeft3 m 0 j +
      inverse3 (upperLeft3 m) i 1 * upperLeft3 m 1 j +
      inverse3 (upperLeft3 m) i 2 * upperLeft3 m 2 j = (1 : Mat3 K) i j := by
    intro i j
    rw [← key, Matrix.mul_apply, Fin.sum_univ_three]
  have u : ∀ i j : Fin 3, upperLeft3 m i j = m i.castSucc j.castSucc := by
    intro i j
    fin_cases i <;> fin_cases j <;> rfl
  generalize inverse3 (upperLeft3 m) = inv at k
  have k00 := k 0 0
  have k01 := k 0 1
  have k02 := k 0 2
  have k10 := k 1 0
  have k11 := k 1 1
  have k12 := k 1 2
  have k20 := k 2 0
  have k21 := k 2 1
  have k22 := k 2 2
  simp only [u, Matrix.one_apply] at k00 k01 k02 k10 k11 k12 k20 k21 k22
  simp at k00 k01 k02 k10 k11 k12 k20 k21 k22
  ext i j
  fin_cases i <;> fin_cases j <;>
    simp [Matrix.mul_apply, Fin.sum_univ_four, Matrix.one_apply, Matrix.vecHead,
      Matrix.vecTail, h0, h1, h2, h3] <;>
    first
    | assumption
    | ring

/-- A left inverse and a right inverse of the same matrix are equal. -/
lemma left_inverse_eq_right_inverse (m a x : Mat4 K) (ha : a * m = 1) (hx : m * x = 1) :
    a = x := by
  calc a = a * (m * x) := by rw [hx, mul_one]
    _ = a * m * x := by rw [mul_assoc]
    _ = x := by rw [ha, one_mul]

/-- The cofactor formula of `glm::inverse` gives a right inverse of a matrix with
non-zero determinant. -/
lemma mul_inverseCofactor (m : Mat4 K) (hdet : m.det ≠ 0) : m * inverseCofactor m = 1 := by
  unfold inverseCofactor
  rw [Matrix.mul_smul, Matrix.mul_adjugate, smul_smul, one_div, inv_mul_cancel₀ hdet, one_smul]

/-- The `Camera` part of a stereo camera after `CameraStereo::calcMatrices` is the
`Camera` part after the base-class `calcMatrices` with `CameraPersp::calcProjection`
as the virtual call, and the stereo switch is unchanged. -/
lemma CameraStereo.calcMatrices_toCamera (sqrt tan : K → K) (pi : K) (s : CameraStereo K) :
    (CameraStereo.calcMatrices sqrt tan pi s).toCamera =
      Camera.calcMatrices sqrt (CameraPersp.calcProjectionOf tan pi s.mLensShift) s.toCamera ∧
    (CameraStereo.calcMatrices sqrt tan pi s).mIsStereo = s.mIsStereo := by
  unfold CameraStereo.calcMatrices Camera.calcMatrices
  cases hc : s.mModelViewCached <;> cases hp : s.mProjectionCached <;>
    simp [CameraStereo.calcViewMatrix, CameraStereo.calcProjection, Camera.calcViewMatrix,
      CameraPersp.calcProjectionOf, CameraPersp.calcProjection, hc, hp]

/-- The determinant of a 4x4 matrix with bottom row `(0,0,0,1)` is the determinant of
its upper-left 3x3 block. -/
lemma det_of_affine (m : Mat4 K) (h0 : m 3 0 = 0) (h1 : m 3 1 = 0) (h2 : m 3 2 = 0)
    (h3 : m 3 3 = 1) : m.det = det3 (upperLeft3 m) := by
  have e0 : (3 : Fin 4).succAbove 0 = 0 := by decide
  have e1 : (3 : Fin 4).succAbove 1 = 1 := by decide
  have e2 : (3 : Fin 4).succAbove 2 = 2 := by decide
  rw [Matrix.det_succ_row m 3]
  simp [Fin.sum_univ_four, h0, h1, h2, h3, Matrix.det_fin_three, det3, upperLeft3, e0, e1, e2]
  ring

/-- On a matrix with bottom row `(0,0,0,1)`, `glm::affineInverse` and `glm::inverse`
are defined together, and where they are defined they give the same matrix. -/
lemma affineInverseChecked_eq_inverseChecked (m : Mat4 K) (h0 : m 3 0 = 0) (h1 : m 3 1 = 0)
    (h2 : m 3 2 = 0) (h3 : m 3 3 = 1) : affineInverseChecked m = inverseChecked m := by
  have hd := det_of_affine m h0 h1 h2 h3
  unfold affineInverseChecked inverseChecked
  by_cases hz : det3 (upperLeft3 m) = 0
  · simp [hz, hd]
  · have hz2 : m.det ≠ 0 := by rw [hd]; exact hz
    rw [if_neg hz, if_neg hz2,
      left_inverse_eq_right_inverse m (affineInverse m) (inverseCofactor m)
        (affineInverse_mul m h0 h1 h2 h3 hz) (mul_inverseCofactor m hz2)]

/-- The method `CameraStereo::calcMatrices` leaves the convergence distance alone. -/
lemma CameraStereo.calcMatrices_convergence (sqrt tan : K → K) (pi : K) (s : CameraStereo K) :
    (CameraStereo.calcMatrices sqrt tan pi s).mConvergence = s.mConvergence := by
  unfold CameraStereo.calcMatrices
  cases hc : s.mModelViewCached <;> cases hp : s.mProjectionCached <;>
    simp [CameraStereo.calcViewMatrix, CameraStereo.calcProjection, Camera.calcViewMatrix, hc, hp]

/-- C19 (amended): for every stereo camera with stereo disabled, whatever the active
eye, the eye separation and the convergence: `getProjectionMatrix()` and
`getViewMatrix()` return what the base-class accessors return (the mono matrices of
the perspective base); `getInverseViewMatrix()` returns the mono inverse view matrix
member, and on a camera with current view data that result is the base-class result
(`glm::affineInverse` and `glm::inverse` of the view matrix are defined together and
agree); `getEyePointShifted()` is `eyePoint`.  If moreover the convergence is not `0`,
`CameraStereo::getNearClipCoordinates` / `getFarClipCoordinates` return the corners of
the base `Camera` versions, and are defined exactly when those are. -/
theorem CameraStereo.disabled_is_mono (sqrt tan : K → K) (pi : K)
    (s : CameraStereo K) (hoff : s.mIsStereo = false) :
    (CameraStereo.getProjectionMatrix tan pi s).1 =
      (Camera.getProjectionMatrix (CameraPersp.calcProjectionOf tan pi s.mLensShift)
        s.toCamera).1 ∧
    (CameraStereo.getViewMatrix sqrt s).1 = (Camera.getViewMatrix sqrt s.toCamera).1 ∧
    (CameraStereo.getInverseViewMatrix sqrt s).1 =
      (CameraStereo.getInverseViewMatrix sqrt s).2.mInverseModelViewMatrix ∧
    (Camera.ViewCurrent sqrt s.toCamera →
      CameraStereo.getInverseViewMatrixChecked sqrt s =
        Camera.getInverseViewMatrixChecked sqrt s.toCamera) ∧
    CameraStereo.getEyePointShifted s = s.mEyePoint ∧
    (s.mConvergence ≠ 0 →
      CameraStereo.getNearClipCoordinatesChecked sqrt tan pi s =
        Camera.getNearClipCoordinatesChecked sqrt
          (CameraPersp.calcProjectionOf tan pi s.mLensShift) s.toCamera ∧
      CameraStereo.getFarClipCoordinatesChecked sqrt tan pi s =
        Camera.getFarClipCoordinatesChecked sqrt
          (CameraPersp.calcProjectionOf tan pi s.mLensShift) s.toCamera) := by
  refine ⟨?_, ?_, ?_, ?_, ?_, ?_⟩
  · unfold CameraStereo.getProjectionMatrix Camera.getProjectionMatrix
    cases hp : s.mProjectionCached <;>
      simp [hoff, CameraStereo.calcProjection, CameraPersp.calcProjectionOf,
        CameraPersp.calcProjection]
  · unfold CameraStereo.getViewMatrix Camera.getViewMatrix
    cases hc : s.mModelViewCached <;> simp [hoff, CameraStereo.calcViewMatrix]
  · unfold CameraStereo.getInverseViewMatrix
    cases hi : s.mInverseModelViewCached <;> cases hc : s.mModelViewCached <;>
      simp [hoff, CameraStereo.calcInverseView, CameraStereo.calcViewMatrix, hc]
  · intro hview
    have haff : affineInverseChecked (Camera.calcViewMatrix sqrt s.toCamera).mViewMatrix =
        inverseChecked (Camera.calcViewMatrix sqrt s.toCamera).mViewMatrix :=
      affineInverseChecked_eq_inverseChecked _ (by simp [Camera.calcViewMatrix])
        (by simp [Camera.calcViewMatrix]) (by simp [Camera.calcViewMatrix])
        (by simp [Camera.calcViewMatrix])
    unfold CameraStereo.getInverseViewMatrixChecked Camera.getInverseViewMatrixChecked
    cases hi : s.mInverseModelViewCached
    · cases hc : s.mModelViewCached
      · simp [hoff, CameraStereo.calcViewMatrix, hc]
        exact haff
      · have hm := (hview hc).2.2.2
        simp [hoff, hc]
        rw [hm]
        exact haff
    · simp [hoff]
  · simp [CameraStereo.getEyePointShifted, hoff]
  · intro hconv
    obtain ⟨h1, h2⟩ := CameraStereo.calcMatrices_toCamera sqrt tan pi s
    have h3 := CameraStereo.calcMatrices_convergence sqrt tan pi s
    constructor
    · simp only [CameraStereo.getNearClipCoordinatesChecked,
        Camera.getNearClipCoordinatesChecked, CameraStereo.clipShiftChecked,
        CameraStereo.getNearClipCoordinates, Camera.getNearClipCoordinates, ← h1,
        CameraStereo.getEyePointShifted, CameraStereo.clipShift, h2, h3, hoff]
      simp [hconv]
    · simp only [CameraStereo.getFarClipCoordinatesChecked,
        Camera.getFarClipCoordinatesChecked, CameraStereo.clipShiftChecked,
        CameraStereo.getFarClipCoordinates, Camera.getFarClipCoordinates, ← h1,
        CameraStereo.getEyePointShifted, CameraStereo.clipShift, h2, h3, hoff]
      simp [hconv]

end StereoDisabled

section Bisection

variable {K : Type} [LinearOrderedField K]

/-- The query `getScreenRadius` leaves the view direction of a perspective camera
unchanged. -/
lemma CameraPersp.getScreenRadius_mViewDirection (sqrt : K → K)
    (getOrthogonal : Vec3 K → Vec3 K) (tan : K → K) (pi : K) (c : CameraPersp K)
    (sphere : Sphere K) (screenWidth screenHeight : K) :
    (CameraPersp.getScreenRadius sqrt getOrthogonal tan pi c sphere screenWidth
      screenHeight).2.mViewDirection = c.mViewDirection := by
  have hv : ∀ x : Camera K, (Camera.getViewMatrix sqrt x).2.mViewDirection =
      x.mViewDirection := by
    intro x
    unfold Camera.getViewMatrix
    split_ifs <;> rfl
  have hp : ∀ x : Camera K,
      (Camera.getProjectionMatrix (CameraPersp.calcProjectionOf tan pi c.mLensShift)
        x).2.mViewDirection = x.mViewDirection := by
    intro x
    unfold Camera.getProjectionMatrix
    split_ifs <;> rfl
  have hw : ∀ (x : Camera K) (p : Vec3 K) (w h : K),
      (Camera.worldToScreen sqrt (CameraPersp.calcProjectionOf tan pi c.mLensShift) x p w
        h).2.mViewDirection = x.mViewDirection := by
    intro x p w h
    simp only [Camera.worldToScreen, hp, hv]
  simp only [CameraPersp.getScreenRadius, Camera.getScreenRadius, hw]

/-- One pass through the loop body of `getFrameSphere`: the view direction of the
result camera is unchanged, its eye point is the sphere centre minus the new current
distance times the view direction, and the new current distance is the midpoint of
the new bounds. -/
lemma CameraPersp.frameSphereBody_spec (sqrt : K → K) (getOrthogonal : Vec3 K → Vec3 K)
    (tan : K → K) (pi : K) (sphere : Sphere K) (st : CameraPersp.FrameSphereState K) :
    (CameraPersp.frameSphereBody sqrt getOrthogonal tan pi sphere st).result.mViewDirection =
      st.result.mViewDirection ∧
    (CameraPersp.frameSphereBody sqrt getOrthogonal tan pi sphere st).result.mEyePoint =
      Vec3.sub sphere.mCenter
        (Vec3.smul (CameraPersp.frameSphereBody sqrt getOrthogonal tan pi sphere st).curDistance
          st.result.mViewDirection) ∧
    (CameraPersp.frameSphereBody sqrt getOrthogonal tan pi sphere st).curDistance =
      ((CameraPersp.frameSphereBody sqrt getOrthogonal tan pi sphere st).minDistance +
        (CameraPersp.frameSphereBody sqrt getOrthogonal tan pi sphere st).maxDistance) / 2 := by
  have hvd := CameraPersp.getScreenRadius_mViewDirection sqrt getOrthogonal tan pi st.result
    sphere 2 2
  refine ⟨hvd, ?_, ?_⟩
  · simp only [CameraPersp.frameSphereBody, CameraPersp.onCamera, Camera.setEyePoint]
    rw [← hvd]
  · simp only [CameraPersp.frameSphereBody]
    split_ifs <;> ring

/-- One pass through the loop body keeps the current distance between the bounds,
and from a state whose current distance is the midpoint of the bounds it halves the
bracket width. -/
lemma CameraPersp.frameSphereBody_bracket (sqrt : K → K) (getOrthogonal : Vec3 K → Vec3 K)
    (tan : K → K) (pi : K) (sphere : Sphere K) (st : CameraPersp.FrameSphereState K) :
    (st.minDistance ≤ st.curDistance → st.curDistance ≤ st.maxDistance →
      (CameraPersp.frameSphereBody sqrt getOrthogonal tan pi sphere st).minDistance ≤
        (CameraPersp.frameSphereBody sqrt getOrthogonal tan pi sphere st).curDistance ∧
      (CameraPersp.frameSphereBody sqrt getOrthogonal tan pi sphere st).curDistance ≤
        (CameraPersp.frameSphereBody sqrt getOrthogonal tan pi sphere st).maxDistance) ∧
    (st.curDistance = (st.minDistance + st.maxDistance) / 2 →
      (CameraPersp.frameSphereBody sqrt getOrthogonal tan pi sphere st).maxDistance -
          (CameraPersp.frameSphereBody sqrt getOrthogonal tan pi sphere st).minDistance =
        (st.maxDistance - st.minDistance) / 2) := by
  refine ⟨fun h1 h2 => ?_, fun h => ?_⟩
  · simp only [CameraPersp.frameSphereBody]
    split_ifs <;> constructor <;> linarith
  · simp only [CameraPersp.frameSphereBody]
    split_ifs <;> rw [h] <;> ring

/-- After at least one pass of the loop body from the initial state of
`getFrameSphere`, with `0.01 ≤ centerOfInterest ≤ 100000`: the bounds bracket the
current distance, the current distance is their midpoint, the view direction of the
result is that of the camera, and the eye point of the result is the sphere centre
minus the current distance times the view direction. -/
lemma CameraPersp.frameSphere_invariant (sqrt : K → K) (getOrthogonal : Vec3 K → Vec3 K)
    (tan : K → K) (pi : K) (c : CameraPersp K) (sphere : Sphere K)
    (hlo : 1 / 100 ≤ c.mCenterOfInterest) (hhi : c.mCenterOfInterest ≤ 100000) (j : Nat) :
    ((CameraPersp.frameSphereBody sqrt getOrthogonal tan pi sphere)^[j]
        (CameraPersp.frameSphereInit c sphere)).minDistance ≤
      ((CameraPersp.frameSphereBody sqrt getOrthogonal tan pi sphere)^[j]
        (CameraPersp.frameSphereInit c sphere)).curDistance ∧
    ((CameraPersp.frameSphereBody sqrt getOrthogonal tan pi sphere)^[j]
        (CameraPersp.frameSphereInit c sphere)).curDistance ≤
      ((CameraPersp.frameSphereBody sqrt getOrthogonal tan pi sphere)^[j]
        (CameraPersp.frameSphereInit c sphere)).maxDistance ∧
    ((CameraPersp.frameSphereBody sqrt getOrthogonal tan pi sphere)^[j]
        (CameraPersp.frameSphereInit c sphere)).result.mViewDirection = c.mViewDirection ∧
    (1 ≤ j →
      ((CameraPersp.frameSphereBody sqrt getOrthogonal tan pi sphere)^[j]
          (CameraPersp.frameSphereInit c sphere)).curDistance =
        (((CameraPersp.frameSphereBody sqrt getOrthogonal tan pi sphere)^[j]
            (CameraPersp.frameSphereInit c sphere)).minDistance +
          ((CameraPersp.frameSphereBody sqrt getOrthogonal tan pi sphere)^[j]
            (CameraPersp.frameSphereInit c sphere)).maxDistance) / 2 ∧
      ((CameraPersp.frameSphereBody sqrt getOrthogonal tan pi sphere)^[j]
          (CameraPersp.frameSphereInit c sphere)).result.mEyePoint =
        Vec3.sub sphere.mCenter
          (Vec3.smul ((CameraPersp.frameSphereBody sqrt getOrthogonal tan pi sphere)^[j]
            (CameraPersp.frameSphereInit c sphere)).curDistance c.mViewDirection)) := by
  induction j with
  | zero =>
    refine ⟨hlo, hhi, rfl, fun h => absurd h (by decide)⟩
  | succ n ih =>
    obtain ⟨h1, h2, h3, _⟩ := ih
    rw [Function.iterate_succ_apply']
    obtain ⟨b1, b2, b3⟩ := CameraPersp.frameSphereBody_spec sqrt getOrthogonal tan pi sphere
      ((CameraPersp.frameSphereBody sqrt getOrthogonal tan pi sphere)^[n]
        (CameraPersp.frameSphereInit c sphere))
    obtain ⟨k1, k2⟩ := (CameraPersp.frameSphereBody_bracket sqrt getOrthogonal tan pi sphere
      ((CameraPersp.frameSphereBody sqrt getOrthogonal tan pi sphere)^[n]
        (CameraPersp.frameSphereInit c sphere))).1 h1 h2
    refine ⟨k1, k2, b1.trans h3, fun _ => ⟨b3, ?_⟩⟩
    rw [b2, h3]

/-- C20: in `CameraPersp::getFrameSphere`, whatever `getScreenRadius` returns, for
every starting `centerOfInterest` in `[0.01, 100000]` and every `maxIterations = k ≥ 1`:
the loop exits with its counter at `k` after exactly `k` passes of the body; after
every pass `minDistance ≤ curDistance ≤ maxDistance` and `curDistance` is the midpoint
of the bounds; the width `maxDistance - minDistance` after pass `j + 1` is half the
width after pass `j`; and the returned camera's eye point is the sphere centre minus
the view direction times the final `curDistance`. -/
theorem CameraPersp.getFrameSphere_bisection (sqrt : K → K) (getOrthogonal : Vec3 K → Vec3 K)
    (tan : K → K) (pi : K) (c : CameraPersp K) (sphere : Sphere K) (k : Nat)
    (hlo : 1 / 100 ≤ c.mCenterOfInterest) (hhi : c.mCenterOfInterest ≤ 100000)
    (hk : 1 ≤ k) :
    CameraPersp.frameSphereLoop (CameraPersp.frameSphereBody sqrt getOrthogonal tan pi sphere)
        (k : Int) 0 (CameraPersp.frameSphereInit c sphere) =
      ((k : Int), (CameraPersp.frameSphereBody sqrt getOrthogonal tan pi sphere)^[k]
        (CameraPersp.frameSphereInit c sphere)) ∧
    (∀ j : Nat, 1 ≤ j → j ≤ k →
      ((CameraPersp.frameSphereBody sqrt getOrthogonal tan pi sphere)^[j]
          (CameraPersp.frameSphereInit c sphere)).minDistance ≤
        ((CameraPersp.frameSphereBody sqrt getOrthogonal tan pi sphere)^[j]
          (CameraPersp.frameSphereInit c sphere)).curDistance ∧
      ((CameraPersp.frameSphereBody sqrt getOrthogonal tan pi sphere)^[j]
          (CameraPersp.frameSphereInit c sphere)).curDistance ≤
        ((CameraPersp.frameSphereBody sqrt getOrthogonal tan pi sphere)^[j]
          (CameraPersp.frameSphereInit c sphere)).maxDistance ∧
      ((CameraPersp.frameSphereBody sqrt getOrthogonal tan pi sphere)^[j]
          (CameraPersp.frameSphereInit c sphere)).curDistance =
        (((CameraPersp.frameSphereBody sqrt getOrthogonal tan pi sphere)^[j]
            (CameraPersp.frameSphereInit c sphere)).minDistance +
          ((CameraPersp.frameSphereBody sqrt getOrthogonal tan pi sphere)^[j]
            (CameraPersp.frameSphereInit c sphere)).maxDistance) / 2) ∧
    (∀ j : Nat, 1 ≤ j → j + 1 ≤ k →
      ((CameraPersp.frameSphereBody sqrt getOrthogonal tan pi sphere)^[j + 1]
          (CameraPersp.frameSphereInit c sphere)).maxDistance -
        ((CameraPersp.frameSphereBody sqrt getOrthogonal tan pi sphere)^[j + 1]
          (CameraPersp.frameSphereInit c sphere)).minDistance =
        (((CameraPersp.frameSphereBody sqrt getOrthogonal tan pi sphere)^[j]
            (CameraPersp.frameSphereInit c sphere)).maxDistance -
          ((CameraPersp.frameSphereBody sqrt getOrthogonal tan pi sphere)^[j]
            (CameraPersp.frameSphereInit c sphere)).minDistance) / 2) ∧
    (CameraPersp.getFrameSphere sqrt getOrthogonal tan pi c sphere (k : Int)).mEyePoint =
      Vec3.sub sphere.mCenter
        (Vec3.smul ((CameraPersp.frameSphereBody sqrt getOrthogonal tan pi sphere)^[k]
          (CameraPersp.frameSphereInit c sphere)).curDistance c.mViewDirection) := by
  have hloop := CameraPersp.frameSphereLoop_eq_iterate
    (CameraPersp.frameSphereBody sqrt getOrthogonal tan pi sphere) (k : Int) k 0
    (CameraPersp.frameSphereInit c sphere) (by omega)
  refine ⟨hloop, fun j hj _ => ?_, fun j hj _ => ?_, ?_⟩
  · obtain ⟨h1, h2, _, h4⟩ :=
      CameraPersp.frameSphere_invariant sqrt getOrthogonal tan pi c sphere hlo hhi j
    exact ⟨h1, h2, (h4 hj).1⟩
  · obtain ⟨_, _, _, h4⟩ :=
      CameraPersp.frameSphere_invariant sqrt getOrthogonal tan pi c sphere hlo hhi j
    rw [Function.iterate_succ_apply']
    exact (CameraPersp.frameSphereBody_bracket sqrt getOrthogonal tan pi sphere _).2 (h4 hj).1
  · obtain ⟨_, _, _, h4⟩ :=
      CameraPersp.frameSphere_invariant sqrt getOrthogonal tan pi c sphere hlo hhi k
    simp only [CameraPersp.getFrameSphere, hloop]
    exact (h4 hk).2

end Bisection

section Witnesses

/-- The rational square root is exact on squares of non-negative rationals. -/
lemma ratSqrt_mul_self (x : ℚ) (hx : 0 ≤ x) : Rat.sqrt (x * x) = x := by
  rw [Rat.sqrt_eq, abs_of_nonneg hx]

/-- A stereo camera whose view flag is clear has current view matrices. -/
lemma CameraStereo.stereo_viewCurrent_of_not_cached {K : Type} [LinearOrderedField K]
    (sqrt : K → K) (s : CameraStereo K) (h : s.mModelViewCached = false) :
    CameraStereo.ViewCurrent sqrt s := by
  intro h1
  rw [h] at h1
  exact absurd h1 (by decide)

/-- A perspective camera whose projection flag is clear has a current projection
cache. -/
lemma CameraPersp.projectionCurrent_of_not_cached {K : Type} [LinearOrderedField K]
    (tan : K → K) (pi : K) (c : CameraPersp K) (h : c.mProjectionCached = false) :
    CameraPersp.ProjectionCurrent tan pi c := by
  intro h1
  rw [h] at h1
  exact absurd h1 (by decide)

/-- C13 witness: the example camera (eye at the origin, looking down `-z`) and the
point two units along the view direction, on an 800 x 600 screen. -/
theorem CameraPersp.worldToNdc_on_view_axis_witness :
    (CameraPersp.worldToNdc Rat.sqrt tanQ piQ perspQ
      (Vec3.add perspQ.mEyePoint (Vec3.smul 2 perspQ.mViewDirection))).1.x = 0 ∧
    (CameraPersp.worldToNdc Rat.sqrt tanQ piQ perspQ
      (Vec3.add perspQ.mEyePoint (Vec3.smul 2 perspQ.mViewDirection))).1.y = 0 ∧
    (CameraPersp.worldToScreen Rat.sqrt tanQ piQ perspQ
      (Vec3.add perspQ.mEyePoint (Vec3.smul 2 perspQ.mViewDirection)) 800 600).1 =
      ⟨800 / 2, 600 / 2⟩ :=
  have h := CameraPersp.worldToNdc_on_view_axis Rat.sqrt tanQ piQ perspQ 2 800 600 rfl
    (by norm_num [perspQ, cameraQ]) (by norm_num [perspQ, cameraQ])
    (by norm_num [perspQ, cameraQ]) (by norm_num [perspQ, cameraQ, tanQ, piQ])
    (by norm_num [perspQ, cameraQ, Quat.rotate, Vec3.cross, Vec3.add, Vec3.smul, Vec3.dot])
    (by norm_num [perspQ, cameraQ, Quat.rotate, Vec3.cross, Vec3.add, Vec3.smul, Vec3.dot])
    (by norm_num [perspQ, cameraQ, Vec3.dot])
    (by norm_num [perspQ, cameraQ, Vec3.length])
    (Camera.viewCurrent_of_not_cached Rat.sqrt perspQ.toCamera rfl)
    (CameraPersp.projectionCurrent_of_not_cached tanQ piQ perspQ rfl) (by norm_num)
  ⟨h.1, h.2.1, h.2.2.1⟩

/-- C14 witness: the camera at `(0,0,10)` with cached view data, as a perspective
camera without lens shift, and the world point `(1,2,0)` on an 800 x 600 screen. -/
theorem Camera.worldToScreen_eq_worldToNdc_witness :
    (Camera.worldToScreen Rat.sqrt (CameraPersp.calcProjectionOf tanQ piQ ⟨0, 0⟩) cameraQ10v
      ⟨1, 2, 0⟩ 800 600).1 =
      ⟨((Camera.worldToNdc Rat.sqrt (CameraPersp.calcProjectionOf tanQ piQ ⟨0, 0⟩) cameraQ10v
          ⟨1, 2, 0⟩).1.x + 1) / 2 * 800,
        (1 - ((Camera.worldToNdc Rat.sqrt (CameraPersp.calcProjectionOf tanQ piQ ⟨0, 0⟩)
          cameraQ10v ⟨1, 2, 0⟩).1.y + 1) / 2) * 600⟩ :=
  Camera.worldToScreen_eq_worldToNdc Rat.sqrt (CameraPersp.calcProjectionOf tanQ piQ ⟨0, 0⟩)
    cameraQ10v ⟨1, 2, 0⟩ 800 600 (Camera.viewCurrent_calcViewMatrix Rat.sqrt cameraQ10)
    (by
      simp [Camera.getProjectionMatrix, Camera.getViewMatrix, cameraQ10v, Camera.calcViewMatrix,
        cameraQ10, Camera.setEyePoint, cameraQ, CameraPersp.calcProjectionOf,
        CameraPersp.calcProjection, Matrix.mulVec, Matrix.dotProduct, Fin.sum_univ_four,
        Vec3.toVec4, Vec3.dot, Vec3.neg, Vec3.normalized, Vec3.length, Matrix.vecHead,
        Matrix.vecTail])

/-- C15 witness: the camera at `(0,0,10)` with cached view data and the world point
`(1,2,0)`. -/
theorem Camera.worldToEyeDepth_eq_witness :
    (Camera.worldToEyeDepth Rat.sqrt cameraQ10v ⟨1, 2, 0⟩).1 =
      Matrix.mulVec (Camera.getViewMatrix Rat.sqrt cameraQ10v).1 (Vec3.toVec4 ⟨1, 2, 0⟩) 2 ∧
    (Camera.worldToEyeDepth Rat.sqrt cameraQ10v ⟨1, 2, 0⟩).1 =
      Vec3.dot (Vec3.neg (Vec3.normalized Rat.sqrt cameraQ10v.mViewDirection))
        (Vec3.sub ⟨1, 2, 0⟩ cameraQ10v.mEyePoint) :=
  ⟨(Camera.worldToEyeDepth_eq Rat.sqrt cameraQ10v ⟨1, 2, 0⟩).1,
    (Camera.worldToEyeDepth_eq Rat.sqrt cameraQ10v ⟨1, 2, 0⟩).2
      (Camera.viewCurrent_calcViewMatrix Rat.sqrt cameraQ10)⟩

/-- C17 witness: the eye `(0,0,10)` looking at the origin, image aspect ratio `4/3`:
the centre ray starts at the eye and has direction `(0,0,-1)`. -/
theorem Camera.generateRay_center_witness :
    (Camera.generateRay Rat.sqrt (CameraPersp.calcProjectionOf tanQ piQ ⟨0, 0⟩) cameraQ10
      (1 / 2) (1 / 2) (4 / 3)).1.mOrigin = ⟨0, 0, 10⟩ ∧
    (Camera.generateRay Rat.sqrt (CameraPersp.calcProjectionOf tanQ piQ ⟨0, 0⟩) cameraQ10
      (1 / 2) (1 / 2) (4 / 3)).1.mDirection = ⟨0, 0, -1⟩ :=
  have h := Camera.generateRay_center Rat.sqrt (CameraPersp.calcProjectionOf tanQ piQ ⟨0, 0⟩)
    cameraQ10 (4 / 3) (CameraPersp.keepsPose_calcProjectionOf tanQ piQ ⟨0, 0⟩) ratSqrt_mul_self
    (Camera.viewCurrent_of_not_cached Rat.sqrt cameraQ10 rfl)
    (by norm_num [Camera.calcMatrices, cameraQ10, Camera.setEyePoint, cameraQ,
      Camera.calcViewMatrix, CameraPersp.calcProjectionOf, CameraPersp.calcProjection])
    (by norm_num [Camera.calcMatrices, cameraQ10, Camera.setEyePoint, cameraQ,
      Camera.calcViewMatrix, CameraPersp.calcProjectionOf, CameraPersp.calcProjection, tanQ, piQ])
    (by norm_num [cameraQ10, Camera.setEyePoint, cameraQ, Vec3.dot]) (by norm_num)
  ⟨h.1, h.2.1⟩

/-- C18 witness: the stereo example camera, left eye active, eye separation 1. -/
theorem CameraStereo.getViewMatrix_rebased_witness :
    (∀ i j : Fin 4, (j ≠ 3 ∨ i = 3) →
      (CameraStereo.getViewMatrix Rat.sqrt stereoQ).1 i j =
        (CameraStereo.getViewMatrix Rat.sqrt stereoQ).2.mViewMatrix i j) ∧
    Matrix.mulVec (CameraStereo.getViewMatrix Rat.sqrt stereoQ).1
      (CameraStereo.getEyePointShifted stereoQ).toVec4 = ![0, 0, 0, 1] :=
  have h := CameraStereo.getViewMatrix_rebased Rat.sqrt stereoQ rfl
    (CameraStereo.stereo_viewCurrent_of_not_cached Rat.sqrt stereoQ rfl)
  ⟨h.1, h.2.2.1⟩

/-- C20 witness: the example camera (centre of interest 1), the unit sphere at
`(0,0,-5)` and three iterations. -/
theorem CameraPersp.getFrameSphere_bisection_witness :
    CameraPersp.frameSphereLoop
        (CameraPersp.frameSphereBody Rat.sqrt getOrthogonalQ tanQ piQ sphereQ) (3 : Nat) 0
        (CameraPersp.frameSphereInit perspQ sphereQ) =
      (((3 : Nat) : Int), (CameraPersp.frameSphereBody Rat.sqrt getOrthogonalQ tanQ piQ sphereQ)^[3]
        (CameraPersp.frameSphereInit perspQ sphereQ)) ∧
    (CameraPersp.getFrameSphere Rat.sqrt getOrthogonalQ tanQ piQ perspQ sphereQ
        ((3 : Nat) : Int)).mEyePoint =
      Vec3.sub sphereQ.mCenter
        (Vec3.smul ((CameraPersp.frameSphereBody Rat.sqrt getOrthogonalQ tanQ piQ sphereQ)^[3]
          (CameraPersp.frameSphereInit perspQ sphereQ)).curDistance perspQ.mViewDirection) :=
  have h := CameraPersp.getFrameSphere_bisection Rat.sqrt getOrthogonalQ tanQ piQ perspQ sphereQ
    3 (by norm_num [perspQ, cameraQ]) (by norm_num [perspQ, cameraQ]) (by norm_num)
  ⟨h.1, h.2.2.2⟩

end Witnesses

section MoreWitnesses

/-- C16 witness: the example camera as a perspective camera and the stereo example
camera (left eye), both with near clip 1 and far clip 3 (top-left corners shown). -/
theorem Camera.getFarClipCoordinates_similar_witness :
    (Camera.getFarClipCoordinates Rat.sqrt (CameraPersp.calcProjectionOf tanQ piQ ⟨0, 0⟩)
        cameraQ).1.topLeft =
      Vec3.add cameraQ.mEyePoint
        (Vec3.smul
          ((Camera.calcMatrices Rat.sqrt (CameraPersp.calcProjectionOf tanQ piQ ⟨0, 0⟩)
              cameraQ).mFarClip /
            (Camera.calcMatrices Rat.sqrt (CameraPersp.calcProjectionOf tanQ piQ ⟨0, 0⟩)
              cameraQ).mNearClip)
          (Vec3.sub
            (Camera.getNearClipCoordinates Rat.sqrt
              (CameraPersp.calcProjectionOf tanQ piQ ⟨0, 0⟩) cameraQ).1.topLeft
            cameraQ.mEyePoint)) ∧
    (CameraStereo.getFarClipCoordinates Rat.sqrt tanQ piQ stereoQ).1.topLeft =
      Vec3.add (CameraStereo.getEyePointShifted stereoQ)
        (Vec3.smul
          ((CameraStereo.calcMatrices Rat.sqrt tanQ piQ stereoQ).mFarClip /
            (CameraStereo.calcMatrices Rat.sqrt tanQ piQ stereoQ).mNearClip)
          (Vec3.sub (CameraStereo.getNearClipCoordinates Rat.sqrt tanQ piQ stereoQ).1.topLeft
            (CameraStereo.getEyePointShifted stereoQ))) :=
  have h := Camera.getFarClipCoordinates_similar Rat.sqrt tanQ piQ
    (CameraPersp.calcProjectionOf tanQ piQ ⟨0, 0⟩) cameraQ stereoQ
    (CameraPersp.keepsPose_calcProjectionOf tanQ piQ ⟨0, 0⟩)
    (by norm_num [Camera.calcMatrices, cameraQ, Camera.calcViewMatrix,
      CameraPersp.calcProjectionOf, CameraPersp.calcProjection])
    (by norm_num [CameraStereo.calcMatrices, stereoQ, perspQ, cameraQ,
      CameraStereo.calcViewMatrix, Camera.calcViewMatrix, CameraStereo.calcProjection,
      CameraPersp.calcProjection])
  ⟨h.1.1, h.2.1⟩

/-- The view matrix of the example camera (eye at the origin, identity orientation)
is the identity matrix. -/
lemma stereoOffQ_viewMatrix :
    (Camera.calcViewMatrix Rat.sqrt stereoOffQ.toCamera).mViewMatrix = 1 := by
  ext i j
  fin_cases i <;> fin_cases j <;>
    simp [Camera.calcViewMatrix, stereoOffQ, stereoQ, perspQ, cameraQ, Quat.rotate, Vec3.cross,
      Vec3.add, Vec3.smul, Vec3.dot, Vec3.neg, Vec3.normalized, Vec3.length, Matrix.one_apply,
      Matrix.vecHead, Matrix.vecTail]

/-- C19 witness: the stereo example camera with stereo disabled (left eye selected,
eye separation 1, convergence 1); its inverse view matrix and its corners are defined. -/
theorem CameraStereo.disabled_is_mono_witness :
    (CameraStereo.getProjectionMatrix tanQ piQ stereoOffQ).1 =
      (Camera.getProjectionMatrix (CameraPersp.calcProjectionOf tanQ piQ stereoOffQ.mLensShift)
        stereoOffQ.toCamera).1 ∧
    (CameraStereo.getViewMatrix Rat.sqrt stereoOffQ).1 =
      (Camera.getViewMatrix Rat.sqrt stereoOffQ.toCamera).1 ∧
    CameraStereo.getInverseViewMatrixChecked Rat.sqrt stereoOffQ =
      Camera.getInverseViewMatrixChecked Rat.sqrt stereoOffQ.toCamera ∧
    Camera.getInverseViewMatrixChecked Rat.sqrt stereoOffQ.toCamera = some 1 ∧
    CameraStereo.getEyePointShifted stereoOffQ = stereoOffQ.mEyePoint ∧
    CameraStereo.getNearClipCoordinatesChecked Rat.sqrt tanQ piQ stereoOffQ =
      Camera.getNearClipCoordinatesChecked Rat.sqrt
        (CameraPersp.calcProjectionOf tanQ piQ stereoOffQ.mLensShift) stereoOffQ.toCamera ∧
    Camera.getNearClipCoordinatesChecked Rat.sqrt
        (CameraPersp.calcProjectionOf tanQ piQ stereoOffQ.mLensShift) stereoOffQ.toCamera =
      some { topLeft := ⟨-1, 1, -1⟩, topRight := ⟨1, 1, -1⟩,
             bottomLeft := ⟨-1, -1, -1⟩, bottomRight := ⟨1, -1, -1⟩ } ∧
    CameraStereo.getFarClipCoordinatesChecked Rat.sqrt tanQ piQ stereoOffQ =
      Camera.getFarClipCoordinatesChecked Rat.sqrt
        (CameraPersp.calcProjectionOf tanQ piQ stereoOffQ.mLensShift) stereoOffQ.toCamera ∧
    Camera.getFarClipCoordinatesChecked Rat.sqrt
        (CameraPersp.calcProjectionOf tanQ piQ stereoOffQ.mLensShift) stereoOffQ.toCamera =
      some { topLeft := ⟨-3, 3, -3⟩, topRight := ⟨3, 3, -3⟩,
             bottomLeft := ⟨-3, -3, -3⟩, bottomRight := ⟨3, -3, -3⟩ } :=
  have h := CameraStereo.disabled_is_mono Rat.sqrt tanQ piQ stereoOffQ rfl
  have hc : stereoOffQ.mConvergence ≠ 0 := by norm_num [stereoOffQ, stereoQ]
  ⟨h.1, h.2.1,
    h.2.2.2.1 (Camera.viewCurrent_of_not_cached Rat.sqrt stereoOffQ.toCamera rfl),
    (by
      have e : Camera.getInverseViewMatrixChecked Rat.sqrt stereoOffQ.toCamera =
          inverseChecked (Camera.calcViewMatrix Rat.sqrt stereoOffQ.toCamera).mViewMatrix := rfl
      rw [e, stereoOffQ_viewMatrix]
      simp [inverseChecked, inverseCofactor]),
    h.2.2.2.2.1, (h.2.2.2.2.2 hc).1,
    (by norm_num [Camera.getNearClipCoordinatesChecked, Camera.getNearClipCoordinates,
      Camera.calcMatrices, stereoOffQ, stereoQ, perspQ, cameraQ,
      Camera.calcViewMatrix, CameraPersp.calcProjectionOf, CameraPersp.calcProjection,
      Vec3.length, Vec3.normalized, Vec3.add, Vec3.smul, Vec3.neg, Quat.rotate, Vec3.cross,
      tanQ, lerp]),
    (h.2.2.2.2.2 hc).2,
    (by norm_num [Camera.getFarClipCoordinatesChecked, Camera.getFarClipCoordinates,
      Camera.calcMatrices, stereoOffQ, stereoQ, perspQ, cameraQ,
      Camera.calcViewMatrix, CameraPersp.calcProjectionOf, CameraPersp.calcProjection,
      Vec3.length, Vec3.normalized, Vec3.add, Vec3.smul, Vec3.neg, Quat.rotate, Vec3.cross,
      tanQ, lerp])⟩

/-- C19 (counterexample): the stereo example camera with stereo disabled and
convergence `0` (near clip 1, eye separation 1).  The per-eye shift
`0.5f * 1 * (1 / 0) * 0.0f` is undefined, so `CameraStereo::getNearClipCoordinates` and
`getFarClipCoordinates` return no corners, while the base `Camera` versions return the
corners `(±1, ±1, -1)` and `(±3, ±3, -3)`. -/
theorem CameraStereo.disabled_corners_undefined_at_zero_convergence :
    stereoOffZeroQ.mIsStereo = false ∧ stereoOffZeroQ.mConvergence = 0 ∧
    CameraStereo.getNearClipCoordinatesChecked Rat.sqrt tanQ piQ stereoOffZeroQ = none ∧
    Camera.getNearClipCoordinatesChecked Rat.sqrt
        (CameraPersp.calcProjectionOf tanQ piQ stereoOffZeroQ.mLensShift)
        stereoOffZeroQ.toCamera =
      some { topLeft := ⟨-1, 1, -1⟩, topRight := ⟨1, 1, -1⟩,
             bottomLeft := ⟨-1, -1, -1⟩, bottomRight := ⟨1, -1, -1⟩ } ∧
    CameraStereo.getFarClipCoordinatesChecked Rat.sqrt tanQ piQ stereoOffZeroQ = none ∧
    Camera.getFarClipCoordinatesChecked Rat.sqrt
        (CameraPersp.calcProjectionOf tanQ piQ stereoOffZeroQ.mLensShift)
        stereoOffZeroQ.toCamera =
      some { topLeft := ⟨-3, 3, -3⟩, topRight := ⟨3, 3, -3⟩,
             bottomLeft := ⟨-3, -3, -3⟩, bottomRight := ⟨3, -3, -3⟩ } ∧
    CameraStereo.getNearClipCoordinatesChecked Rat.sqrt tanQ piQ stereoOffZeroQ ≠
      Camera.getNearClipCoordinatesChecked Rat.sqrt
        (CameraPersp.calcProjectionOf tanQ piQ stereoOffZeroQ.mLensShift)
        stereoOffZeroQ.toCamera ∧
    CameraStereo.getFarClipCoordinatesChecked Rat.sqrt tanQ piQ stereoOffZeroQ ≠
      Camera.getFarClipCoordinatesChecked Rat.sqrt
        (CameraPersp.calcProjectionOf tanQ piQ stereoOffZeroQ.mLensShift)
        stereoOffZeroQ.toCamera := by
  have hn : CameraStereo.getNearClipCoordinatesChecked Rat.sqrt tanQ piQ stereoOffZeroQ =
      none := by
    simp [CameraStereo.getNearClipCoordinatesChecked, CameraStereo.clipShiftChecked,
      CameraStereo.calcMatrices_convergence, stereoOffZeroQ]
  have hbn : Camera.getNearClipCoordinatesChecked Rat.sqrt
        (CameraPersp.calcProjectionOf tanQ piQ stereoOffZeroQ.mLensShift)
        stereoOffZeroQ.toCamera =
      some { topLeft := ⟨-1, 1, -1⟩, topRight := ⟨1, 1, -1⟩,
             bottomLeft := ⟨-1, -1, -1⟩, bottomRight := ⟨1, -1, -1⟩ } := by
    norm_num [Camera.getNearClipCoordinatesChecked, Camera.getNearClipCoordinates,
      Camera.calcMatrices, stereoOffZeroQ, stereoOffQ, stereoQ, perspQ, cameraQ,
      Camera.calcViewMatrix, CameraPersp.calcProjectionOf, CameraPersp.calcProjection,
      Vec3.length, Vec3.normalized, Vec3.add, Vec3.smul, Vec3.neg, Quat.rotate, Vec3.cross,
      tanQ, lerp]
  have hf : CameraStereo.getFarClipCoordinatesChecked Rat.sqrt tanQ piQ stereoOffZeroQ =
      none := by
    simp [CameraStereo.getFarClipCoordinatesChecked, CameraStereo.clipShiftChecked,
      CameraStereo.calcMatrices_convergence, stereoOffZeroQ]
  have hbf : Camera.getFarClipCoordinatesChecked Rat.sqrt
        (CameraPersp.calcProjectionOf tanQ piQ stereoOffZeroQ.mLensShift)
        stereoOffZeroQ.toCamera =
      some { topLeft := ⟨-3, 3, -3⟩, topRight := ⟨3, 3, -3⟩,
             bottomLeft := ⟨-3, -3, -3⟩, bottomRight := ⟨3, -3, -3⟩ } := by
    norm_num [Camera.getFarClipCoordinatesChecked, Camera.getFarClipCoordinates,
      Camera.calcMatrices, stereoOffZeroQ, stereoOffQ, stereoQ, perspQ, cameraQ,
      Camera.calcViewMatrix, CameraPersp.calcProjectionOf, CameraPersp.calcProjection,
      Vec3.length, Vec3.normalized, Vec3.add, Vec3.smul, Vec3.neg, Quat.rotate, Vec3.cross,
      tanQ, lerp]
  refine ⟨rfl, rfl, hn, hbn, hf, hbf, ?_, ?_⟩
  · rw [hn, hbn]
    exact Option.noConfusion
  · rw [hf, hbf]
    exact Option.noConfusion

end MoreWitnesses

section LensShiftFrustum

variable {K : Type} [LinearOrderedField K]

/-- The four frustum bounds that `CameraPersp::calcProjection` stores, for every
lens shift, zero or not: with `T = nearClip * tan(fov/2)` and `R = T * aspectRatio`,
`top = T*(1+sy)`, `bottom = -T*(1-sy)`, `right = R*(1+sx)`, `left = -R*(1-sx)`. -/
lemma CameraPersp.calcProjection_frustum_bounds (tan : K → K) (pi : K) (c : CameraPersp K) :
    (CameraPersp.calcProjection tan pi c).mFrustumTop =
      c.mNearClip * tan (pi / 180 * c.mFov * (1 / 2)) * (1 + c.mLensShift.y) ∧
    (CameraPersp.calcProjection tan pi c).mFrustumBottom =
      -(c.mNearClip * tan (pi / 180 * c.mFov * (1 / 2))) * (1 - c.mLensShift.y) ∧
    (CameraPersp.calcProjection tan pi c).mFrustumRight =
      c.mNearClip * tan (pi / 180 * c.mFov * (1 / 2)) * c.mAspectRatio *
        (1 + c.mLensShift.x) ∧
    (CameraPersp.calcProjection tan pi c).mFrustumLeft =
      -(c.mNearClip * tan (pi / 180 * c.mFov * (1 / 2)) * c.mAspectRatio) *
        (1 - c.mLensShift.x) := by
  refine ⟨?_, ?_, ?_, ?_⟩
  · by_cases h : c.mLensShift.y = 0
    · simp [CameraPersp.calcProjection, h]
    · simp only [CameraPersp.calcProjection, lerp, if_pos h]
      ring
  · by_cases h : c.mLensShift.y = 0
    · simp [CameraPersp.calcProjection, h]
    · simp only [CameraPersp.calcProjection, lerp, if_pos h]
      ring
  · by_cases h : c.mLensShift.x = 0
    · simp [CameraPersp.calcProjection, h]
    · simp only [CameraPersp.calcProjection, lerp, if_pos h]
      ring
  · by_cases h : c.mLensShift.x = 0
    · simp [CameraPersp.calcProjection, h]
    · simp only [CameraPersp.calcProjection, lerp, if_pos h]
      ring

/-- The guards `mLensShift.y != 0.0f` and `mLensShift.x != 0.0f` of
`CameraPersp::calcProjection` do not change what it computes. -/
lemma CameraPersp.calcProjection_eq_unguarded (tan : K → K) (pi : K) (c : CameraPersp K) :
    CameraPersp.calcProjection tan pi c = CameraPersp.calcProjectionUnguarded tan pi c := by
  have hy : (if c.mLensShift.y ≠ 0 then
        lerp 0 (2 * (c.mNearClip * tan (pi / 180 * c.mFov * (1 / 2))))
          (1 / 2 + 1 / 2 * c.mLensShift.y)
      else c.mNearClip * tan (pi / 180 * c.mFov * (1 / 2))) =
      lerp 0 (2 * (c.mNearClip * tan (pi / 180 * c.mFov * (1 / 2))))
        (1 / 2 + 1 / 2 * c.mLensShift.y) := by
    split_ifs with h
    · rfl
    · rw [not_not] at h
      rw [h]
      simp only [lerp]
      ring
  have hy2 : (if c.mLensShift.y ≠ 0 then
        lerp (2 * -(c.mNearClip * tan (pi / 180 * c.mFov * (1 / 2)))) 0
          (1 / 2 + 1 / 2 * c.mLensShift.y)
      else -(c.mNearClip * tan (pi / 180 * c.mFov * (1 / 2)))) =
      lerp (2 * -(c.mNearClip * tan (pi / 180 * c.mFov * (1 / 2)))) 0
        (1 / 2 + 1 / 2 * c.mLensShift.y) := by
    split_ifs with h
    · rfl
    · rw [not_not] at h
      rw [h]
      simp only [lerp]
      ring
  have hx : (if c.mLensShift.x ≠ 0 then
        lerp (2 * (c.mNearClip * tan (pi / 180 * c.mFov * (1 / 2)) * c.mAspectRatio)) 0
          (1 / 2 - 1 / 2 * c.mLensShift.x)
      else c.mNearClip * tan (pi / 180 * c.mFov * (1 / 2)) * c.mAspectRatio) =
      lerp (2 * (c.mNearClip * tan (pi / 180 * c.mFov * (1 / 2)) * c.mAspectRatio)) 0
        (1 / 2 - 1 / 2 * c.mLensShift.x) := by
    split_ifs with h
    · rfl
    · rw [not_not] at h
      rw [h]
      simp only [lerp]
      ring
  have hx2 : (if c.mLensShift.x ≠ 0 then
        lerp 0 (2 * -(c.mNearClip * tan (pi / 180 * c.mFov * (1 / 2)) * c.mAspectRatio))
          (1 / 2 - 1 / 2 * c.mLensShift.x)
      else -(c.mNearClip * tan (pi / 180 * c.mFov * (1 / 2)) * c.mAspectRatio)) =
      lerp 0 (2 * -(c.mNearClip * tan (pi / 180 * c.mFov * (1 / 2)) * c.mAspectRatio))
        (1 / 2 - 1 / 2 * c.mLensShift.x) := by
    split_ifs with h
    · rfl
    · rw [not_not] at h
      rw [h]
      simp only [lerp]
      ring
  simp only [CameraPersp.calcProjection, CameraPersp.calcProjectionUnguarded, hy, hy2, hx, hx2]

/-- C21: for every perspective camera with `nearClip ≠ 0`, `tan(fov/2) ≠ 0`,
`aspectRatio ≠ 0` and every lens shift `(sx, sy)`, with `T = nearClip * tan(fov/2)`
and `R = T * aspectRatio`, `CameraPersp::calcProjection` stores
`frustumTop = T*(1+sy)`, `frustumBottom = -T*(1-sy)`, `frustumRight = R*(1+sx)`,
`frustumLeft = -R*(1-sx)`; so `frustumTop - frustumBottom = 2T` and
`frustumRight - frustumLeft = 2R` whatever the shift; the projection matrix's
off-centre terms (row 0 column 2 and row 1 column 2, the code's `p[2][0]` and
`p[2][1]`) are `sx` and `sy`; and the computation without the two `!= 0` guards gives
the same camera. -/
theorem CameraPersp.calcProjection_shift_keeps_size (tan : K → K) (pi : K)
    (c : CameraPersp K) (hn : c.mNearClip ≠ 0)
    (htan : tan (pi / 180 * c.mFov * (1 / 2)) ≠ 0) (ha : c.mAspectRatio ≠ 0) :
    (CameraPersp.calcProjection tan pi c).mFrustumTop =
      c.mNearClip * tan (pi / 180 * c.mFov * (1 / 2)) * (1 + c.mLensShift.y) ∧
    (CameraPersp.calcProjection tan pi c).mFrustumBottom =
      -(c.mNearClip * tan (pi / 180 * c.mFov * (1 / 2))) * (1 - c.mLensShift.y) ∧
    (CameraPersp.calcProjection tan pi c).mFrustumRight =
      c.mNearClip * tan (pi / 180 * c.mFov * (1 / 2)) * c.mAspectRatio *
        (1 + c.mLensShift.x) ∧
    (CameraPersp.calcProjection tan pi c).mFrustumLeft =
      -(c.mNearClip * tan (pi / 180 * c.mFov * (1 / 2)) * c.mAspectRatio) *
        (1 - c.mLensShift.x) ∧
    (CameraPersp.calcProjection tan pi c).mFrustumTop -
        (CameraPersp.calcProjection tan pi c).mFrustumBottom =
      2 * (c.mNearClip * tan (pi / 180 * c.mFov * (1 / 2))) ∧
    (CameraPersp.calcProjection tan pi c).mFrustumRight -
        (CameraPersp.calcProjection tan pi c).mFrustumLeft =
      2 * (c.mNearClip * tan (pi / 180 * c.mFov * (1 / 2)) * c.mAspectRatio) ∧
    (CameraPersp.calcProjection tan pi c).mProjectionMatrix 0 2 = c.mLensShift.x ∧
    (CameraPersp.calcProjection tan pi c).mProjectionMatrix 1 2 = c.mLensShift.y ∧
    CameraPersp.calcProjection tan pi c = CameraPersp.calcProjectionUnguarded tan pi c := by
  obtain ⟨hT, hB, hR, hL⟩ := CameraPersp.calcProjection_frustum_bounds tan pi c
  have hT0 : c.mNearClip * tan (pi / 180 * c.mFov * (1 / 2)) ≠ 0 := mul_ne_zero hn htan
  have hR0 : c.mNearClip * tan (pi / 180 * c.mFov * (1 / 2)) * c.mAspectRatio ≠ 0 :=
    mul_ne_zero hT0 ha
  have hx : (CameraPersp.calcProjection tan pi c).mProjectionMatrix 0 2 =
      ((CameraPersp.calcProjection tan pi c).mFrustumRight +
          (CameraPersp.calcProjection tan pi c).mFrustumLeft) /
        ((CameraPersp.calcProjection tan pi c).mFrustumRight -
          (CameraPersp.calcProjection tan pi c).mFrustumLeft) := rfl
  have hy : (CameraPersp.calcProjection tan pi c).mProjectionMatrix 1 2 =
      ((CameraPersp.calcProjection tan pi c).mFrustumTop +
          (CameraPersp.calcProjection tan pi c).mFrustumBottom) /
        ((CameraPersp.calcProjection tan pi c).mFrustumTop -
          (CameraPersp.calcProjection tan pi c).mFrustumBottom) := rfl
  have hh : (CameraPersp.calcProjection tan pi c).mFrustumTop -
        (CameraPersp.calcProjection tan pi c).mFrustumBottom =
      2 * (c.mNearClip * tan (pi / 180 * c.mFov * (1 / 2))) := by
    rw [hT, hB]
    ring
  have hw : (CameraPersp.calcProjection tan pi c).mFrustumRight -
        (CameraPersp.calcProjection tan pi c).mFrustumLeft =
      2 * (c.mNearClip * tan (pi / 180 * c.mFov * (1 / 2)) * c.mAspectRatio) := by
    rw [hR, hL]
    ring
  refine ⟨hT, hB, hR, hL, hh, hw, ?_, ?_, CameraPersp.calcProjection_eq_unguarded tan pi c⟩
  · rw [hx, hw, hR, hL]
    generalize tan (pi / 180 * c.mFov * (1 / 2)) = tn at htan ⊢
    field_simp
    ring
  · rw [hy, hh, hT, hB]
    generalize tan (pi / 180 * c.mFov * (1 / 2)) = tn at htan ⊢
    field_simp
    ring

/-- C21 witness: the example camera (near 1, field of view 90 degrees, aspect 1)
with lens shift `(1/2, 1/4)`: the bounds are `top = 5/4`, `bottom = -3/4`,
`right = 3/2`, `left = -1/2`, the frustum is still 2 by 2, and the off-centre terms of
the projection matrix are `1/2` and `1/4`. -/
theorem CameraPersp.calcProjection_shift_keeps_size_witness :
    (CameraPersp.calcProjection tanQ piQ perspShiftedQ).mFrustumTop = 5 / 4 ∧
    (CameraPersp.calcProjection tanQ piQ perspShiftedQ).mFrustumBottom = -(3 / 4) ∧
    (CameraPersp.calcProjection tanQ piQ perspShiftedQ).mFrustumRight = 3 / 2 ∧
    (CameraPersp.calcProjection tanQ piQ perspShiftedQ).mFrustumLeft = -(1 / 2) ∧
    (CameraPersp.calcProjection tanQ piQ perspShiftedQ).mFrustumTop -
      (CameraPersp.calcProjection tanQ piQ perspShiftedQ).mFrustumBottom = 2 ∧
    (CameraPersp.calcProjection tanQ piQ perspShiftedQ).mFrustumRight -
      (CameraPersp.calcProjection tanQ piQ perspShiftedQ).mFrustumLeft = 2 ∧
    (CameraPersp.calcProjection tanQ piQ perspShiftedQ).mProjectionMatrix 0 2 = 1 / 2 ∧
    (CameraPersp.calcProjection tanQ piQ perspShiftedQ).mProjectionMatrix 1 2 = 1 / 4 ∧
    CameraPersp.calcProjection tanQ piQ perspShiftedQ =
      CameraPersp.calcProjectionUnguarded tanQ piQ perspShiftedQ := by
  have h := CameraPersp.calcProjection_shift_keeps_size tanQ piQ perspShiftedQ
    (by norm_num [perspShiftedQ, CameraPersp.setLensShift, perspQ, cameraQ])
    (by norm_num [perspShiftedQ, CameraPersp.setLensShift, perspQ, cameraQ, tanQ, piQ])
    (by norm_num [perspShiftedQ, CameraPersp.setLensShift, perspQ, cameraQ])
  have hT : perspShiftedQ.mNearClip * tanQ (piQ / 180 * perspShiftedQ.mFov * (1 / 2)) = 1 := by
    norm_num [perspShiftedQ, CameraPersp.setLensShift, perspQ, cameraQ, tanQ, piQ]
  have ha : perspShiftedQ.mAspectRatio = 1 := rfl
  have hsx : perspShiftedQ.mLensShift.x = 1 / 2 := rfl
  have hsy : perspShiftedQ.mLensShift.y = 1 / 4 := rfl
  rw [hT, ha, hsx, hsy] at h
  norm_num at h
  exact h

end LensShiftFrustum

end cinder
